import Mathlib

/-!
The srcanlzr complexity analyzer and project decoder.

A shallow embedding of `anlzr/complexity.go` and `src/decode.go`.

Conventions of the embedding:

* Go `int64` counters are Lean `Int`. Every counter below is bounded by the
  number of functions, statements and return specifiers held in memory, so
  64-bit wrap-around is out of reach and is not modelled.
* Go `float32` values are IEEE 754 binary32 values: finite values, two
  infinities and `NaN`; every operation rounds to nearest, ties to even.
* A Go `interface{}` value is a value of an inductive type with one
  constructor per dynamic type the program distinguishes.
-/

namespace Srcanlzr

/-! ## Program model read by the complexity analyzer -/

/-- Modelled from the spec: the statement types `src.IfStatement`,
`src.ForStatement`, `src.CallStatement` (and the remaining variants) are
declared in a file that is not part of the sources; `complexity.go` reads
only the dynamic type of a statement and the `StmtList` of an `If`/`Loop`.
`Statement` is Go's `type Statement interface{}` (statement.go): a value
whose dynamic type is one of the statement structs, or `*Statement`, the
type of the expression `&s` for a variable `s` of type `Statement`. -/
inductive Statement where
  | IfStatement (StmtList : List Statement)
  | ForStatement (StmtList : List Statement)
  | CallStatement
  | AssignStatement
  | OtherStatement
  | Pointer (target : Statement)
  deriving Repr

/-- Modelled from the spec: `src.Function` as read by `Analyze`: an ordered
statement body and an ordered list of return specifiers, of which only the
length is read. -/
structure Function where
  Name : String := ""
  StmtList : List Statement := []
  Return : List String := []
  deriving Repr

/-- Modelled from the spec: `src.Method` as read by `Analyze`. -/
structure Method where
  Name : String := ""
  StmtList : List Statement := []
  Return : List String := []
  deriving Repr

/-- Modelled from the spec: a class, of which `Analyze` reads `Methods`. -/
structure Class where
  Name : String := ""
  Methods : List Method := []
  deriving Repr

/-- Modelled from the spec: a module, of which `Analyze` reads `Methods`. -/
structure Module where
  Name : String := ""
  Methods : List Method := []
  deriving Repr

/-- Modelled from the spec: a source file as read by `Analyze`. -/
structure SourceFile where
  Path : String := ""
  Functions : List Function := []
  Classes : List Class := []
  Modules : List Module := []
  deriving Repr

/-- Modelled from the spec: a package as read by `Analyze`. -/
structure AnalyzedPackage where
  Name : String := ""
  SourceFiles : List SourceFile := []
  deriving Repr

/-- Modelled from the spec: a project as read by `Analyze`. -/
structure AnalyzedProject where
  Name : String := ""
  Packages : List AnalyzedPackage := []
  deriving Repr

/-! ## float32

Go's `float32` is the IEEE 754 binary32 format, and the conversion, the
addition and the division of complexity.go each round their exact result to
the nearest `float32`, ties to the even significand. Every finite `float32`
is a whole multiple of `2^-149`, the smallest positive value, so a finite
value is held as its sign and its magnitude counted in that unit. -/

/-- A `float32` value: `finite neg k` is `k * 2^-149` with the sign `neg`
(there are two zeros), `inf neg` an infinity, `NaN` the result of an invalid
operation such as `0 / 0`. The finite values are those with
`k < 2^24 * 2^s` a multiple of `2^s` for some `s ≤ 253`: a significand of 24
bits, the largest being `(2^24 - 1) * 2^253 * 2^-149`. -/
inductive float32 where
  | finite (neg : Bool) (k : Nat)
  | inf (neg : Bool)
  | NaN
  deriving DecidableEq, Repr

/-- The binade of a magnitude of `t` units (rounded down to a whole number
of units): the least `s` with `t < 2^24 * 2^s`, found by halving at most
`fuel` times. The `float32` values of that binade are `2^s` units apart. -/
def float32.shift : Nat → Nat → Nat
  | 0, _ => 0
  | fuel + 1, t => if t < 2 ^ 24 then 0 else float32.shift fuel (t / 2) + 1

/-- The whole number nearest to `a / b`, the even one of the two when
`a / b` lies halfway between them. -/
def float32.roundHalfEven (a b : Nat) : Nat :=
  let q := a / b
  let r := a % b
  if 2 * r < b then q
  else if b < 2 * r then q + 1
  else if q % 2 = 0 then q
  else q + 1

/-- Rounding to `float32`: the value nearest to the magnitude of `a / b`
units (`0 < b`) with the sign `neg`, ties to even; a magnitude that rounds
to `2^128` or more overflows to the infinity of that sign. -/
def float32.round (neg : Bool) (a b : Nat) : float32 :=
  let t := a / b
  if 2 ^ 128 * 2 ^ 149 ≤ t then .inf neg
  else
    let s := float32.shift 254 t
    let k := float32.roundHalfEven a (b * 2 ^ s) * 2 ^ s
    if 2 ^ 128 * 2 ^ 149 ≤ k then .inf neg else .finite neg k

/-- Conversion `float32(n)` of an `int64`: `n` rounded to `float32`. -/
def float32.ofInt64 (n : Int) : float32 :=
  float32.round (decide (n < 0)) (n.natAbs * 2 ^ 149) 1

/-- Addition of two `float32` values: the exact sum rounded; an exact sum of
zero is `+0` unless both operands are `-0`. -/
def float32.add : float32 → float32 → float32
  | .NaN, _ => .NaN
  | _, .NaN => .NaN
  | .inf s, .inf t => if s = t then .inf s else .NaN
  | .inf s, .finite _ _ => .inf s
  | .finite _ _, .inf t => .inf t
  | .finite s a, .finite t b =>
    if s = t then float32.round s (a + b) 1
    else if a = b then .finite false 0
    else if b < a then float32.round s (a - b) 1
    else float32.round t (b - a) 1

/-- Division `a / b` of two `float32` values: the exact quotient rounded;
`0 / 0` and `inf / inf` are `NaN`, a non-zero value over zero is an
infinity. The sign is negative when the signs of the operands differ. -/
def float32.div : float32 → float32 → float32
  | .NaN, _ => .NaN
  | _, .NaN => .NaN
  | .inf _, .inf _ => .NaN
  | .inf s, .finite t _ => .inf (s != t)
  | .finite s _, .inf t => .finite (s != t) 0
  | .finite s a, .finite t b =>
    if b = 0 then (if a = 0 then .NaN else .inf (s != t))
    else float32.round (s != t) (a * 2 ^ 149) b

/-- The rational number a finite `float32` stands for. -/
def float32.toRat : float32 → Option ℚ
  | .finite neg k => some ((if neg then -1 else 1) * (k : ℚ) / 2 ^ 149)
  | _ => none

/-- The rational `q` rounded to `float32`. -/
def float32.ofRat (q : ℚ) : float32 :=
  float32.round (decide (q < 0)) (q.num.natAbs * 2 ^ 149) q.den

/-- The rational `q` is a `float32` value: rounding leaves it unchanged. -/
def float32.Exact (q : ℚ) : Prop := (float32.ofRat q).toRat = some q

/-- The sum of a list of `float32` values added from the left, starting
from `+0`, as the loop of `Analyze` adds the per-file averages. -/
def float32.sum (l : List float32) : float32 :=
  l.foldl float32.add (.finite false 0)

/-! ## complexity.go -/

mutual
/-- Source: `statementComplexity` (complexity.go:114-142). The type switch
matches the dynamic types `IfStatement`, `ForStatement` and `CallStatement`;
every other dynamic type leaves `c` at 0. -/
def statementComplexity : Statement → Int
  | .IfStatement StmtList => statementComplexityLoop StmtList 1
  | .ForStatement StmtList => statementComplexityLoop StmtList 1
  | .CallStatement => 1
  | .AssignStatement => 0
  | .OtherStatement => 0
  | .Pointer _ => 0
/-- The loop `for _, s := range stmt.StmtList { c += statementComplexity(s) }`
with `c` the running value. -/
def statementComplexityLoop : List Statement → Int → Int
  | [], c => c
  | s :: rest, c => statementComplexityLoop rest (c + statementComplexity s)
end

/-- Source: `functionCyclomaticComplexity` (complexity.go:94-102). The loop
body is `cc += statementComplexity(&s)`: the argument is the address of the
loop variable, a value of dynamic type `*Statement`. -/
def functionCyclomaticComplexity (f : Function) : Int :=
  f.StmtList.foldl (fun cc s => cc + statementComplexity (.Pointer s)) 1

/-- Source: `methodCyclomaticComplexity` (complexity.go:104-112). -/
def methodCyclomaticComplexity (m : Method) : Int :=
  m.StmtList.foldl (fun cc s => cc + statementComplexity (.Pointer s)) 1

/-- The inner loop of `Analyze` (complexity.go:33-38, 48-53, 65-70): one is
added to `fileComplexity` for each element of the body whose dynamic type is
`IfStatement` or `ForStatement`. -/
def topLevelDecisions (StmtList : List Statement) (fileComplexity : Int) : Int :=
  StmtList.foldl
    (fun fc stmt =>
      match stmt with
      | .IfStatement _ => fc + 1
      | .ForStatement _ => fc + 1
      | _ => fc)
    fileComplexity

/-- The two per-file counters of `Analyze`. -/
structure FileCounters where
  fileComplexity : Int := 0
  numFuncs : Int := 0
  deriving DecidableEq, Repr

/-- Body of `for _, f := range sf.Functions` (complexity.go:29-41). -/
def analyzeFunction (c : FileCounters) (f : Function) : FileCounters :=
  let numFuncs := c.numFuncs + 1
  let fileComplexity := c.fileComplexity + functionCyclomaticComplexity f
  let fileComplexity := topLevelDecisions f.StmtList fileComplexity
  let fileComplexity := fileComplexity + (f.Return.length : Int)
  { fileComplexity := fileComplexity, numFuncs := numFuncs }

/-- Body of `for _, m := range cls.Methods` and of
`for _, m := range mod.Methods` (complexity.go:44-57, 61-74). -/
def analyzeMethod (c : FileCounters) (m : Method) : FileCounters :=
  let numFuncs := c.numFuncs + 1
  let fileComplexity := c.fileComplexity + methodCyclomaticComplexity m
  let fileComplexity := topLevelDecisions m.StmtList fileComplexity
  let fileComplexity := fileComplexity + (m.Return.length : Int)
  { fileComplexity := fileComplexity, numFuncs := numFuncs }

/-- The three loops over one source file (complexity.go:26-75), from
`fileComplexity = 0` and `numFuncs = 0`. -/
def analyzeFile (sf : SourceFile) : FileCounters :=
  let c : FileCounters := {}
  let c := sf.Functions.foldl analyzeFunction c
  let c := sf.Classes.foldl (fun c cls => cls.Methods.foldl analyzeMethod c) c
  let c := sf.Modules.foldl (fun c mod => mod.Methods.foldl analyzeMethod c) c
  c

/-- The four accumulators of `Analyze` (complexity.go:18-22). -/
structure Accumulators where
  totalFuncs : Int := 0
  totalFiles : Int := 0
  totalComplexityPerFunc : Int := 0
  totalComplexityPerFile : float32 := .finite false 0
  deriving DecidableEq

/-- Body of `for _, sf := range pkg.SourceFiles` (complexity.go:25-83). -/
def analyzeSourceFile (a : Accumulators) (sf : SourceFile) : Accumulators :=
  let c := analyzeFile sf
  if c.numFuncs > 0 then
    { totalFiles := a.totalFiles + 1
      totalFuncs := a.totalFuncs + c.numFuncs
      totalComplexityPerFunc := a.totalComplexityPerFunc + c.fileComplexity
      totalComplexityPerFile :=
        a.totalComplexityPerFile.add
          ((float32.ofInt64 c.fileComplexity).div (float32.ofInt64 c.numFuncs)) }
  else a

/-- The loops over packages and source files (complexity.go:24-84). -/
def accumulate (p : AnalyzedProject) : Accumulators :=
  p.Packages.foldl (fun a pkg => pkg.SourceFiles.foldl analyzeSourceFile a) {}

/-- The type `ComplexityMetrics` stored in the result. -/
structure ComplexityMetrics where
  AveragePerFunc : float32
  AveragePerFile : float32
  deriving DecidableEq

/-- Source: `Complexity.Analyze` (complexity.go:15-92); the value is what is
stored in `r.Complexity`. The returned error is always `nil`. -/
def Analyze (p : AnalyzedProject) : ComplexityMetrics :=
  let a := accumulate p
  { AveragePerFunc :=
      (float32.ofInt64 a.totalComplexityPerFunc).div (float32.ofInt64 a.totalFuncs)
    AveragePerFile := a.totalComplexityPerFile.div (float32.ofInt64 a.totalFiles) }

/-! ## Definitions that follow the specification's wording -/

mutual
/-- Specification side: number of `If`, `Loop` and `Call` statements in the
tree rooted at one statement, the children of an `If`/`Loop` being the
elements of its body. -/
def decisionNodes : Statement → Nat
  | .IfStatement StmtList => 1 + nestedDecisions StmtList
  | .ForStatement StmtList => 1 + nestedDecisions StmtList
  | .CallStatement => 1
  | .AssignStatement => 0
  | .OtherStatement => 0
  | .Pointer _ => 0
/-- Specification side: number of `If`, `Loop` and `Call` statements
occurring in a body at any nesting depth. -/
def nestedDecisions : List Statement → Nat
  | [] => 0
  | s :: rest => decisionNodes s + nestedDecisions rest
end

/-- Specification side: whether a statement is an `If` or a `Loop`. -/
def isIfOrLoop : Statement → Bool
  | .IfStatement _ => true
  | .ForStatement _ => true
  | _ => false

/-- Specification side: number of `If`/`Loop` statements that are direct
elements of a body. -/
def topLevelCount (B : List Statement) : Nat := B.countP isIfOrLoop

/-- Specification side: the complexity section 4.4 assigns to a body `B` with
return list `R`. -/
def specComplexity (B : List Statement) (R : List String) : Int :=
  1 + (nestedDecisions B : Int) + (topLevelCount B : Int) + (R.length : Int)

/-- What `Analyze` adds to `fileComplexity` for one function. -/
def functionComplexity (f : Function) : Int :=
  (analyzeFunction {} f).fileComplexity

/-- What `Analyze` adds to `fileComplexity` for one method. -/
def methodComplexity (m : Method) : Int :=
  (analyzeMethod {} m).fileComplexity

/-- The complexities of the functions and methods of a file, in the order
`Analyze` visits them. -/
def fileComplexities (sf : SourceFile) : List Int :=
  sf.Functions.map functionComplexity
    ++ (sf.Classes.map (fun cls => cls.Methods.map methodComplexity)).flatten
    ++ (sf.Modules.map (fun mod => mod.Methods.map methodComplexity)).flatten

/-- A file contributes when it declares at least one function or method. -/
def contributes (sf : SourceFile) : Bool := 0 < (fileComplexities sf).length

/-- All source files of a project, in the order `Analyze` visits them. -/
def allFiles (p : AnalyzedProject) : List SourceFile :=
  (p.Packages.map (fun pkg => pkg.SourceFiles)).flatten

/-- The contributing files of a project. -/
def contributingFiles (p : AnalyzedProject) : List SourceFile :=
  (allFiles p).filter contributes

/-- The per-file average of a file: file total over file function count. -/
def fileAverage (sf : SourceFile) : ℚ :=
  ((fileComplexities sf).sum : ℚ) / ((fileComplexities sf).length : ℚ)

/-- The per-file average as `Analyze` computes it (complexity.go:81):
`float32(fileComplexity) / float32(numFuncs)`. -/
def fileQuotient (sf : SourceFile) : float32 :=
  (float32.ofInt64 (fileComplexities sf).sum).div
    (float32.ofInt64 ((fileComplexities sf).length : Int))

/-- The sum of the per-function complexities of the contributing files. -/
def totalComplexity (p : AnalyzedProject) : Int :=
  ((contributingFiles p).map (fun sf => (fileComplexities sf).sum)).sum

/-- The number of functions and methods of the contributing files. -/
def totalFunctions (p : AnalyzedProject) : Nat :=
  ((contributingFiles p).map (fun sf => (fileComplexities sf).length)).sum

/-! ## Scanner and decoded model -/

/-- A Go `error` value. `io.EOF` is a sentinel compared by identity; every
other error of the decoder is built from a text by `errors.New` or
`fmt.Errorf`. -/
inductive GoError where
  | EOF
  | text (msg : String)
  deriving DecidableEq, Repr

/-- The method `Error()` of an error. -/
def GoError.Error : GoError → String
  | .EOF => "EOF"
  | .text msg => msg

/-- Modelled from the spec: the token kinds returned by `nextValue`
(section 4.1); decode.go names `scanBeginObject`, `scanEndObject`,
`scanBeginArray`, `scanEndArray`, `scanComma`, `scanStringLit` and
`scanIntLit`, whose declaration is not part of the sources. -/
inductive scanToken where
  | scanBeginObject
  | scanEndObject
  | scanBeginArray
  | scanEndArray
  | scanComma
  | scanStringLit
  | scanIntLit
  | scanOtherLit
  deriving DecidableEq, Repr

/-- Modelled from the spec: the text `%v` prints for a token kind; the
declaration of the token type is not part of the sources. -/
def scanToken.String : scanToken → String
  | .scanBeginObject => "begin object"
  | .scanEndObject => "end object"
  | .scanBeginArray => "begin array"
  | .scanEndArray => "end array"
  | .scanComma => "comma"
  | .scanStringLit => "string literal"
  | .scanIntLit => "integer literal"
  | .scanOtherLit => "literal"

/-- One element of the scanner's input: a key (a string literal immediately
followed by a colon) or a value token with its raw payload (`nil` or
bytes). -/
inductive Input where
  | key (k : String)
  | value (tok : scanToken) (val : Option String)
  deriving DecidableEq, Repr

/-- Modelled from the spec: the first raw byte of an input element, as seen
by `peek`. -/
def Input.firstByte : Input → Char
  | .key _ => '"'
  | .value .scanBeginObject _ => '{'
  | .value .scanEndObject _ => '}'
  | .value .scanBeginArray _ => '['
  | .value .scanEndArray _ => ']'
  | .value .scanComma _ => ','
  | .value .scanStringLit _ => '"'
  | .value .scanIntLit val => ((val.getD "0").toList.headD '0')
  | .value .scanOtherLit val => ((val.getD "n").toList.headD 'n')

/-- Modelled from the spec: the scanner of section 4.1, whose source file is
not part of the sources, over an input that is already split into keys and
value tokens. `pos` is the number of elements consumed. -/
structure scanner where
  input : List Input
  pos : Nat := 0
  deriving DecidableEq, Repr

/-- Modelled from the spec: `nextKey` advances past a key and returns its
text; at the end of the input it returns `io.EOF`; anything else is a scan
error and is not consumed. -/
def scanner.nextKey (s : scanner) : Except GoError String × scanner :=
  match s.input.get? s.pos with
  | none => (.error .EOF, s)
  | some (.key k) => (.ok k, { s with pos := s.pos + 1 })
  | some (.value _ _) => (.error (.text "scan: expected a key"), s)

/-- Modelled from the spec: `nextValue` returns the raw payload and the kind
of the next token and consumes it; at the end of the input it returns
`io.EOF`; a key where a value is expected is a scan error and is not
consumed. -/
def scanner.nextValue (s : scanner) : Except GoError (Option String × scanToken) × scanner :=
  match s.input.get? s.pos with
  | none => (.error .EOF, s)
  | some (.value tok val) => (.ok (val, tok), { s with pos := s.pos + 1 })
  | some (.key _) => (.error (.text "scan: expected a value"), s)

/-- Modelled from the spec: `peek` returns the next raw byte without
consuming it, `io.EOF` at the end of the input. -/
def scanner.peek (s : scanner) : Except GoError Char :=
  match s.input.get? s.pos with
  | none => .error .EOF
  | some i => .ok i.firstByte

/-- Modelled from the spec: `back` un-consumes the most recently returned
token. -/
def scanner.back (s : scanner) : scanner :=
  { s with pos := s.pos - 1 }

/-- Modelled from the spec: values of the types `model.Repository`,
`ast.StructType`, `ast.GlobalDecl`, `ast.FuncDecl`, `ast.Interface`,
`ast.ClassDecl`, `ast.EnumDecl`, `ast.Trait`, `ast.Ident` and `ast.Expr`,
declared outside the sources; their decoders are stubs that return `nil`. -/
structure Undecoded where
  payload : String := ""
  deriving DecidableEq, Repr

/-- Modelled from the spec: `src.Language` as written by `decodeLanguage`.
A slice is `none` when it is `nil`. -/
structure Language where
  Lang : String := ""
  Paradigms : Option (List String) := none
  deriving DecidableEq, Repr

/-- Modelled from the spec: `ast.TypeSpec` as written by `decodeTypeSpec`. -/
structure TypeSpec where
  Doc : Option (List String) := none
  Name : Option Undecoded := none
  Type_ : Option Undecoded := none
  deriving DecidableEq, Repr

/-- Modelled from the spec: `src.SrcFile` as written by `decodeSrcFile`.
A pointer is `none` when it is `nil`. -/
structure SrcFile where
  Path : String := ""
  Lang : Option Language := none
  Imports : Option (List String) := none
  TypeSpecs : Option (List (Option TypeSpec)) := none
  Structs : Option (List Undecoded) := none
  Constants : Option (List Undecoded) := none
  Vars : Option (List Undecoded) := none
  Funcs : Option (List Undecoded) := none
  Interfaces : Option (List Undecoded) := none
  Classes : Option (List Undecoded) := none
  Enums : Option (List Undecoded) := none
  Traits : Option (List Undecoded) := none
  LoC : Int := 0
  deriving DecidableEq, Repr

/-- Modelled from the spec: `src.Package` as written by `decodePackage`. -/
structure Package where
  Name : String := ""
  LoC : Int := 0
  Doc : Option (List String) := none
  SrcFiles : Option (List (Option SrcFile)) := none
  deriving DecidableEq, Repr

/-- Modelled from the spec: `src.Project` as written by `decodeProject`. -/
structure Project where
  Name : String := ""
  LoC : Int := 0
  Packages : Option (List (Option Package)) := none
  Langs : Option (List (Option Language)) := none
  Repo : Option Undecoded := none
  deriving DecidableEq, Repr

/-! ## decode.go: the decoder and its helpers -/

/-- Source: `type decoder struct` (decode.go:33-37); `err` is `none` when it
is `nil`. The field `buf` is never read or written by decode.go. -/
structure decoder where
  scan : scanner
  err : Option GoError := none
  deriving DecidableEq, Repr

/-- Source: `decoder.errorf` (decode.go:53-55). -/
def decoder.errorf (v : GoError) : GoError :=
  .text ("malformed json: " ++ v.Error)

/-- Source: `decoder.unmarshalInt` (decode.go:643-645), a stub. -/
def decoder.unmarshalInt (_data : Option String) : Int × Option GoError :=
  (0, none)

/-- Source: `decoder.unmarshalString` (decode.go:648-653). -/
def decoder.unmarshalString (data : Option String) : String × Option GoError :=
  match data with
  | none => ("", some (.text "unable to unmarshal string: data is nil"))
  | some bytes => (bytes, none)

/-- Source: `decoder.assertNewObject` (decode.go:658-670). -/
def decoder.assertNewObject (dec : decoder) : Bool × decoder :=
  match dec.scan.nextValue with
  | (.error err, scan) => (false, { scan := scan, err := some err })
  | (.ok (_, tok), scan) =>
    if tok ≠ .scanBeginObject then
      (false, { scan := scan, err := some (.text ("expected object, found '" ++ tok.String ++ "'")) })
    else (true, { dec with scan := scan })

/-- Source: `decoder.assertNewArray` (decode.go:675-686). -/
def decoder.assertNewArray (dec : decoder) : Bool × decoder :=
  match dec.scan.nextValue with
  | (.error err, scan) => (false, { scan := scan, err := some err })
  | (.ok (_, tok), scan) =>
    if tok ≠ .scanBeginArray then
      (false, { scan := scan, err := some (.text ("expected array, found '" ++ tok.String ++ "'")) })
    else (true, { dec with scan := scan })

/-- Source: `decoder.isEndObject` (decode.go:691-704). -/
def decoder.isEndObject (dec : decoder) : Bool × decoder :=
  match dec.scan.nextValue with
  | (.error err, scan) => (false, { scan := scan, err := some err })
  | (.ok (_, tok), scan) =>
    if tok = .scanEndObject then (true, { dec with scan := scan })
    else if tok ≠ .scanComma then
      (false, { scan := scan, err := some (.text ("expected 'comma', found '" ++ tok.String ++ "'")) })
    else (false, { dec with scan := scan })

/-- Source: `decoder.isEndArray` (decode.go:709-722). -/
def decoder.isEndArray (dec : decoder) : Bool × decoder :=
  match dec.scan.nextValue with
  | (.error err, scan) => (false, { scan := scan, err := some err })
  | (.ok (_, tok), scan) =>
    if tok = .scanEndArray then (true, { dec with scan := scan })
    else if tok ≠ .scanComma then
      (false, { scan := scan, err := some (.text ("expected 'comma', found '" ++ tok.String ++ "'")) })
    else (false, { dec with scan := scan })

/-- Source: `decoder.isEmptyObject` (decode.go:729-743). -/
def decoder.isEmptyObject (dec : decoder) : Bool × decoder :=
  match dec.scan.peek with
  | .error err =>
    if err = .EOF then (false, { dec with err := some (.text "unexpected EOF") })
    else (false, { dec with err := some err })
  | .ok b => if b = '}' then (true, dec) else (false, dec)

/-- Source: `decoder.isEmptyArray` (decode.go:750-762). -/
def decoder.isEmptyArray (dec : decoder) : Bool × decoder :=
  match dec.scan.peek with
  | .error err =>
    if err = .EOF then (false, { dec with err := some (.text "unexpected EOF") })
    else (false, { dec with err := some err })
  | .ok b => if b = ']' then (true, dec) else (false, dec)

/-! ## decode.go: the recursive descent

Every `for { ... }` loop of decode.go is a function with a bound on the
number of iterations; a result `none` means that the bound was reached.
The functions that enter a loop pass `input.length + 1`, and
`decoder.decodeProject_returns` below shows that the bound is never
reached. A function
that returns a pointer or a slice returns `none` inside the pair for
`nil`. -/

/-- The number of iterations granted to a loop entered in state `dec`. -/
def decoder.loopBound (dec : decoder) : Nat := dec.scan.input.length + 1

/-- The loop of `decodeStringsList` (decode.go:516-534); `sl` is the slice
built so far. -/
def decoder.decodeStringsListLoop :
    Nat → decoder → List String → Option (Option (List String) × decoder)
  | 0, _, _ => none
  | fuel + 1, dec, sl =>
    match dec.scan.nextValue with
    | (.error err, scan) => some (none, { scan := scan, err := some err })
    | (.ok (val, tok), scan) =>
      if tok ≠ .scanStringLit then
        some (none, { scan := scan, err := some (.text ("expected string, found " ++ tok.String)) })
      else
        let sl := sl ++ [val.getD ""]
        match decoder.isEndArray { dec with scan := scan } with
        | (true, dec) => some (some sl, dec)
        | (false, dec) =>
          if dec.err.isSome then some (none, dec)
          else decoder.decodeStringsListLoop fuel dec sl

/-- Source: `decoder.decodeStringsList` (decode.go:502-536). -/
def decoder.decodeStringsList (dec : decoder) : Option (Option (List String) × decoder) :=
  match dec.assertNewArray with
  | (false, dec) => some (none, dec)
  | (true, dec) =>
    match dec.isEmptyArray with
    | (true, dec) => some (some [], dec)
    | (false, dec) =>
      if dec.err.isSome then some (none, dec)
      else decoder.decodeStringsListLoop dec.loopBound dec []

/-- The `switch key` of `decodeLanguage` (decode.go:607-621). The inner
`none` is the `return nil` of the case `language`. -/
def decoder.decodeLanguageField (key : String) (val : Option String) (tok : scanToken)
    (dec : decoder) (lang : Language) : Option (Option Language × decoder) :=
  if key = "paradigms" then
    match decoder.decodeStringsList { dec with scan := dec.scan.back } with
    | none => none
    | some (paradigms, dec) => some (some { lang with Paradigms := paradigms }, dec)
  else if key = "language" then
    if tok ≠ .scanStringLit then
      some (none, { dec with
        err := some (.text ("expected 'string literal', found '" ++ tok.String ++ "'")) })
    else
      some (some { lang with Lang := (decoder.unmarshalString val).1 },
        { dec with err := (decoder.unmarshalString val).2 })
  else
    some (some lang, { dec with
      err := some (.text ("unexpected value for the key '" ++ key ++ "' of a language object")) })

/-- The loop of `decodeLanguage` (decode.go:587-633). After `isEndObject`
the source tests the local `err` of `nextValue`, which is `nil` there, so
the loop goes on whatever `dec.err` is. -/
def decoder.decodeLanguageLoop :
    Nat → decoder → Language → Option (Option Language × decoder)
  | 0, _, _ => none
  | fuel + 1, dec, lang =>
    match dec.scan.nextKey with
    | (.error err, scan) =>
      if err = .EOF then some (some lang, { dec with scan := scan })
      else some (none, { scan := scan, err := some err })
    | (.ok key, scan) =>
      if key = "" then some (none, { scan := scan, err := some (.text "empty key") })
      else
        match scan.nextValue with
        | (.error err, scan) => some (none, { scan := scan, err := some err })
        | (.ok (val, tok), scan) =>
          match decoder.decodeLanguageField key val tok { dec with scan := scan } lang with
          | none => none
          | some (none, dec) => some (none, dec)
          | some (some lang, dec) =>
            if dec.err.isSome then some (none, dec)
            else
              match dec.isEndObject with
              | (true, dec) => some (some lang, dec)
              | (false, dec) => decoder.decodeLanguageLoop fuel dec lang

/-- Source: `decoder.decodeLanguage` (decode.go:573-635). -/
def decoder.decodeLanguage (dec : decoder) : Option (Option Language × decoder) :=
  match dec.assertNewObject with
  | (false, dec) => some (none, dec)
  | (true, dec) =>
    match dec.isEmptyObject with
    | (true, dec) => some (some {}, dec)
    | (false, dec) =>
      if dec.err.isSome then some (none, dec)
      else decoder.decodeLanguageLoop dec.loopBound dec {}

/-- The loop of `decodeLanguages` (decode.go:553-567). -/
def decoder.decodeLanguagesLoop :
    Nat → decoder → List (Option Language) → Option (Option (List (Option Language)) × decoder)
  | 0, _, _ => none
  | fuel + 1, dec, ls =>
    match dec.decodeLanguage with
    | none => none
    | some (lang, dec) =>
      if dec.err.isSome then some (none, dec)
      else
        let ls := ls ++ [lang]
        match dec.isEndArray with
        | (true, dec) => some (some ls, dec)
        | (false, dec) =>
          if dec.err.isSome then some (none, dec)
          else decoder.decodeLanguagesLoop fuel dec ls

/-- Source: `decoder.decodeLanguages` (decode.go:539-570). -/
def decoder.decodeLanguages (dec : decoder) :
    Option (Option (List (Option Language)) × decoder) :=
  match dec.assertNewArray with
  | (false, dec) => some (none, dec)
  | (true, dec) =>
    match dec.isEmptyArray with
    | (true, dec) => some (some [], dec)
    | (false, dec) =>
      if dec.err.isSome then some (none, dec)
      else decoder.decodeLanguagesLoop dec.loopBound dec []

/-- Source: the stubs `decodeStructs`, `decodeGlobalDecls`, `decodeFuncs`,
`decodeInterfaces`, `decodeClassDecls`, `decodeEnumDecls`, `decodeTraits`
(decode.go:456-489): each returns `nil` and touches neither the scanner nor
the error slot. -/
def decoder.decodeStub (_dec : decoder) : Option (List Undecoded) := none

/-- Source: the stubs `decodeIdent`, `decodeExpr` and `decodeRepository`
(decode.go:491-499, 637-640), which return `nil`. -/
def decoder.decodeNil (_dec : decoder) : Option Undecoded := none

/-- The `switch key` of `decodeTypeSpec` (decode.go:428-440). -/
def decoder.decodeTypeSpecField (key : String) (dec : decoder) (typeSpec : TypeSpec) :
    Option (Option TypeSpec × decoder) :=
  if key = "doc" then
    match decoder.decodeStringsList { dec with scan := dec.scan.back } with
    | none => none
    | some (doc, dec) => some (some { typeSpec with Doc := doc }, dec)
  else if key = "name" then
    let dec := { dec with scan := dec.scan.back }
    some (some { typeSpec with Name := dec.decodeNil }, dec)
  else if key = "type" then
    let dec := { dec with scan := dec.scan.back }
    some (some { typeSpec with Type_ := dec.decodeNil }, dec)
  else
    some (some typeSpec, { dec with
      err := some (.text ("unexpected value for the key '" ++ key ++ "' of a type specifier object")) })

/-- The loop of `decodeTypeSpec` (decode.go:408-452). -/
def decoder.decodeTypeSpecLoop :
    Nat → decoder → TypeSpec → Option (Option TypeSpec × decoder)
  | 0, _, _ => none
  | fuel + 1, dec, typeSpec =>
    match dec.scan.nextKey with
    | (.error err, scan) =>
      if err = .EOF then some (some typeSpec, { dec with scan := scan })
      else some (none, { scan := scan, err := some err })
    | (.ok key, scan) =>
      if key = "" then some (none, { scan := scan, err := some (.text "empty key") })
      else
        match scan.nextValue with
        | (.error err, scan) => some (none, { scan := scan, err := some err })
        | (.ok (_, _), scan) =>
          match decoder.decodeTypeSpecField key { dec with scan := scan } typeSpec with
          | none => none
          | some (none, dec) => some (none, dec)
          | some (some typeSpec, dec) =>
            if dec.err.isSome then some (none, dec)
            else
              match dec.isEndObject with
              | (true, dec) => some (some typeSpec, dec)
              | (false, dec) => decoder.decodeTypeSpecLoop fuel dec typeSpec

/-- Source: `decoder.decodeTypeSpec` (decode.go:394-454). -/
def decoder.decodeTypeSpec (dec : decoder) : Option (Option TypeSpec × decoder) :=
  match dec.assertNewObject with
  | (false, dec) => some (none, dec)
  | (true, dec) =>
    match dec.isEmptyObject with
    | (true, dec) => some (some {}, dec)
    | (false, dec) =>
      if dec.err.isSome then some (none, dec)
      else decoder.decodeTypeSpecLoop dec.loopBound dec {}

/-- The loop of `decodeTypeSpecs` (decode.go:374-388). -/
def decoder.decodeTypeSpecsLoop :
    Nat → decoder → List (Option TypeSpec) → Option (Option (List (Option TypeSpec)) × decoder)
  | 0, _, _ => none
  | fuel + 1, dec, ts =>
    match dec.decodeTypeSpec with
    | none => none
    | some (typeSpec, dec) =>
      if dec.err.isSome then some (none, dec)
      else
        let ts := ts ++ [typeSpec]
        match dec.isEndArray with
        | (true, dec) => some (some ts, dec)
        | (false, dec) =>
          if dec.err.isSome then some (none, dec)
          else decoder.decodeTypeSpecsLoop fuel dec ts

/-- Source: `decoder.decodeTypeSpecs` (decode.go:360-391). -/
def decoder.decodeTypeSpecs (dec : decoder) :
    Option (Option (List (Option TypeSpec)) × decoder) :=
  match dec.assertNewArray with
  | (false, dec) => some (none, dec)
  | (true, dec) =>
    match dec.isEmptyArray with
    | (true, dec) => some (some [], dec)
    | (false, dec) =>
      if dec.err.isSome then some (none, dec)
      else decoder.decodeTypeSpecsLoop dec.loopBound dec []

/-- The `switch key` of `decodeSrcFile` (decode.go:294-341). In the case
`path` the source sets `dec.err` on a token that is no string literal and
goes on to the assignment `sf.Path, dec.err = dec.unmarshalString(val)`. The
inner `none` is the `return nil` of the case `loc`. -/
def decoder.decodeSrcFileField (key : String) (val : Option String) (tok : scanToken)
    (dec : decoder) (sf : SrcFile) : Option (Option SrcFile × decoder) :=
  if key = "path" then
    let dec :=
      if tok ≠ .scanStringLit then
        { dec with err := some (.text ("expected 'string literal', found '" ++ tok.String ++ "'")) }
      else dec
    some (some { sf with Path := (decoder.unmarshalString val).1 },
      { dec with err := (decoder.unmarshalString val).2 })
  else if key = "language" then
    match decoder.decodeLanguage { dec with scan := dec.scan.back } with
    | none => none
    | some (lang, dec) => some (some { sf with Lang := lang }, dec)
  else if key = "imports" then
    match decoder.decodeStringsList { dec with scan := dec.scan.back } with
    | none => none
    | some (imports, dec) => some (some { sf with Imports := imports }, dec)
  else if key = "type_specifiers" then
    match decoder.decodeTypeSpecs { dec with scan := dec.scan.back } with
    | none => none
    | some (ts, dec) => some (some { sf with TypeSpecs := ts }, dec)
  else if key = "structs" then
    let dec := { dec with scan := dec.scan.back }
    some (some { sf with Structs := dec.decodeStub }, dec)
  else if key = "constants" then
    let dec := { dec with scan := dec.scan.back }
    some (some { sf with Constants := dec.decodeStub }, dec)
  else if key = "variables" then
    let dec := { dec with scan := dec.scan.back }
    some (some { sf with Vars := dec.decodeStub }, dec)
  else if key = "functions" then
    let dec := { dec with scan := dec.scan.back }
    some (some { sf with Funcs := dec.decodeStub }, dec)
  else if key = "interfaces" then
    let dec := { dec with scan := dec.scan.back }
    some (some { sf with Interfaces := dec.decodeStub }, dec)
  else if key = "clases" then
    let dec := { dec with scan := dec.scan.back }
    some (some { sf with Classes := dec.decodeStub }, dec)
  else if key = "enums" then
    let dec := { dec with scan := dec.scan.back }
    some (some { sf with Enums := dec.decodeStub }, dec)
  else if key = "traits" then
    let dec := { dec with scan := dec.scan.back }
    some (some { sf with Traits := dec.decodeStub }, dec)
  else if key = "loc" then
    if tok ≠ .scanIntLit then
      some (none, { dec with
        err := some (.text ("expected integer literal, found " ++ tok.String)) })
    else
      some (some { sf with LoC := (decoder.unmarshalInt val).1 },
        { dec with err := (decoder.unmarshalInt val).2 })
  else
    some (some sf, { dec with
      err := some (.text ("unexpected value for the key '" ++ key ++ "' of a source file object")) })

/-- The loop of `decodeSrcFile` (decode.go:274-354). -/
def decoder.decodeSrcFileLoop :
    Nat → decoder → SrcFile → Option (Option SrcFile × decoder)
  | 0, _, _ => none
  | fuel + 1, dec, sf =>
    match dec.scan.nextKey with
    | (.error err, scan) =>
      if err = .EOF then some (some sf, { dec with scan := scan })
      else some (none, { scan := scan, err := some err })
    | (.ok key, scan) =>
      if key = "" then some (none, { scan := scan, err := some (.text "empty key") })
      else
        match scan.nextValue with
        | (.error err, scan) => some (none, { scan := scan, err := some err })
        | (.ok (val, tok), scan) =>
          match decoder.decodeSrcFileField key val tok { dec with scan := scan } sf with
          | none => none
          | some (none, dec) => some (none, dec)
          | some (some sf, dec) =>
            if dec.err.isSome then some (none, dec)
            else
              match dec.isEndObject with
              | (true, dec) => some (some sf, dec)
              | (false, dec) => decoder.decodeSrcFileLoop fuel dec sf

/-- Source: `decoder.decodeSrcFile` (decode.go:260-357). -/
def decoder.decodeSrcFile (dec : decoder) : Option (Option SrcFile × decoder) :=
  match dec.assertNewObject with
  | (false, dec) => some (none, dec)
  | (true, dec) =>
    match dec.isEmptyObject with
    | (true, dec) => some (some {}, dec)
    | (false, dec) =>
      if dec.err.isSome then some (none, dec)
      else decoder.decodeSrcFileLoop dec.loopBound dec {}

/-- The loop of `decodeSrcFiles` (decode.go:241-255). -/
def decoder.decodeSrcFilesLoop :
    Nat → decoder → List (Option SrcFile) → Option (Option (List (Option SrcFile)) × decoder)
  | 0, _, _ => none
  | fuel + 1, dec, sf =>
    match dec.decodeSrcFile with
    | none => none
    | some (srcFile, dec) =>
      if dec.err.isSome then some (none, dec)
      else
        let sf := sf ++ [srcFile]
        match dec.isEndArray with
        | (true, dec) => some (some sf, dec)
        | (false, dec) =>
          if dec.err.isSome then some (none, dec)
          else decoder.decodeSrcFilesLoop fuel dec sf

/-- Source: `decoder.decodeSrcFiles` (decode.go:227-258). -/
def decoder.decodeSrcFiles (dec : decoder) :
    Option (Option (List (Option SrcFile)) × decoder) :=
  match dec.assertNewArray with
  | (false, dec) => some (none, dec)
  | (true, dec) =>
    match dec.isEmptyArray with
    | (true, dec) => some (some [], dec)
    | (false, dec) =>
      if dec.err.isSome then some (none, dec)
      else decoder.decodeSrcFilesLoop dec.loopBound dec []

/-- The `switch key` of `decodePackage` (decode.go:190-209); the nested
decoders are called without `back`. The inner `none` is the `return nil` of
the cases `loc` and `name`. -/
def decoder.decodePackageField (key : String) (val : Option String) (tok : scanToken)
    (dec : decoder) (pkg : Package) : Option (Option Package × decoder) :=
  if key = "source_files" then
    match dec.decodeSrcFiles with
    | none => none
    | some (srcFiles, dec) => some (some { pkg with SrcFiles := srcFiles }, dec)
  else if key = "doc" then
    match dec.decodeStringsList with
    | none => none
    | some (doc, dec) => some (some { pkg with Doc := doc }, dec)
  else if key = "loc" then
    if tok ≠ .scanIntLit then
      some (none, { dec with
        err := some (.text ("expected integer literal, found " ++ tok.String)) })
    else
      some (some { pkg with LoC := (decoder.unmarshalInt val).1 },
        { dec with err := (decoder.unmarshalInt val).2 })
  else if key = "name" then
    if tok ≠ .scanStringLit then
      some (none, { dec with
        err := some (.text ("expected string literal, found " ++ tok.String)) })
    else
      some (some { pkg with Name := (decoder.unmarshalString val).1 },
        { dec with err := (decoder.unmarshalString val).2 })
  else
    some (some pkg, { dec with err := some (.text "unexpected value for project object") })

/-- The loop of `decodePackage` (decode.go:177-221). The result of `nextKey`
is assigned to `dec.err` itself, also when it is `nil`. -/
def decoder.decodePackageLoop :
    Nat → decoder → Package → Option (Option Package × decoder)
  | 0, _, _ => none
  | fuel + 1, dec, pkg =>
    match dec.scan.nextKey with
    | (.error err, scan) => some (none, { scan := scan, err := some err })
    | (.ok key, scan) =>
      match scan.nextValue with
      | (.error err, scan) => some (none, { scan := scan, err := some err })
      | (.ok (val, tok), scan) =>
        match decoder.decodePackageField key val tok { scan := scan, err := none } pkg with
        | none => none
        | some (none, dec) => some (none, dec)
        | some (some pkg, dec) =>
          if dec.err.isSome then some (none, dec)
          else
            match dec.isEndObject with
            | (true, dec) => some (some pkg, dec)
            | (false, dec) => decoder.decodePackageLoop fuel dec pkg

/-- Source: `decoder.decodePackage` (decode.go:163-224). -/
def decoder.decodePackage (dec : decoder) : Option (Option Package × decoder) :=
  match dec.assertNewObject with
  | (false, dec) => some (none, dec)
  | (true, dec) =>
    match dec.isEmptyObject with
    | (true, dec) => some (some {}, dec)
    | (false, dec) =>
      if dec.err.isSome then some (none, dec)
      else decoder.decodePackageLoop dec.loopBound dec {}

/-- The loop of `decodePackages` (decode.go:144-159). When the loop is left
by `break` the function returns `nil`, not `pkgs`. -/
def decoder.decodePackagesLoop :
    Nat → decoder → List (Option Package) → Option (Option (List (Option Package)) × decoder)
  | 0, _, _ => none
  | fuel + 1, dec, pkgs =>
    match dec.decodePackage with
    | none => none
    | some (pkg, dec) =>
      if dec.err.isSome then some (none, dec)
      else
        let pkgs := pkgs ++ [pkg]
        match dec.isEndArray with
        | (true, dec) => some (none, dec)
        | (false, dec) =>
          if dec.err.isSome then some (none, dec)
          else decoder.decodePackagesLoop fuel dec pkgs

/-- Source: `decoder.decodePackages` (decode.go:130-160). -/
def decoder.decodePackages (dec : decoder) :
    Option (Option (List (Option Package)) × decoder) :=
  match dec.assertNewArray with
  | (false, dec) => some (none, dec)
  | (true, dec) =>
    match dec.isEmptyArray with
    | (true, dec) => some (some [], dec)
    | (false, dec) =>
      if dec.err.isSome then some (none, dec)
      else decoder.decodePackagesLoop dec.loopBound dec []

/-- The `switch key` of `decodeProject` (decode.go:92-113); the nested
decoders are called without `back`. The inner `none` is the `return nil` of
the cases `loc` and `name`. -/
def decoder.decodeProjectField (key : String) (val : Option String) (tok : scanToken)
    (dec : decoder) (prj : Project) : Option (Option Project × decoder) :=
  if key = "packages" then
    match dec.decodePackages with
    | none => none
    | some (pkgs, dec) => some (some { prj with Packages := pkgs }, dec)
  else if key = "languages" then
    match dec.decodeLanguages with
    | none => none
    | some (langs, dec) => some (some { prj with Langs := langs }, dec)
  else if key = "repository" then
    some (some { prj with Repo := dec.decodeNil }, dec)
  else if key = "loc" then
    if tok ≠ .scanIntLit then
      some (none, { dec with
        err := some (.text ("expected integer literal, found " ++ tok.String)) })
    else
      some (some { prj with LoC := (decoder.unmarshalInt val).1 },
        { dec with err := (decoder.unmarshalInt val).2 })
  else if key = "name" then
    if tok ≠ .scanStringLit then
      some (none, { dec with
        err := some (.text ("expected string literal, found " ++ tok.String)) })
    else
      some (some { prj with Name := (decoder.unmarshalString val).1 },
        { dec with err := (decoder.unmarshalString val).2 })
  else
    some (some prj, { dec with err := some (.text "unexpected value for project object") })

/-- The loop of `decodeProject` (decode.go:72-125). After `isEndObject` the
source tests the local `err` of `nextValue`, which is `nil` there, so the
loop goes on whatever `dec.err` is. -/
def decoder.decodeProjectLoop :
    Nat → decoder → Project → Option (Option Project × decoder)
  | 0, _, _ => none
  | fuel + 1, dec, prj =>
    match dec.scan.nextKey with
    | (.error err, scan) =>
      if err = .EOF then some (some prj, { dec with scan := scan })
      else some (none, { scan := scan, err := some err })
    | (.ok key, scan) =>
      if key = "" then some (none, { scan := scan, err := some (.text "empty key") })
      else
        match scan.nextValue with
        | (.error err, scan) => some (none, { scan := scan, err := some err })
        | (.ok (val, tok), scan) =>
          match decoder.decodeProjectField key val tok { dec with scan := scan } prj with
          | none => none
          | some (none, dec) => some (none, dec)
          | some (some prj, dec) =>
            if dec.err.isSome then some (none, dec)
            else
              match dec.isEndObject with
              | (true, dec) => some (some prj, dec)
              | (false, dec) => decoder.decodeProjectLoop fuel dec prj

/-- Source: `decoder.decodeProject` (decode.go:58-127). -/
def decoder.decodeProject (dec : decoder) : Option (Option Project × decoder) :=
  match dec.assertNewObject with
  | (false, dec) => some (none, dec)
  | (true, dec) =>
    match dec.isEmptyObject with
    | (true, dec) => some (some {}, dec)
    | (false, dec) =>
      if dec.err.isSome then some (none, dec)
      else decoder.decodeProjectLoop dec.loopBound dec {}

/-- Source: `decoder.decode` (decode.go:45-51): the pair of the returned
project and the returned error. -/
def decoder.decode (dec : decoder) : Option (Option Project × Option GoError) :=
  match dec.decodeProject with
  | none => none
  | some (prj, dec) =>
    match dec.err with
    | some err => some (none, some (decoder.errorf err))
    | none => some (prj, none)

/-- Source: `newDecoder` (decode.go:40-42), on a scanner at the start of its
input. -/
def newDecoder (input : List Input) : decoder :=
  { scan := { input := input, pos := 0 }, err := none }

/-- Source: `Decode` (decode.go:18-21). -/
def Decode (input : List Input) : Option (Option Project × Option GoError) :=
  (newDecoder input).decode

/-! ## Entity constructors: field maps and helpers -/

/-- A value of a `map[string]interface{}` produced by decoding JSON: `nil`,
a `bool`, a `float64`, a `string`, a `[]interface{}` or a nested
`map[string]interface{}`. -/
inductive Value where
  | null
  | bool (b : Bool)
  | number (x : ℚ)
  | string (s : String)
  | slice (elems : List Value)
  | map (fields : List (String × Value))

/-- A field map `map[string]interface{}`; `m.lookup key` is `m[key]`. -/
abbrev FieldMap := List (String × Value)

/-- Whether the dynamic type of a value is `map[string]interface{}`. -/
def Value.isMap : Value → Bool
  | .map _ => true
  | _ => false

/-- Whether a value is the nil interface value. -/
def Value.isNull : Value → Bool
  | .null => true
  | _ => false

/-- What `%v` prints for `reflect.TypeOf` of a value. -/
def Value.typeName : Value → String
  | .null => "<nil>"
  | .bool _ => "bool"
  | .number _ => "float64"
  | .string _ => "string"
  | .slice _ => "[]interface \x7b\x7d"
  | .map _ => "map[string]interface \x7b\x7d"

/-- The functions and the sentinel that the constructors use and whose
declaration is not part of the sources. A result `(T, error)` is an
`Except GoError T`. -/
structure Helpers where
  errNotExist : GoError
  addDebugInfo : GoError → GoError
  isExist : GoError → Bool
  extractStringValue : String → String → FieldMap → Except GoError String
  extractBoolValue : String → String → FieldMap → Except GoError Bool
  extractMapValue : String → String → FieldMap → Except GoError FieldMap
  extractStringSliceValue : String → String → FieldMap → Except GoError (List String)
  reflectSliceValue : String → String → FieldMap → Except GoError (List Value)
  newVar : FieldMap → Except GoError Undecoded
  newIdent : FieldMap → Except GoError Undecoded
  newExpr : FieldMap → Except GoError Undecoded
  newIfStatement : FieldMap → Except GoError Statement
  newLoopStatement : FieldMap → Except GoError Statement
  newAssignStatement : FieldMap → Except GoError Statement
  newCallStatement : FieldMap → Except GoError Statement
  newOtherStatement : FieldMap → Except GoError Statement
  newAttributesSlice : String → String → FieldMap → Except GoError (List Undecoded)
  newMethodsSlice : String → String → FieldMap → Except GoError (List Undecoded)
  newClassesSlice : String → String → FieldMap → Except GoError (List Undecoded)

/-- The text of the error of a composite-field constructor for an element
that is no field map (attr.go:72-73 and its siblings). -/
def mustBeMap (errPrefix key : String) : GoError :=
  .text (errPrefix ++ ": '" ++ key ++ "' must be a map[string]interface\x7b\x7d")

/-- The text of the error of a composite-field constructor for a field that
is no slice (attr.go:57-58 and its siblings). -/
def mustBeSlice (errPrefix key : String) : GoError :=
  .text (errPrefix ++ ": field '" ++ key ++ "' is supposed to be a slice")

/-! ## statement.go -/

/-- Source: `IfStmtName` (statement.go:14). -/
def IfStmtName : String := "IF"

/-- Source: `LoopStmtName` (statement.go:15). -/
def LoopStmtName : String := "LOOP"

/-- Source: `AssignStmtName` (statement.go:16). -/
def AssignStmtName : String := "ASSIGN"

/-- Source: `CallStmtName` (statement.go:17). -/
def CallStmtName : String := "CALL"

/-- Source: `OtherStmtName` (statement.go:18). -/
def OtherStmtName : String := "OTHER"

/-- Source: `newStatement` (statement.go:23-45). `switch typ` compares an
`interface{}` with string constants: a case matches when the dynamic type is
`string` and the text is equal. -/
def newStatement (h : Helpers) (m : FieldMap) : Except GoError Statement :=
  let errPrefix := "src/statement"
  match m.lookup "type" with
  | none => .error (.text (errPrefix ++ ": field 'type' does not exist"))
  | some (.string typ) =>
    if typ = IfStmtName then h.newIfStatement m
    else if typ = LoopStmtName then h.newLoopStatement m
    else if typ = AssignStmtName then h.newAssignStatement m
    else if typ = CallStmtName then h.newCallStatement m
    else if typ = OtherStmtName then h.newOtherStatement m
    else .error (.text "unknown statement type")
  | some _ => .error (.text "unknown statement type")

/-- The loop of `newStatementsSlice` (statement.go:62-74); `stmts` holds the
elements built so far. -/
def newStatementsSliceLoop (h : Helpers) (key errPrefix : String) :
    List Value → List Statement → Except GoError (List Statement)
  | [], stmts => .ok stmts
  | stmt :: rest, stmts =>
    match stmt with
    | .map fields =>
      match newStatement h fields with
      | .error err => .error err
      | .ok s => newStatementsSliceLoop h key errPrefix rest (stmts ++ [s])
    | _ => .error (mustBeMap errPrefix key)

/-- Source: `newStatementsSlice` (statement.go:47-77). -/
def newStatementsSlice (h : Helpers) (key errPrefix : String) (m : FieldMap) :
    Except GoError (List Statement) :=
  match m.lookup key with
  | none => .error h.errNotExist
  | some .null => .error h.errNotExist
  | some (.slice s) => newStatementsSliceLoop h key errPrefix s []
  | some _ => .error (mustBeSlice errPrefix key)

/-! ## attr.go -/

/-- Source: `type Attr struct` (attr.go:13-18); the embedded `Var` is
declared outside the sources. -/
structure Attr where
  Var : Undecoded := {}
  Visibility : String := ""
  Constant : Bool := false
  Static : Bool := false
  deriving DecidableEq, Repr

/-- Source: `newAttr` (attr.go:20-43). -/
def newAttr (h : Helpers) (m : FieldMap) : Except GoError Attr :=
  let errPrefix := "src/attr"
  match h.newVar m with
  | .error err => .error (h.addDebugInfo err)
  | .ok v =>
    match h.extractStringValue "visibility" errPrefix m with
    | .error err => .error (h.addDebugInfo err)
    | .ok visibility =>
      match h.extractBoolValue "constant" errPrefix m with
      | .error err => .error (h.addDebugInfo err)
      | .ok constant =>
        match h.extractBoolValue "static" errPrefix m with
        | .error err => .error (h.addDebugInfo err)
        | .ok static =>
          .ok { Var := v, Visibility := visibility, Constant := constant, Static := static }

/-- The loop of `newAttrsSlice` (attr.go:62-74); a pointer is `some`. -/
def newAttrsSliceLoop (h : Helpers) (key errPrefix : String) :
    List Value → List (Option Attr) → Except GoError (List (Option Attr))
  | [], attrs => .ok attrs
  | attr :: rest, attrs =>
    match attr with
    | .map fields =>
      match newAttr h fields with
      | .error err => .error (h.addDebugInfo err)
      | .ok a => newAttrsSliceLoop h key errPrefix rest (attrs ++ [some a])
    | _ => .error (h.addDebugInfo (mustBeMap errPrefix key))

/-- Source: `newAttrsSlice` (attr.go:45-77). `reflect.ValueOf(nil)` has the
kind `Invalid`, which is not `Slice`. -/
def newAttrsSlice (h : Helpers) (key errPrefix : String) (m : FieldMap) :
    Except GoError (List (Option Attr)) :=
  match m.lookup key with
  | none => .error h.errNotExist
  | some (.slice s) => newAttrsSliceLoop h key errPrefix s []
  | some _ => .error (h.addDebugInfo (mustBeSlice errPrefix key))

/-! ## interface.go -/

/-- Source: `type Interface struct` (interface.go:13-17). -/
structure Interface where
  Name : String := ""
  Visibility : String := ""
  deriving DecidableEq, Repr

/-- Source: `newInterface` (interface.go:19-33). -/
def newInterface (h : Helpers) (m : FieldMap) : Except GoError Interface :=
  let errPrefix := "src/constant"
  match h.extractStringValue "name" errPrefix m with
  | .error err => .error (h.addDebugInfo err)
  | .ok name =>
    match h.extractStringValue "visibility" errPrefix m with
    | .error err => .error (h.addDebugInfo err)
    | .ok visibility => .ok { Name := name, Visibility := visibility }

/-- The loop of `newInterfacesSlice` (interface.go:52-64). -/
def newInterfacesSliceLoop (h : Helpers) (key errPrefix : String) :
    List Value → List (Option Interface) → Except GoError (List (Option Interface))
  | [], interfs => .ok interfs
  | interf :: rest, interfs =>
    match interf with
    | .map fields =>
      match newInterface h fields with
      | .error err => .error (h.addDebugInfo err)
      | .ok i => newInterfacesSliceLoop h key errPrefix rest (interfs ++ [some i])
    | _ => .error (h.addDebugInfo (mustBeMap errPrefix key))

/-- Source: `newInterfacesSlice` (interface.go:35-67). -/
def newInterfacesSlice (h : Helpers) (key errPrefix : String) (m : FieldMap) :
    Except GoError (List (Option Interface)) :=
  match m.lookup key with
  | none => .error h.errNotExist
  | some (.slice s) => newInterfacesSliceLoop h key errPrefix s []
  | some _ => .error (h.addDebugInfo (mustBeSlice errPrefix key))

/-! ## trait.go -/

/-- Source: `type Trait struct` (trait.go:13-19); the element types of
`Attributes`, `Methods` and `Classes` are declared outside the sources. -/
inductive Trait where
  | mk (Name : String) (Attributes : List Undecoded) (Methods : List Undecoded)
      (Classes : List Undecoded) (Traits : List (Option Trait))

mutual
/-- Source: `newTrait` (trait.go:21-47), on the value `Value.map m` that
holds the field map; on any other value the result is not used. -/
def newTraitOfValue (h : Helpers) : Value → Except GoError Trait
  | .map m =>
    let errPrefix := "src/trait"
    match h.extractStringValue "name" errPrefix m with
    | .error err => .error err
    | .ok name =>
      match h.newAttributesSlice "attributes" errPrefix m with
      | .error err => .error err
      | .ok attributes =>
        match h.newMethodsSlice "methods" errPrefix m with
        | .error err => .error err
        | .ok methods =>
          match h.newClassesSlice "classes" errPrefix m with
          | .error err => .error err
          | .ok classes =>
            match newTraitsSlice h "traits" errPrefix m with
            | .error err => .error err
            | .ok traits => .ok (.mk name attributes methods classes traits)
  | _ => .error (mustBeMap "src/trait" "traits")
/-- Source: `newTraitsSlice` (trait.go:49-80). The lookup `m[key]` is the
walk along the entries of `m` up to the first one with the key `key`. -/
def newTraitsSlice (h : Helpers) (key errPrefix : String) :
    FieldMap → Except GoError (List (Option Trait))
  | [] => .error h.errNotExist
  | (k, traitsMap) :: m =>
    if k = key then
      match traitsMap with
      | .slice s => newTraitsSliceLoop h key errPrefix s []
      | _ => .error (mustBeSlice errPrefix key)
    else newTraitsSlice h key errPrefix m
/-- The loop of `newTraitsSlice` (trait.go:64-76). -/
def newTraitsSliceLoop (h : Helpers) (key errPrefix : String) :
    List Value → List (Option Trait) → Except GoError (List (Option Trait))
  | [], traits => .ok traits
  | trait :: rest, traits =>
    match trait with
    | .map _ =>
      match newTraitOfValue h trait with
      | .error err => .error err
      | .ok t => newTraitsSliceLoop h key errPrefix rest (traits ++ [some t])
    | _ => .error (mustBeMap errPrefix key)
end

/-- Source: `newTrait` (trait.go:21-47). -/
def newTrait (h : Helpers) (m : FieldMap) : Except GoError Trait :=
  newTraitOfValue h (.map m)

/-! ## global_decl.go -/

/-- Source: `type GlobalDecl struct` (global_decl.go:12-18); a pointer or an
interface value is `none` when it is `nil`. -/
structure GlobalDecl where
  Doc : Option (List String) := none
  Name : Option Undecoded := none
  Value : Option Undecoded := none
  Type_ : Option Undecoded := none
  Visibility : String := ""
  deriving DecidableEq, Repr

/-- Source: `newGlobalDecl` (global_decl.go:20-61). When
`extractStringSliceValue` fails with an error for which `isExist` is false,
`Doc` keeps the nil slice. -/
def newGlobalDecl (h : Helpers) (m : FieldMap) : Except GoError GlobalDecl :=
  let errPrefix := "src/global_decl"
  let doc := h.extractStringSliceValue "doc" errPrefix m
  match doc with
  | .error err =>
    if h.isExist err then .error (h.addDebugInfo err) else newGlobalDeclFrom none
  | .ok d => newGlobalDeclFrom (some d)
where
  /-- The statements of `newGlobalDecl` after the field `doc`
  (global_decl.go:29-60). -/
  newGlobalDeclFrom (doc : Option (List String)) : Except GoError GlobalDecl :=
    let errPrefix := "src/global_decl"
    match h.extractMapValue "name" errPrefix m with
    | .error err => .error (h.addDebugInfo err)
    | .ok nameMap =>
      match h.newIdent nameMap with
      | .error err => .error (h.addDebugInfo err)
      | .ok name =>
        match h.extractMapValue "value" errPrefix m with
        | .error err =>
          if h.isExist err then .error (h.addDebugInfo err)
          else newGlobalDeclTail doc name none
        | .ok exprMap =>
          match h.newExpr exprMap with
          | .error err => .error (h.addDebugInfo err)
          | .ok value => newGlobalDeclTail doc name (some value)
  /-- The statements of `newGlobalDecl` after the field `value`
  (global_decl.go:47-60). -/
  newGlobalDeclTail (doc : Option (List String)) (name : Undecoded) (value : Option Undecoded) :
      Except GoError GlobalDecl :=
    let errPrefix := "src/global_decl"
    match h.extractMapValue "type" errPrefix m with
    | .error err => .error (h.addDebugInfo err)
    | .ok typeMap =>
      match h.newIdent typeMap with
      | .error err => .error (h.addDebugInfo err)
      | .ok typ =>
        match h.extractStringValue "visibility" errPrefix m with
        | .error err => .error (h.addDebugInfo err)
        | .ok visibility =>
          .ok { Doc := doc, Name := some name, Value := value, Type_ := some typ
                Visibility := visibility }

/-- The loop of `newGlobalDeclsSlice` (global_decl.go:73-90): a nil element
is skipped and its slot stays nil. -/
def newGlobalDeclsSliceLoop (h : Helpers) (key errPrefix : String) :
    List Value → List (Option GlobalDecl) → Except GoError (List (Option GlobalDecl))
  | [], globaldecls => .ok globaldecls
  | globaldecl :: rest, globaldecls =>
    match globaldecl with
    | .null => newGlobalDeclsSliceLoop h key errPrefix rest (globaldecls ++ [none])
    | .map fields =>
      match newGlobalDecl h fields with
      | .error err => .error (h.addDebugInfo err)
      | .ok g => newGlobalDeclsSliceLoop h key errPrefix rest (globaldecls ++ [some g])
    | other =>
      .error (h.addDebugInfo (.text (errPrefix ++ ": '" ++ key
        ++ "' must be a map[string]interface\x7b\x7d, found " ++ other.typeName)))

/-- Source: `newGlobalDeclsSlice` (global_decl.go:63-93). -/
def newGlobalDeclsSlice (h : Helpers) (key errPrefix : String) (m : FieldMap) :
    Except GoError (List (Option GlobalDecl)) :=
  match h.reflectSliceValue key errPrefix m with
  | .error err => .error err
  | .ok s => newGlobalDeclsSliceLoop h key errPrefix s []

/-! ## Helpers of the constructors, from the specification -/

/-- Modelled from the spec: the three outcomes of the extraction of a map
field (section 4.3): the nested map, the not-present condition, or a hard
error for a value of another type. -/
def specExtractMapValue (errNotExist : GoError) (key errPrefix : String) (m : FieldMap) :
    Except GoError FieldMap :=
  match m.lookup key with
  | none => .error errNotExist
  | some (.map fields) => .ok fields
  | some _ => .error (.text (errPrefix ++ ": field '" ++ key ++ "' is supposed to be a map"))

/-- Modelled from the spec: the extraction of a string field. -/
def specExtractStringValue (errNotExist : GoError) (key errPrefix : String) (m : FieldMap) :
    Except GoError String :=
  match m.lookup key with
  | none => .error errNotExist
  | some (.string s) => .ok s
  | some _ => .error (.text (errPrefix ++ ": field '" ++ key ++ "' is supposed to be a string"))

/-- Modelled from the spec: the extraction of a boolean field. -/
def specExtractBoolValue (errNotExist : GoError) (key errPrefix : String) (m : FieldMap) :
    Except GoError Bool :=
  match m.lookup key with
  | none => .error errNotExist
  | some (.bool b) => .ok b
  | some _ => .error (.text (errPrefix ++ ": field '" ++ key ++ "' is supposed to be a bool"))

/-- Modelled from the spec: the strings of a slice of strings, or `none` when
an element is no string. -/
def specStrings : List Value → Option (List String)
  | [] => some []
  | .string s :: rest => (specStrings rest).map (fun l => s :: l)
  | _ :: _ => none

/-- Modelled from the spec: the extraction of a field that is a slice of
strings. -/
def specExtractStringSliceValue (errNotExist : GoError) (key errPrefix : String)
    (m : FieldMap) : Except GoError (List String) :=
  match m.lookup key with
  | none => .error errNotExist
  | some (.slice elems) =>
    match specStrings elems with
    | some l => .ok l
    | none =>
      .error (.text (errPrefix ++ ": field '" ++ key ++ "' is supposed to be a slice of strings"))
  | some _ => .error (.text (errPrefix ++ ": field '" ++ key ++ "' is supposed to be a slice"))

/-- Modelled from the spec: the slice held by a field, as `reflectSliceValue`
hands it to `newGlobalDeclsSlice`. -/
def specReflectSliceValue (errNotExist : GoError) (key errPrefix : String) (m : FieldMap) :
    Except GoError (List Value) :=
  match m.lookup key with
  | none => .error errNotExist
  | some (.slice elems) => .ok elems
  | some _ => .error (mustBeSlice errPrefix key)

/-- Modelled from the spec: a slice of nested objects that are not decoded
further. -/
def specUndecodedSlice (errNotExist : GoError) (key errPrefix : String) (m : FieldMap) :
    Except GoError (List Undecoded) :=
  match m.lookup key with
  | none => .error errNotExist
  | some (.slice elems) => .ok (elems.map (fun _ => {}))
  | some _ => .error (mustBeSlice errPrefix key)

/-- Modelled from the spec: an identifier, an expression or a variable,
built from the field `name` of its map. -/
def specNamed (errNotExist : GoError) (errPrefix : String) (m : FieldMap) :
    Except GoError Undecoded :=
  match specExtractStringValue errNotExist "name" errPrefix m with
  | .error err => .error err
  | .ok name => .ok { payload := name }

/-- Modelled from the spec: an instance of the helpers that the sources do
not contain, following section 4.3: the sentinel `errNotExist`, a decoration
that prefixes the text of an error, `isExist` as the test against the
sentinel, and the extraction functions with their three outcomes. The five
statement constructors build a statement of their variant without a body. -/
def specHelpers : Helpers where
  errNotExist := .text "field does not exist"
  addDebugInfo := fun err => .text ("debug: " ++ err.Error)
  isExist := fun err => decide (err ≠ .text "field does not exist")
  extractStringValue := specExtractStringValue (.text "field does not exist")
  extractBoolValue := specExtractBoolValue (.text "field does not exist")
  extractMapValue := specExtractMapValue (.text "field does not exist")
  extractStringSliceValue := specExtractStringSliceValue (.text "field does not exist")
  reflectSliceValue := specReflectSliceValue (.text "field does not exist")
  newVar := specNamed (.text "field does not exist") "src/var"
  newIdent := specNamed (.text "field does not exist") "src/ident"
  newExpr := specNamed (.text "field does not exist") "src/expr"
  newIfStatement := fun _ => .ok (.IfStatement [])
  newLoopStatement := fun _ => .ok (.ForStatement [])
  newAssignStatement := fun _ => .ok .AssignStatement
  newCallStatement := fun _ => .ok .CallStatement
  newOtherStatement := fun _ => .ok .OtherStatement
  newAttributesSlice := specUndecodedSlice (.text "field does not exist")
  newMethodsSlice := specUndecodedSlice (.text "field does not exist")
  newClassesSlice := specUndecodedSlice (.text "field does not exist")

/-- Modelled from the spec: what section 4.3 and the claim on `newGlobalDecl`
assume of the helpers: the map and string-slice extractions return
`errNotExist` exactly when the key is absent, `isExist` holds exactly for the
other errors, a present value of the wrong type is an error, and an absent
string field is an error. -/
structure Helpers.Contract (h : Helpers) : Prop where
  mapNotExist : ∀ key errPrefix m,
    h.extractMapValue key errPrefix m = .error h.errNotExist ↔ m.lookup key = none
  sliceNotExist : ∀ key errPrefix m,
    h.extractStringSliceValue key errPrefix m = .error h.errNotExist ↔ m.lookup key = none
  isExistIff : ∀ err, h.isExist err = true ↔ err ≠ h.errNotExist
  mapWrongType : ∀ key errPrefix m v, m.lookup key = some v → v.isMap = false →
    ∃ err, h.extractMapValue key errPrefix m = .error err
  stringAbsent : ∀ key errPrefix m, m.lookup key = none →
    ∃ err, h.extractStringValue key errPrefix m = .error err

/-- A field map that `newAttr` accepts with the helpers `specHelpers`. -/
def wellFormedAttr : FieldMap :=
  [("name", .string "a"), ("visibility", .string "public"), ("constant", .bool false),
   ("static", .bool true)]

/-- A field map whose `attributes` are a well-formed attribute followed by a
string. -/
def attributesWithString : FieldMap :=
  [("attributes", .slice ([.map wellFormedAttr] ++ .string "x" :: []))]

/-- A global declaration with `name`, `type` and `visibility`, without `doc`
and without `value`. -/
def plainGlobalDecl : FieldMap :=
  [("name", .map [("name", .string "x")]), ("type", .map [("name", .string "int")]),
   ("visibility", .string "public")]

/-! ## assign_statement.go -/

/-- Source: `type AssignStatement struct` (assign_statement.go:9-14). -/
structure AssignStatement where
  Type_ : String := ""
  VarName : String := ""
  VarValue : String := ""
  Line : Int := 0
  deriving DecidableEq, Repr

/-- The outcome of a call that may abort: the returned value, or the run-time
panic of a failed type assertion with its message. -/
inductive Outcome (α : Type) where
  | returns (value : α)
  | panics (msg : String)

/-- The name of the dynamic type of a value in the message of a failed type
assertion. -/
def Value.dynamicType : Value → String
  | .null => "nil"
  | v => v.typeName

/-- The message of the panic of `x.(T)` for a value whose dynamic type is not
`T`. -/
def assertionPanic (v : Value) (wanted : String) : String :=
  "interface conversion: interface \x7b\x7d is " ++ v.dynamicType ++ ", not " ++ wanted

/-- The conversion `int(x)` of a `float64`: the fraction is discarded. -/
def float64ToInt (x : ℚ) : Int := Int.tdiv x.num x.den

/-- Source: `CastToAssignStatement` (assign_statement.go:17-40). The type
assertions `line.(float64)`, `varName.(string)` and `varValue.(string)` have
the one-value form, which panics when the dynamic type differs. -/
def CastToAssignStatement (m : FieldMap) : Outcome (Except GoError AssignStatement) :=
  match m.lookup "Type" with
  | some (.string typ) =>
    if typ ≠ "ASSIGN" then
      .returns (.error (.text "the generic map supplied is not a AssignStatement"))
    else
      let assignstmt : AssignStatement := { Type_ := typ }
      match m.lookup "Line" with
      | some (.number line) => castVarName { assignstmt with Line := float64ToInt line }
      | some other => .panics (assertionPanic other "float64")
      | none => castVarName assignstmt
  | _ => .returns (.error (.text "the generic map supplied is not a AssignStatement"))
where
  /-- The statements of `CastToAssignStatement` from the field `VarName` on
  (assign_statement.go:31-39). -/
  castVarName (assignstmt : AssignStatement) : Outcome (Except GoError AssignStatement) :=
    match m.lookup "VarName" with
    | some (.string varName) => castVarValue { assignstmt with VarName := varName }
    | some other => .panics (assertionPanic other "string")
    | none => castVarValue assignstmt
  /-- The statements of `CastToAssignStatement` from the field `VarValue` on
  (assign_statement.go:35-39). -/
  castVarValue (assignstmt : AssignStatement) : Outcome (Except GoError AssignStatement) :=
    match m.lookup "VarValue" with
    | some (.string varValue) => .returns (.ok { assignstmt with VarValue := varValue })
    | some other => .panics (assertionPanic other "string")
    | none => .returns (.ok assignstmt)

/-! ## Shapes used by the statements on traits and string lists -/

/-- The field `Traits` of a trait. -/
def Trait.Traits : Trait → List (Option Trait)
  | .mk _ _ _ _ traits => traits

mutual
/-- The nesting depth of a trait: 1 for a trait without nested traits. -/
def Trait.depth : Trait → Nat
  | .mk _ _ _ _ traits => 1 + Trait.depthList traits
/-- The largest nesting depth among the traits of a slice. -/
def Trait.depthList : List (Option Trait) → Nat
  | [] => 0
  | none :: rest => Trait.depthList rest
  | some t :: rest => max t.depth (Trait.depthList rest)
end

mutual
/-- The nesting depth of a value: 0 for a scalar, one more than the deepest
element for a slice or a map. -/
def Value.depth : Value → Nat
  | .slice elems => 1 + Value.depthList elems
  | .map fields => 1 + Value.depthFields fields
  | _ => 0
/-- The largest nesting depth among the elements of a slice. -/
def Value.depthList : List Value → Nat
  | [] => 0
  | v :: rest => max v.depth (Value.depthList rest)
/-- The largest nesting depth among the values of a field map. -/
def Value.depthFields : List (String × Value) → Nat
  | [] => 0
  | (_, v) :: rest => max v.depth (Value.depthFields rest)
end

/-- The tokens `s1 , s2 , ... , sn ]` of the string literals that follow the
`[` of an array of `n + 1` strings. -/
def stringsThenEnd (s : String) : List String → List Input
  | [] => [.value .scanStringLit (some s), .value .scanEndArray none]
  | s' :: rest =>
    .value .scanStringLit (some s) :: .value .scanComma none :: stringsThenEnd s' rest

/-- The tokens `s1 , s2 , ... , sk ,` of string literals, each followed by a
comma. -/
def stringsWithCommas : List String → List Input
  | [] => []
  | s :: rest => .value .scanStringLit (some s) :: .value .scanComma none :: stringsWithCommas rest

/-- A field map that `newTrait` accepts with the helpers `specHelpers`: a
trait without nested traits. -/
def leafTrait : FieldMap :=
  [("name", .string "Leaf"), ("attributes", .slice []), ("methods", .slice []),
   ("classes", .slice []), ("traits", .slice [])]

/-- A trait with one nested trait. -/
def nestedTrait : FieldMap :=
  [("name", .string "Outer"), ("attributes", .slice []), ("methods", .slice []),
   ("classes", .slice []), ("traits", .slice [.map leafTrait])]

/-- The field map of `leafTrait` without its `traits` key. -/
def traitWithoutTraits : FieldMap :=
  [("name", .string "Leaf"), ("attributes", .slice []), ("methods", .slice []),
   ("classes", .slice [])]

/-- An assign statement whose `Line` is a string. -/
def assignWithTextLine : FieldMap :=
  [("Type", .string "ASSIGN"), ("Line", .string "3"), ("VarName", .string "x")]

/-- An assign statement whose `VarName` is a number. -/
def assignWithNumericName : FieldMap :=
  [("Type", .string "ASSIGN"), ("VarName", .number 7)]

/-- An assign statement whose `VarValue` is null. -/
def assignWithNullValue : FieldMap :=
  [("Type", .string "ASSIGN"), ("VarName", .string "x"), ("VarValue", .null)]

/-- A well-typed assign statement. -/
def assignWellTyped : FieldMap :=
  [("Type", .string "ASSIGN"), ("VarName", .string "x"), ("VarValue", .string "1")]

/-- A field map whose `attributes` are one well-formed attribute. -/
def oneAttribute : FieldMap :=
  [("attributes", .slice ([wellFormedAttr].map Value.map))]

/-! ## Predicates and inputs used in the statements -/

/-- The scanner state `s'` is reached from `s` on the same input without
moving backwards. -/
def scanner.Reaches (s s' : scanner) : Prop :=
  s'.input = s.input ∧ s.pos ≤ s'.pos

/-- The call returned a result, on the same input, without moving the
scanner backwards. -/
def decoder.Returns {α : Type} (dec : decoder) (res : Option (α × decoder)) : Prop :=
  ∃ r dec', res = some (r, dec') ∧ dec.scan.Reaches dec'.scan

/-- The bound `fuel` exceeds the number of input elements left in `dec`. -/
def decoder.Enough (fuel : Nat) (dec : decoder) : Prop :=
  dec.scan.input.length - dec.scan.pos < fuel

/-- The project of the witness of C4: a file with functions of complexity 1
and 3, and a second file with one function of complexity 5. -/
def twoFileProject : AnalyzedProject :=
  { Name := "p"
    Packages :=
      [{ Name := "pkg"
         SourceFiles :=
           [{ Path := "a.go"
              Functions :=
                [{ Name := "f1" },
                 { Name := "f3", StmtList := [.IfStatement []], Return := ["int"] }] },
            { Path := "b.go"
              Functions :=
                [{ Name := "f5"
                   StmtList := [.IfStatement [], .ForStatement []]
                   Return := ["int", "error"] }] }] }] }

/-- The input `{"name":x,` cut after the comma: the scanner reports the end
of the input at the next key. -/
def truncatedAfterComma (x : String) : List Input :=
  [.value .scanBeginObject none, .key "name", .value .scanStringLit (some x),
   .value .scanComma none]

/-- The input `{"name":x` cut after the value. -/
def truncatedAfterValue (x : String) : List Input :=
  [.value .scanBeginObject none, .key "name", .value .scanStringLit (some x)]

/-- The input `{"name":"x" 7 "loc":5}`: a stray token where `,` is
expected, followed by a well-formed field and the closing brace. -/
def strayTokenProject : List Input :=
  [.value .scanBeginObject none, .key "name", .value .scanStringLit (some "x"),
   .value .scanIntLit (some "7"), .key "loc", .value .scanIntLit (some "5"),
   .value .scanEndObject none]

/-- The input `{"name":"x" 7 "bogus":1}`: a stray token where `,` is
expected, followed by a field with an unknown key. -/
def strayTokenThenUnknownKey : List Input :=
  [.value .scanBeginObject none, .key "name", .value .scanStringLit (some "x"),
   .value .scanIntLit (some "7"), .key "bogus", .value .scanIntLit (some "1"),
   .value .scanEndObject none]

/-- The keys with a case of their own in the `switch key` of `decodeSrcFile`
(decode.go:294-338). -/
def srcFileKeys : List String :=
  ["path", "language", "imports", "type_specifiers", "structs", "constants", "variables",
   "functions", "interfaces", "clases", "enums", "traits", "loc"]

/-- The text of the error of the default case of `decodeSrcFile`
(decode.go:340) for the key `k`. -/
def srcFileKeyError (k : String) : GoError :=
  .text ("unexpected value for the key '" ++ k ++ "' of a source file object")

/-- An input on which `Decode` reaches a source-file object whose only field
has the key `k`: the project field `packages` and the package field
`source_files` are decoded without `back`, so each array is entered by a
second `[`. -/
def projectWithSrcFileKey (k : String) : List Input :=
  [.value .scanBeginObject none, .key "packages", .value .scanBeginArray none,
   .value .scanBeginArray none, .value .scanBeginObject none, .key "source_files",
   .value .scanBeginArray none, .value .scanBeginArray none, .value .scanBeginObject none,
   .key k, .value .scanIntLit (some "5"), .value .scanEndObject none,
   .value .scanEndArray none, .value .scanEndObject none, .value .scanEndArray none,
   .value .scanEndObject none]

/-- The object `{"bogus":1}`. -/
def unknownKeyObject : List Input :=
  [.value .scanBeginObject none, .key "bogus", .value .scanIntLit (some "1"),
   .value .scanEndObject none]

/-- Whether the text `part` occurs in the text `whole`. -/
def occursIn (part whole : String) : Prop := part.toList <:+: whole.toList

instance (part whole : String) : Decidable (occursIn part whole) := by
  unfold occursIn; infer_instance

/-- The project `{"packages":[]}`. -/
def emptyPackagesProject : List Input :=
  [.value .scanBeginObject none, .key "packages", .value .scanBeginArray none,
   .value .scanEndArray none, .value .scanEndObject none]

/-- The project `{"packages":[{}]}`. -/
def onePackageProject : List Input :=
  [.value .scanBeginObject none, .key "packages", .value .scanBeginArray none,
   .value .scanBeginObject none, .value .scanEndObject none, .value .scanEndArray none,
   .value .scanEndObject none]

/-- The array `[{"name":"a"}]` of one package. -/
def onePackageArray : List Input :=
  [.value .scanBeginArray none, .value .scanBeginObject none, .key "name",
   .value .scanStringLit (some "a"), .value .scanEndObject none, .value .scanEndArray none]

/-- The language object `{"paradigms":[]}`. -/
def emptyParadigms : List Input :=
  [.value .scanBeginObject none, .key "paradigms", .value .scanBeginArray none,
   .value .scanEndArray none, .value .scanEndObject none]

/-- The language object `{"paradigms":[],"language":"go"}`. -/
def emptyParadigmsThenLanguage : List Input :=
  [.value .scanBeginObject none, .key "paradigms", .value .scanBeginArray none,
   .value .scanEndArray none, .value .scanComma none, .key "language",
   .value .scanStringLit (some "go"), .value .scanEndObject none]

/-- The source-file object `{"path": 5}`. -/
def numericPath : List Input :=
  [.value .scanBeginObject none, .key "path", .value .scanIntLit (some "5"),
   .value .scanEndObject none]

/-- The input element most recently consumed by the scanner, if any. -/
def scanner.last (s : scanner) : Option Input :=
  if s.pos = 0 then none else s.input.get? (s.pos - 1)

/-- The source-file object `{"path":"a.go",` cut after the comma. -/
def srcFileCutAfterComma : List Input :=
  [.value .scanBeginObject none, .key "path", .value .scanStringLit (some "a.go"),
   .value .scanComma none]

/-- The array `[{"path":"a.go",` of source files, cut inside its first
element. -/
def srcFilesCutAfterComma : List Input :=
  .value .scanBeginArray none :: srcFileCutAfterComma

/-- The source-file object `{"language":{},"bogus_field":5}`. -/
def srcFileEmptyLanguage : List Input :=
  [.value .scanBeginObject none, .key "language", .value .scanBeginObject none,
   .value .scanEndObject none, .value .scanComma none, .key "bogus_field",
   .value .scanIntLit (some "5"), .value .scanEndObject none]

/-- The source-file object `{"language":{"language":"go"},"bogus_field":5}`. -/
def srcFileFilledLanguage : List Input :=
  [.value .scanBeginObject none, .key "language", .value .scanBeginObject none,
   .key "language", .value .scanStringLit (some "go"),
   .value .scanEndObject none, .value .scanComma none, .key "bogus_field",
   .value .scanIntLit (some "5"), .value .scanEndObject none]

/-- An input on which `Decode` reaches the source-file object `sf`, as
`projectWithSrcFileKey` does. -/
def projectReaching (sf : List Input) : List Input :=
  [.value .scanBeginObject none, .key "packages", .value .scanBeginArray none,
   .value .scanBeginArray none, .value .scanBeginObject none, .key "source_files",
   .value .scanBeginArray none, .value .scanBeginArray none] ++ sf ++
  [.value .scanEndArray none, .value .scanEndObject none, .value .scanEndArray none,
   .value .scanEndObject none]

/-! ## float32: rounding lemmas -/

theorem float32.roundHalfEven_mul (k b : Nat) (hb : 0 < b) :
    float32.roundHalfEven (k * b) b = k := by
  simp [float32.roundHalfEven, Nat.mul_div_cancel _ hb, hb]

theorem float32.roundHalfEven_scale (a b c : Nat) (hc : 0 < c) :
    float32.roundHalfEven (a * c) (b * c) = float32.roundHalfEven a b := by
  have hq : a * c / (b * c) = a / b := Nat.mul_div_mul_right a b hc
  have hr : a * c % (b * c) = a % b * c := Nat.mul_mod_mul_right c a b
  have h1 : (2 * (a % b * c) < b * c) ↔ (2 * (a % b) < b) := by
    rw [← mul_assoc]; exact Nat.mul_lt_mul_right hc
  have h2 : (b * c < 2 * (a % b * c)) ↔ (b < 2 * (a % b)) := by
    rw [← mul_assoc]; exact Nat.mul_lt_mul_right hc
  simp only [float32.roundHalfEven, hq, hr, h1, h2]

theorem float32.round_scale (neg : Bool) (a b c : Nat) (hc : 0 < c) :
    float32.round neg (a * c) (b * c) = float32.round neg a b := by
  have hq : a * c / (b * c) = a / b := Nat.mul_div_mul_right a b hc
  have hs : ∀ s, float32.roundHalfEven (a * c) (b * c * 2 ^ s)
      = float32.roundHalfEven a (b * 2 ^ s) := by
    intro s
    rw [show b * c * 2 ^ s = b * 2 ^ s * c by ring]
    exact float32.roundHalfEven_scale a (b * 2 ^ s) c hc
  simp only [float32.round, hq, hs]

theorem float32.round_cross (neg : Bool) (a b c d : Nat) (hb : 0 < b) (hd : 0 < d)
    (h : a * d = c * b) : float32.round neg a b = float32.round neg c d := by
  rw [← float32.round_scale neg a b d hd, ← float32.round_scale neg c d b hb, h,
    Nat.mul_comm b d]

theorem float32.shift_le (fuel t j : Nat) (h : t < 2 ^ (24 + j)) :
    float32.shift fuel t ≤ j := by
  induction fuel generalizing t j with
  | zero => simp [float32.shift]
  | succ fuel ih =>
    unfold float32.shift
    split_ifs with ht
    · exact Nat.zero_le _
    · cases j with
      | zero => exact absurd h ht
      | succ j =>
        have h2 : t / 2 < 2 ^ (24 + j) := by
          rw [Nat.div_lt_iff_lt_mul (by norm_num)]
          calc t < 2 ^ (24 + (j + 1)) := h
            _ = 2 ^ (24 + j) * 2 := by rw [← Nat.add_assoc, pow_succ]
        exact Nat.succ_le_succ (ih _ _ h2)

theorem float32.round_exact (neg : Bool) (a b k : Nat) (hb : 0 < b) (ha : a = k * b)
    (hk : k < 2 ^ 128 * 2 ^ 149) (hd : 2 ^ float32.shift 254 k ∣ k) :
    float32.round neg a b = .finite neg k := by
  obtain ⟨m, hm⟩ := hd
  have ht : a / b = k := by rw [ha]; exact Nat.mul_div_cancel _ hb
  have hpos : 0 < b * 2 ^ float32.shift 254 k := Nat.mul_pos hb (by positivity)
  have hr : float32.roundHalfEven a (b * 2 ^ float32.shift 254 k) = m := by
    rw [ha]
    have : k * b = m * (b * 2 ^ float32.shift 254 k) := by
      conv_lhs => rw [hm]
      ring
    rw [this]
    exact float32.roundHalfEven_mul m _ hpos
  have hmk : m * 2 ^ float32.shift 254 k = k := by
    conv_rhs => rw [hm]
    ring
  simp only [float32.round, ht, hr, hmk, not_le.mpr hk, if_false]

theorem float32.ofInt64_natCast (n : Nat) (h : n < 2 ^ 24) :
    float32.ofInt64 (n : Int) = .finite false (n * 2 ^ 149) := by
  have hneg : decide ((n : Int) < 0) = false := by simp
  unfold float32.ofInt64
  rw [hneg, Int.natAbs_ofNat]
  refine float32.round_exact false _ 1 (n * 2 ^ 149) Nat.one_pos (Nat.mul_one _).symm ?_ ?_
  · calc n * 2 ^ 149 < 2 ^ 24 * 2 ^ 149 := Nat.mul_lt_mul_of_pos_right h (by positivity)
      _ ≤ 2 ^ 128 * 2 ^ 149 := Nat.mul_le_mul_right _ (Nat.pow_le_pow_right (by norm_num) (by norm_num))
  · have hlt : n * 2 ^ 149 < 2 ^ (24 + 149) := by
      rw [pow_add]
      exact Nat.mul_lt_mul_of_pos_right h (by positivity)
    have hle := float32.shift_le 254 _ 149 hlt
    exact Dvd.dvd.mul_left (Nat.pow_dvd_pow 2 hle) n

theorem float32.round_eq_ofRat (a b : Nat) (hb : 0 < b) :
    float32.round false a b = float32.ofRat ((a : ℚ) / ((b : ℚ) * 2 ^ 149)) := by
  set q : ℚ := (a : ℚ) / ((b : ℚ) * 2 ^ 149) with hq
  have hbq : (0 : ℚ) < (b : ℚ) * 2 ^ 149 := by positivity
  have hq0 : 0 ≤ q := by positivity
  have hneg : decide (q < 0) = false := by simpa using hq0
  have hnum : (0 : Int) ≤ q.num := Rat.num_nonneg.mpr hq0
  have hcross : (a : ℚ) * q.den = q.num * ((b : ℚ) * 2 ^ 149) := by
    have h1 : q * ((b : ℚ) * 2 ^ 149) = a := by
      rw [hq]; field_simp
    have h2 : (q.num : ℚ) = q * q.den := (Rat.mul_den_eq_num q).symm
    rw [h2, ← h1]; ring
  have hcrossN : a * q.den = q.num.natAbs * 2 ^ 149 * b := by
    have h3 : ((q.num.natAbs : Nat) : Int) = q.num := Int.natAbs_of_nonneg hnum
    have h4 : ((q.num.natAbs : Nat) : ℚ) = q.num := by
      rw [← Int.cast_natCast, h3]
    have : ((a * q.den : Nat) : ℚ) = ((q.num.natAbs * 2 ^ 149 * b : Nat) : ℚ) := by
      simp only [Nat.cast_mul, Nat.cast_pow, Nat.cast_ofNat]
      rw [hcross, h4]; ring
    exact_mod_cast this
  unfold float32.ofRat
  rw [hneg]
  exact float32.round_cross false a b _ _ hb q.den_pos hcrossN

theorem float32.ofRat_nonneg (q : ℚ) (hq : 0 ≤ q) :
    (∃ k, float32.ofRat q = .finite false k) ∨ float32.ofRat q = .inf false := by
  have hneg : decide (q < 0) = false := by simpa using hq
  unfold float32.ofRat float32.round
  rw [hneg]
  dsimp only
  split_ifs
  · exact Or.inr rfl
  · exact Or.inr rfl
  · exact Or.inl ⟨_, rfl⟩

theorem float32.Exact.finite {q : ℚ} (hq : 0 ≤ q) (h : float32.Exact q) :
    ∃ k : Nat, float32.ofRat q = .finite false k ∧ (k : ℚ) / 2 ^ 149 = q := by
  rcases float32.ofRat_nonneg q hq with ⟨k, hk⟩ | hinf
  · refine ⟨k, hk, ?_⟩
    unfold float32.Exact at h
    rw [hk] at h
    simpa [float32.toRat] using h
  · unfold float32.Exact at h
    rw [hinf] at h
    cases h

theorem float32.add_finite (a b : Nat) :
    (float32.finite false a).add (.finite false b)
      = float32.ofRat ((a : ℚ) / 2 ^ 149 + (b : ℚ) / 2 ^ 149) := by
  have h := float32.round_eq_ofRat (a + b) 1 Nat.one_pos
  have hq : (((a + b : Nat) : ℚ)) / (((1 : Nat) : ℚ) * 2 ^ 149)
      = (a : ℚ) / 2 ^ 149 + (b : ℚ) / 2 ^ 149 := by
    simp only [Nat.cast_add, Nat.cast_one, one_mul]
    exact add_div _ _ _
  rw [hq] at h
  simp only [float32.add, if_true]
  exact h

theorem float32.div_finite (a b : Nat) (hb : 0 < b) :
    (float32.finite false a).div (.finite false b)
      = float32.ofRat (((a : ℚ) / 2 ^ 149) / ((b : ℚ) / 2 ^ 149)) := by
  have h := float32.round_eq_ofRat (a * 2 ^ 149) b hb
  have hbq : (b : ℚ) ≠ 0 := Nat.cast_ne_zero.mpr (Nat.pos_iff_ne_zero.mp hb)
  have hgen : ∀ c : ℚ, c ≠ 0 → (a : ℚ) * c / ((b : ℚ) * c) = ((a : ℚ) / c) / ((b : ℚ) / c) := by
    intro c hc; field_simp; ring
  have hq : (((a * 2 ^ 149 : Nat) : ℚ)) / ((b : ℚ) * 2 ^ 149)
      = ((a : ℚ) / 2 ^ 149) / ((b : ℚ) / 2 ^ 149) := by
    simp only [Nat.cast_mul, Nat.cast_pow, Nat.cast_ofNat]
    exact hgen _ (by positivity)
  rw [hq] at h
  have hxor : (false != false) = false := rfl
  simp only [float32.div, Nat.pos_iff_ne_zero.mp hb, if_false, hxor]
  exact h

theorem float32.ofRat_zero : float32.ofRat 0 = .finite false 0 := by
  have h := float32.round_eq_ofRat 0 1 Nat.one_pos
  simp only [Nat.cast_zero, zero_div] at h
  rw [← h]
  decide

theorem float32.foldl_add_exact (l : List ℚ) (q0 : ℚ) (hq0 : 0 ≤ q0)
    (hnn : ∀ q ∈ l, 0 ≤ q) (hex : ∀ q ∈ l, float32.Exact q)
    (hpre : ∀ n ≤ l.length, float32.Exact (q0 + (l.take n).sum)) :
    (l.map float32.ofRat).foldl float32.add (float32.ofRat q0) = float32.ofRat (q0 + l.sum) := by
  induction l generalizing q0 with
  | nil => simp
  | cons x rest ih =>
    have hx0 : 0 ≤ x := hnn x (List.mem_cons_self _ _)
    have he0 : float32.Exact q0 := by simpa using hpre 0 (Nat.zero_le _)
    obtain ⟨a, ha, haq⟩ := he0.finite hq0
    obtain ⟨b, hb, hbq⟩ := (hex x (List.mem_cons_self _ _)).finite hx0
    have hstep : (float32.ofRat q0).add (float32.ofRat x) = float32.ofRat (q0 + x) := by
      rw [ha, hb, float32.add_finite, haq, hbq]
    rw [List.map_cons, List.foldl_cons, hstep, List.sum_cons, ← add_assoc]
    refine ih (q0 + x) (add_nonneg hq0 hx0)
      (fun q hq => hnn q (List.mem_cons_of_mem _ hq))
      (fun q hq => hex q (List.mem_cons_of_mem _ hq)) ?_
    intro n hn
    have := hpre (n + 1) (by simpa using Nat.succ_le_succ hn)
    simpa [List.take_succ_cons, add_assoc] using this

theorem float32.sum_exact (l : List ℚ) (hnn : ∀ q ∈ l, 0 ≤ q)
    (hex : ∀ q ∈ l, float32.Exact q)
    (hpre : ∀ n ≤ l.length, float32.Exact (l.take n).sum) :
    float32.sum (l.map float32.ofRat) = float32.ofRat l.sum := by
  have h := float32.foldl_add_exact l 0 le_rfl hnn hex (by simpa using hpre)
  rw [float32.ofRat_zero, zero_add] at h
  exact h

theorem float32.exact_natCast (n : Nat) (h : n < 2 ^ 24) : float32.Exact (n : ℚ) := by
  have h1 := float32.round_eq_ofRat (n * 2 ^ 149) 1 Nat.one_pos
  have hc : ((2 : ℚ) ^ 149) ≠ 0 := by positivity
  have hq : (((n * 2 ^ 149 : Nat) : ℚ)) / (((1 : Nat) : ℚ) * 2 ^ 149) = (n : ℚ) := by
    simp only [Nat.cast_mul, Nat.cast_pow, Nat.cast_ofNat, Nat.cast_one, one_mul]
    rw [mul_div_assoc, div_self hc, mul_one]
  rw [hq] at h1
  have h2 := float32.ofInt64_natCast n h
  unfold float32.ofInt64 at h2
  have hneg : decide ((n : Int) < 0) = false := by simp
  rw [hneg, Int.natAbs_ofNat, h1] at h2
  unfold float32.Exact
  rw [h2]
  simp only [float32.toRat, Bool.false_eq_true, if_false, Nat.cast_mul, Nat.cast_pow,
    Nat.cast_ofNat, one_mul]
  rw [mul_div_assoc, div_self hc, mul_one]

theorem float32.exact_of_round (k : Nat) (q : ℚ) (hq : (k : ℚ) / 2 ^ 149 = q)
    (h : float32.round false k 1 = .finite false k) : float32.Exact q := by
  have h1 := float32.round_eq_ofRat k 1 Nat.one_pos
  rw [Nat.cast_one, one_mul, hq] at h1
  unfold float32.Exact
  rw [← h1, h]
  simp only [float32.toRat, Bool.false_eq_true, if_false, one_mul, hq]

/-! ## Complexity analyzer: lemmas -/

theorem statementComplexity_pointer (s : Statement) :
    statementComplexity (.Pointer s) = 0 := by
  simp [statementComplexity]

theorem foldl_pointer_walk (l : List Statement) (cc : Int) :
    l.foldl (fun cc s => cc + statementComplexity (.Pointer s)) cc = cc := by
  induction l generalizing cc with
  | nil => rfl
  | cons s rest ih => simp [List.foldl, statementComplexity_pointer, ih]

theorem functionCyclomaticComplexity_eq_one (f : Function) :
    functionCyclomaticComplexity f = 1 := by
  simp [functionCyclomaticComplexity, foldl_pointer_walk]

theorem methodCyclomaticComplexity_eq_one (m : Method) :
    methodCyclomaticComplexity m = 1 := by
  simp [methodCyclomaticComplexity, foldl_pointer_walk]

theorem topLevelDecisions_eq (l : List Statement) (fc : Int) :
    topLevelDecisions l fc = fc + (topLevelCount l : Int) := by
  induction l generalizing fc with
  | nil => simp [topLevelDecisions, topLevelCount]
  | cons s rest ih =>
    have step : topLevelDecisions (s :: rest) fc
        = topLevelDecisions rest (fc + (if isIfOrLoop s then 1 else 0)) := by
      cases s <;> simp [topLevelDecisions, isIfOrLoop]
    rw [step, ih]
    cases h : isIfOrLoop s <;> simp [topLevelCount, List.countP_cons, h]
    ring

theorem analyzeFunction_eq (c : FileCounters) (f : Function) :
    analyzeFunction c f =
      { fileComplexity := c.fileComplexity + (1 + (topLevelCount f.StmtList : Int)
          + (f.Return.length : Int))
        numFuncs := c.numFuncs + 1 } := by
  simp only [analyzeFunction, functionCyclomaticComplexity_eq_one, topLevelDecisions_eq]
  congr 1
  ring

theorem analyzeMethod_eq (c : FileCounters) (m : Method) :
    analyzeMethod c m =
      { fileComplexity := c.fileComplexity + (1 + (topLevelCount m.StmtList : Int)
          + (m.Return.length : Int))
        numFuncs := c.numFuncs + 1 } := by
  simp only [analyzeMethod, methodCyclomaticComplexity_eq_one, topLevelDecisions_eq]
  congr 1
  ring

theorem functionComplexity_eq (f : Function) :
    functionComplexity f = 1 + (topLevelCount f.StmtList : Int) + (f.Return.length : Int) := by
  simp [functionComplexity, analyzeFunction_eq]

theorem methodComplexity_eq (m : Method) :
    methodComplexity m = 1 + (topLevelCount m.StmtList : Int) + (m.Return.length : Int) := by
  simp [methodComplexity, analyzeMethod_eq]

theorem foldl_analyzeFunction (fs : List Function) (c : FileCounters) :
    fs.foldl analyzeFunction c =
      { fileComplexity := c.fileComplexity + (fs.map functionComplexity).sum
        numFuncs := c.numFuncs + (fs.length : Int) } := by
  induction fs generalizing c with
  | nil => simp
  | cons f rest ih =>
    simp only [List.foldl_cons, ih, analyzeFunction_eq, functionComplexity_eq, List.map_cons,
      List.sum_cons, List.length_cons, Nat.cast_add, Nat.cast_one]
    congr 1 <;> ring

theorem foldl_analyzeMethod (ms : List Method) (c : FileCounters) :
    ms.foldl analyzeMethod c =
      { fileComplexity := c.fileComplexity + (ms.map methodComplexity).sum
        numFuncs := c.numFuncs + (ms.length : Int) } := by
  induction ms generalizing c with
  | nil => simp
  | cons m rest ih =>
    simp only [List.foldl_cons, ih, analyzeMethod_eq, methodComplexity_eq, List.map_cons,
      List.sum_cons, List.length_cons, Nat.cast_add, Nat.cast_one]
    congr 1 <;> ring

theorem foldl_methods {α : Type} (methods : α → List Method) (xs : List α) (c : FileCounters) :
    xs.foldl (fun c x => (methods x).foldl analyzeMethod c) c =
      { fileComplexity :=
          c.fileComplexity + ((xs.map (fun x => (methods x).map methodComplexity)).flatten).sum
        numFuncs :=
          c.numFuncs + (((xs.map (fun x => (methods x).map methodComplexity)).flatten).length : Int) } := by
  induction xs generalizing c with
  | nil => simp
  | cons x rest ih =>
    rw [List.foldl_cons, ih, foldl_analyzeMethod]
    simp only [List.map_cons, List.flatten_cons, List.sum_append, List.length_append,
      List.length_map, Nat.cast_add]
    congr 1 <;> ring

theorem analyzeFile_eq (sf : SourceFile) :
    analyzeFile sf =
      { fileComplexity := (fileComplexities sf).sum
        numFuncs := ((fileComplexities sf).length : Int) } := by
  simp only [analyzeFile, foldl_analyzeFunction, foldl_methods, fileComplexities,
    List.sum_append, List.length_append, List.length_map, Nat.cast_add]
  congr 1 <;> simp

theorem analyzeSourceFile_skip (a : Accumulators) (sf : SourceFile)
    (h : contributes sf = false) : analyzeSourceFile a sf = a := by
  have h0 : (fileComplexities sf).length = 0 := by
    simpa [contributes] using h
  simp [analyzeSourceFile, analyzeFile_eq, h0]

theorem analyzeSourceFile_count (a : Accumulators) (sf : SourceFile)
    (h : contributes sf = true) :
    analyzeSourceFile a sf =
      { totalFuncs := a.totalFuncs + ((fileComplexities sf).length : Int)
        totalFiles := a.totalFiles + 1
        totalComplexityPerFunc := a.totalComplexityPerFunc + (fileComplexities sf).sum
        totalComplexityPerFile := a.totalComplexityPerFile.add (fileQuotient sf) } := by
  have hpos : 0 < (fileComplexities sf).length := by
    simpa [contributes] using h
  simp [analyzeSourceFile, analyzeFile_eq, hpos, fileQuotient]

theorem foldl_analyzeSourceFile (files : List SourceFile) (a : Accumulators) :
    files.foldl analyzeSourceFile a =
      { totalFuncs := a.totalFuncs
          + ((((files.filter contributes).map (fun sf => (fileComplexities sf).length)).sum : Nat) : Int)
        totalFiles := a.totalFiles + (((files.filter contributes).length : Nat) : Int)
        totalComplexityPerFunc := a.totalComplexityPerFunc
          + ((files.filter contributes).map (fun sf => (fileComplexities sf).sum)).sum
        totalComplexityPerFile :=
          ((files.filter contributes).map fileQuotient).foldl float32.add
            a.totalComplexityPerFile } := by
  induction files generalizing a with
  | nil => cases a; simp
  | cons sf rest ih =>
    rw [List.foldl_cons]
    cases h : contributes sf
    · rw [analyzeSourceFile_skip a sf h, ih a]
      simp [List.filter_cons, h]
    · rw [analyzeSourceFile_count a sf h, ih _]
      simp only [List.filter_cons, h, if_true, List.map_cons, List.sum_cons, List.length_cons,
        Nat.cast_add, Nat.cast_one, List.foldl_cons]
      congr 1 <;> ring_nf

theorem accumulate_foldl (pkgs : List AnalyzedPackage) (a : Accumulators) :
    pkgs.foldl (fun a pkg => pkg.SourceFiles.foldl analyzeSourceFile a) a =
      ((pkgs.map (fun pkg => pkg.SourceFiles)).flatten).foldl analyzeSourceFile a := by
  induction pkgs generalizing a with
  | nil => rfl
  | cons pkg rest ih => simp [List.foldl_append, ih]

theorem accumulate_eq (p : AnalyzedProject) :
    accumulate p =
      { totalFuncs := ((totalFunctions p : Nat) : Int)
        totalFiles := (((contributingFiles p).length : Nat) : Int)
        totalComplexityPerFunc := totalComplexity p
        totalComplexityPerFile := float32.sum ((contributingFiles p).map fileQuotient) } := by
  unfold accumulate
  rw [accumulate_foldl, foldl_analyzeSourceFile]
  simp [contributingFiles, allFiles, totalFunctions, totalComplexity, float32.sum]

theorem fileComplexities_one_le (sf : SourceFile) : ∀ x ∈ fileComplexities sf, 1 ≤ x := by
  intro x hx
  simp only [fileComplexities, List.mem_append, List.mem_map, List.mem_flatten] at hx
  rcases hx with (⟨f, -, rfl⟩ | ⟨l, ⟨cls, -, rfl⟩, hx⟩) | ⟨l, ⟨mod, -, rfl⟩, hx⟩
  · rw [functionComplexity_eq]; omega
  · obtain ⟨m, -, rfl⟩ := List.mem_map.mp hx
    rw [methodComplexity_eq]; omega
  · obtain ⟨m, -, rfl⟩ := List.mem_map.mp hx
    rw [methodComplexity_eq]; omega

theorem length_le_sum_of_one_le (l : List Int) (h : ∀ x ∈ l, 1 ≤ x) :
    (l.length : Int) ≤ l.sum := by
  induction l with
  | nil => simp
  | cons x rest ih =>
    have hx := h x (List.mem_cons_self _ _)
    have hr := ih (fun y hy => h y (List.mem_cons_of_mem _ hy))
    simp only [List.length_cons, List.sum_cons, Nat.cast_add, Nat.cast_one]
    omega

theorem fileComplexities_length_le (sf : SourceFile) :
    ((fileComplexities sf).length : Int) ≤ (fileComplexities sf).sum :=
  length_le_sum_of_one_le _ (fileComplexities_one_le sf)

theorem totalFunctions_le_aux (files : List SourceFile) :
    (((files.map (fun sf => (fileComplexities sf).length)).sum : Nat) : Int)
      ≤ (files.map (fun sf => (fileComplexities sf).sum)).sum := by
  induction files with
  | nil => simp
  | cons sf rest ih =>
    have h := fileComplexities_length_le sf
    simp only [List.map_cons, List.sum_cons, Nat.cast_add]
    omega

theorem totalFunctions_le (p : AnalyzedProject) :
    ((totalFunctions p : Nat) : Int) ≤ totalComplexity p :=
  totalFunctions_le_aux _

theorem fileSum_le_aux (files : List SourceFile) (sf : SourceFile) (h : sf ∈ files) :
    (fileComplexities sf).sum ≤ (files.map (fun sf => (fileComplexities sf).sum)).sum := by
  induction files with
  | nil => cases h
  | cons x rest ih =>
    have h0 : (0 : Int) ≤ (rest.map (fun sf => (fileComplexities sf).sum)).sum := by
      have := totalFunctions_le_aux rest
      have h1 : (0 : Int) ≤ (((rest.map (fun sf => (fileComplexities sf).length)).sum : Nat) : Int) :=
        Int.natCast_nonneg _
      omega
    have hx0 : (0 : Int) ≤ (fileComplexities x).sum := by
      have := fileComplexities_length_le x
      have h1 : (0 : Int) ≤ ((fileComplexities x).length : Int) := Int.natCast_nonneg _
      omega
    simp only [List.map_cons, List.sum_cons]
    rcases List.mem_cons.mp h with rfl | hmem
    · omega
    · have := ih hmem
      omega

theorem contributing_length_le (p : AnalyzedProject) :
    (contributingFiles p).length ≤ totalFunctions p := by
  unfold totalFunctions
  have hall : ∀ sf ∈ contributingFiles p, 1 ≤ (fileComplexities sf).length := by
    intro sf hsf
    have := (List.mem_filter.mp hsf).2
    simpa [contributes] using this
  generalize contributingFiles p = files at hall
  induction files with
  | nil => simp
  | cons sf rest ih =>
    have h1 := hall sf (List.mem_cons_self _ _)
    have h2 := ih (fun x hx => hall x (List.mem_cons_of_mem _ hx))
    simp only [List.length_cons, List.map_cons, List.sum_cons]
    omega

theorem float32.div_ofInt64 (S : Int) (N : Nat) (hS : S < 2 ^ 24) (hN : 0 < N)
    (hNS : (N : Int) ≤ S) :
    (float32.ofInt64 S).div (float32.ofInt64 (N : Int)) = float32.ofRat ((S : ℚ) / (N : ℚ)) := by
  have hS0 : 0 ≤ S := le_trans (Int.natCast_nonneg N) hNS
  obtain ⟨s, rfl⟩ := Int.eq_ofNat_of_zero_le hS0
  have hs : s < 2 ^ 24 := by exact_mod_cast hS
  have hn : N < 2 ^ 24 := lt_of_le_of_lt (by exact_mod_cast hNS) hs
  rw [float32.ofInt64_natCast s hs, float32.ofInt64_natCast N hn,
    float32.div_finite _ _ (Nat.mul_pos hN (by positivity))]
  congr 1
  simp only [Nat.cast_mul, Nat.cast_pow, Nat.cast_ofNat, Int.cast_natCast]
  have hc : ((2 : ℚ) ^ 149) ≠ 0 := by positivity
  rw [mul_div_assoc, div_self hc, mul_one, mul_div_assoc, div_self hc, mul_one]

theorem fileQuotient_eq (sf : SourceFile) (hc : contributes sf = true)
    (hlt : (fileComplexities sf).sum < 2 ^ 24) :
    fileQuotient sf = float32.ofRat (fileAverage sf) := by
  have hpos : 0 < (fileComplexities sf).length := by
    simpa [contributes] using hc
  unfold fileQuotient fileAverage
  rw [float32.div_ofInt64 _ _ hlt hpos (fileComplexities_length_le sf)]

theorem fileAverage_nonneg (sf : SourceFile) : 0 ≤ fileAverage sf := by
  unfold fileAverage
  have h : (0 : Int) ≤ (fileComplexities sf).sum :=
    le_trans (Int.natCast_nonneg _) (fileComplexities_length_le sf)
  have hq : (0 : ℚ) ≤ (((fileComplexities sf).sum : Int) : ℚ) := by exact_mod_cast h
  exact div_nonneg hq (Nat.cast_nonneg _)

/-! ## Complexity analyzer: claims -/

/-- C1 (code defect). On the function whose body is a single `Call` statement
and whose return list is empty, `Analyze` adds 1 to the file total, whatever
the counters were, while the formula of the claim gives 2: the recursive walk
receives `&s`, whose dynamic type matches no case of the type switch. -/
theorem C1_call_body_adds_one (c : FileCounters) (name : String) :
    (analyzeFunction c { Name := name, StmtList := [.CallStatement], Return := [] }).fileComplexity
        - c.fileComplexity = 1
      ∧ specComplexity [.CallStatement] [] = 2 := by
  constructor
  · rw [analyzeFunction_eq]; simp [topLevelCount, isIfOrLoop]
  · decide

/-- C2 (code defect). On the function whose body is exactly one `If` with an
empty nested body and whose return list is empty, the complexity `Analyze`
computes is 2, not 3: 1 base, 0 from the recursive walk, 1 from the top-level
count. -/
theorem C2_single_if_is_two (c : FileCounters) (name : String) :
    functionCyclomaticComplexity { Name := name, StmtList := [.IfStatement []], Return := [] } = 1
      ∧ (analyzeFunction c { Name := name, StmtList := [.IfStatement []], Return := [] }).fileComplexity
        - c.fileComplexity = 2
      ∧ statementComplexity (.IfStatement []) = 1 := by
  refine ⟨functionCyclomaticComplexity_eq_one _, ?_, by decide⟩
  rw [analyzeFunction_eq]; simp [topLevelCount, isIfOrLoop]

/-- C3. A function or method with an empty statement body has cyclomatic
complexity 1, and `Analyze` adds `1 + len(Return)` to the file total for
it. -/
theorem C3_empty_body (f : Function) (m : Method) (c : FileCounters)
    (hf : f.StmtList = []) (hm : m.StmtList = []) :
    functionCyclomaticComplexity f = 1
      ∧ methodCyclomaticComplexity m = 1
      ∧ (analyzeFunction c f).fileComplexity = c.fileComplexity + (1 + (f.Return.length : Int))
      ∧ (analyzeMethod c m).fileComplexity = c.fileComplexity + (1 + (m.Return.length : Int)) := by
  refine ⟨?_, ?_, ?_, ?_⟩
  · simp [functionCyclomaticComplexity, hf]
  · simp [methodCyclomaticComplexity, hm]
  · simp [analyzeFunction, functionCyclomaticComplexity, topLevelDecisions, hf]; ring
  · simp [analyzeMethod, methodCyclomaticComplexity, topLevelDecisions, hm]; ring

/-- Witness of C3: a function and a method with empty bodies and two,
respectively one, return specifiers. -/
theorem C3_empty_body_witness :
    functionCyclomaticComplexity { Name := "f", Return := ["int", "error"] } = 1
      ∧ methodCyclomaticComplexity { Name := "m", Return := ["int"] } = 1
      ∧ (analyzeFunction { fileComplexity := 4, numFuncs := 2 }
          { Name := "f", Return := ["int", "error"] }).fileComplexity = 4 + (1 + 2)
      ∧ (analyzeMethod { fileComplexity := 4, numFuncs := 2 }
          { Name := "m", Return := ["int"] }).fileComplexity = 4 + (1 + 1) :=
  C3_empty_body { Name := "f", Return := ["int", "error"] } { Name := "m", Return := ["int"] }
    { fileComplexity := 4, numFuncs := 2 } rfl rfl

set_option maxRecDepth 100000 in
/-- With the complexities 1, 1 and 2 in one file the quotient `4 / 3` is no
`float32` value: the division rounds it to `11184811 * 2^-23`, which is
`1.33333337306976318359375`. -/
theorem float32.div_four_three :
    (float32.ofInt64 4).div (float32.ofInt64 3) = .finite false (11184811 * 2 ^ 126)
      ∧ (float32.finite false (11184811 * 2 ^ 126)).toRat = some (11184811 / 8388608)
      ∧ (11184811 / 8388608 : ℚ) ≠ 4 / 3 := by
  refine ⟨?_, ?_, by norm_num⟩
  · decide
  · simp only [float32.toRat, Bool.false_eq_true, if_false, Nat.cast_mul, Nat.cast_pow,
      Nat.cast_ofNat, one_mul]
    congr 1
    rw [div_eq_div_iff (by positivity) (by norm_num)]
    norm_num

/-- C4. For a project with at least one file that declares a function or
method the two final divisors are positive, `AveragePerFunc` is the sum of
the per-function complexities of the contributing files over their number of
functions and methods, and `AveragePerFile` is the sum of the per-file
averages over the number of contributing files, an unweighted average of
averages; the conversions, the quotients and the sum are those of `float32`.
When the total complexity is below `2^24` the conversions are exact and each
quotient is the exact quotient rounded once; when moreover the exact values
are `float32` values, the averages are those of the formulas over the
rationals. -/
theorem C4_project_averages (p : AnalyzedProject)
    (h : ∃ sf ∈ allFiles p, contributes sf = true) :
    0 < totalFunctions p
      ∧ 0 < (contributingFiles p).length
      ∧ (Analyze p).AveragePerFunc
        = (float32.ofInt64 (totalComplexity p)).div (float32.ofInt64 (totalFunctions p : Int))
      ∧ (Analyze p).AveragePerFile
        = (float32.sum ((contributingFiles p).map fileQuotient)).div
            (float32.ofInt64 ((contributingFiles p).length : Int))
      ∧ (totalComplexity p < 2 ^ 24 →
          (Analyze p).AveragePerFunc
            = float32.ofRat ((totalComplexity p : ℚ) / (totalFunctions p : ℚ))
          ∧ (∀ sf ∈ contributingFiles p, fileQuotient sf = float32.ofRat (fileAverage sf))
          ∧ (float32.Exact ((totalComplexity p : ℚ) / (totalFunctions p : ℚ)) →
              (Analyze p).AveragePerFunc.toRat
                = some ((totalComplexity p : ℚ) / (totalFunctions p : ℚ)))
          ∧ ((∀ sf ∈ contributingFiles p, float32.Exact (fileAverage sf)) →
              (∀ n ≤ (contributingFiles p).length,
                float32.Exact (((contributingFiles p).map fileAverage).take n).sum) →
              float32.Exact (((contributingFiles p).map fileAverage).sum
                / ((contributingFiles p).length : ℚ)) →
              (Analyze p).AveragePerFile.toRat
                = some (((contributingFiles p).map fileAverage).sum
                    / ((contributingFiles p).length : ℚ)))) := by
  obtain ⟨sf, hmem, hsf⟩ := h
  have hin : sf ∈ contributingFiles p := by
    simp [contributingFiles, hmem, hsf]
  have hlen : 0 < (contributingFiles p).length := List.length_pos_of_mem hin
  have hfun : 0 < totalFunctions p := lt_of_lt_of_le hlen (contributing_length_le p)
  have hfunc : (Analyze p).AveragePerFunc
      = (float32.ofInt64 (totalComplexity p)).div (float32.ofInt64 (totalFunctions p : Int)) := by
    simp only [Analyze, accumulate_eq]
  have hfile : (Analyze p).AveragePerFile
      = (float32.sum ((contributingFiles p).map fileQuotient)).div
          (float32.ofInt64 ((contributingFiles p).length : Int)) := by
    simp only [Analyze, accumulate_eq]
  refine ⟨hfun, hlen, hfunc, hfile, ?_⟩
  intro hS
  have hfuncRat : (Analyze p).AveragePerFunc
      = float32.ofRat ((totalComplexity p : ℚ) / (totalFunctions p : ℚ)) := by
    rw [hfunc, float32.div_ofInt64 _ _ hS hfun (totalFunctions_le p)]
  have hquot : ∀ sf ∈ contributingFiles p, fileQuotient sf = float32.ofRat (fileAverage sf) := by
    intro x hx
    refine fileQuotient_eq x (List.mem_filter.mp hx).2 ?_
    exact lt_of_le_of_lt (fileSum_le_aux _ x hx) hS
  refine ⟨hfuncRat, hquot, ?_, ?_⟩
  · intro hex
    rw [hfuncRat]
    exact hex
  · intro hex hpre hfin
    have hmap : (contributingFiles p).map fileQuotient
        = ((contributingFiles p).map fileAverage).map float32.ofRat := by
      rw [List.map_map]
      exact List.map_congr_left hquot
    have hsum : float32.sum ((contributingFiles p).map fileQuotient)
        = float32.ofRat ((contributingFiles p).map fileAverage).sum := by
      rw [hmap]
      refine float32.sum_exact _ ?_ ?_ ?_
      · intro q hq
        obtain ⟨x, -, rfl⟩ := List.mem_map.mp hq
        exact fileAverage_nonneg x
      · intro q hq
        obtain ⟨x, hx, rfl⟩ := List.mem_map.mp hq
        exact hex x hx
      · intro n hn
        exact hpre n (by simpa using hn)
    have hnn : 0 ≤ ((contributingFiles p).map fileAverage).sum := by
      refine List.sum_nonneg ?_
      intro q hq
      obtain ⟨x, -, rfl⟩ := List.mem_map.mp hq
      exact fileAverage_nonneg x
    have hexs : float32.Exact ((contributingFiles p).map fileAverage).sum := by
      have := hpre (contributingFiles p).length le_rfl
      rwa [List.take_of_length_le (by simp)] at this
    obtain ⟨k, hk, hkq⟩ := hexs.finite hnn
    have hF : (contributingFiles p).length < 2 ^ 24 := by
      have h1 := contributing_length_le p
      have h2 := totalFunctions_le p
      have h3 : ((contributingFiles p).length : Int) < 2 ^ 24 := by
        have : ((contributingFiles p).length : Int) ≤ (totalFunctions p : Int) := by
          exact_mod_cast h1
        omega
      exact_mod_cast h3
    have hc : ((2 : ℚ) ^ 149) ≠ 0 := by positivity
    have hdiv : (Analyze p).AveragePerFile
        = float32.ofRat (((contributingFiles p).map fileAverage).sum
            / ((contributingFiles p).length : ℚ)) := by
      rw [hfile, hsum, hk, float32.ofInt64_natCast _ hF,
        float32.div_finite _ _ (Nat.mul_pos hlen (by positivity)), hkq]
      congr 2
      simp only [Nat.cast_mul, Nat.cast_pow, Nat.cast_ofNat]
      rw [mul_div_assoc, div_self hc, mul_one]
    rw [hdiv]
    exact hfin

set_option maxRecDepth 100000 in
/-- The `float32` operations of `Analyze` on the project `twoFileProject`:
`4 / 2`, `5 / 1`, `9 / 3` and `(0 + 2 + 5) / 2`; and `3.5` is a `float32`
value. -/
theorem float32.twoFileProject_values :
    (float32.ofInt64 4).div (float32.ofInt64 2) = .finite false (2 * 2 ^ 149)
      ∧ (float32.ofInt64 5).div (float32.ofInt64 1) = .finite false (5 * 2 ^ 149)
      ∧ (float32.ofInt64 9).div (float32.ofInt64 3) = .finite false (3 * 2 ^ 149)
      ∧ (float32.sum [.finite false (2 * 2 ^ 149), .finite false (5 * 2 ^ 149)]).div
          (float32.ofInt64 2) = .finite false (7 * 2 ^ 148)
      ∧ float32.round false (7 * 2 ^ 148) 1 = .finite false (7 * 2 ^ 148) := by
  refine ⟨?_, ?_, ?_, ?_, ?_⟩ <;> decide

/-- Witness of C4: on `twoFileProject` the file complexities are 1, 3 and 5,
the file averages 2 and 5, `AveragePerFunc` is 3 and `AveragePerFile` is
3.5; every exact value is a `float32` value, so that the averages are those
of the formulas over the rationals. -/
theorem C4_project_averages_witness :
    (allFiles twoFileProject).map fileComplexities = [[1, 3], [5]]
      ∧ (contributingFiles twoFileProject).map fileAverage = [2, 5]
      ∧ (contributingFiles twoFileProject).map fileQuotient
        = [.finite false (2 * 2 ^ 149), .finite false (5 * 2 ^ 149)]
      ∧ (Analyze twoFileProject).AveragePerFunc = .finite false (3 * 2 ^ 149)
      ∧ (Analyze twoFileProject).AveragePerFunc.toRat = some 3
      ∧ (Analyze twoFileProject).AveragePerFile = .finite false (7 * 2 ^ 148)
      ∧ (Analyze twoFileProject).AveragePerFile.toRat = some (7 / 2) := by
  have hfiles : (allFiles twoFileProject).map fileComplexities = [[1, 3], [5]] := by decide
  have h := C4_project_averages twoFileProject
    ⟨{ Path := "b.go"
       Functions :=
         [{ Name := "f5"
            StmtList := [.IfStatement [], .ForStatement []]
            Return := ["int", "error"] }] }, by simp [allFiles, twoFileProject], by decide⟩
  obtain ⟨v1, v2, v3, v4, v5⟩ := float32.twoFileProject_values
  have hS : totalComplexity twoFileProject = 9 := by decide
  have hN : totalFunctions twoFileProject = 3 := by decide
  have hF : (contributingFiles twoFileProject).length = 2 := by decide
  have hc : contributingFiles twoFileProject = allFiles twoFileProject := rfl
  have ha : (contributingFiles twoFileProject).map fileAverage = [2, 5] := by
    rw [hc]
    simp [allFiles, twoFileProject, fileAverage, fileComplexities, functionComplexity_eq,
      topLevelCount, isIfOrLoop]
    norm_num
  have hs1 : ∀ l : List (List Int), l = [[1, 3], [5]] →
      l.map (fun c => (float32.ofInt64 c.sum).div (float32.ofInt64 (c.length : Int)))
        = [(float32.ofInt64 4).div (float32.ofInt64 2),
           (float32.ofInt64 5).div (float32.ofInt64 1)] := by
    intro l hl
    rw [hl]
    rfl
  have hq2 : (contributingFiles twoFileProject).map fileQuotient
      = [.finite false (2 * 2 ^ 149), .finite false (5 * 2 ^ 149)] := by
    have := hs1 _ hfiles
    rw [List.map_map] at this
    rw [hc, ← v1, ← v2, ← this]
    rfl
  have hfunc : (Analyze twoFileProject).AveragePerFunc = .finite false (3 * 2 ^ 149) := by
    rw [h.2.2.1, hS, hN]
    exact v3
  have hfile : (Analyze twoFileProject).AveragePerFile = .finite false (7 * 2 ^ 148) := by
    rw [h.2.2.2.1, hq2, hF]
    exact v4
  have hlt : totalComplexity twoFileProject < 2 ^ 24 := by rw [hS]; norm_num
  obtain ⟨-, -, e3, e4⟩ := h.2.2.2.2 hlt
  have hv : (((7 * 2 ^ 148 : Nat) : ℚ)) / 2 ^ 149 = 7 / 2 := by
    simp only [Nat.cast_mul, Nat.cast_pow, Nat.cast_ofNat]
    rw [show (2 : ℚ) ^ 149 = 2 ^ 148 * 2 from pow_succ 2 148, mul_comm (7 : ℚ),
      mul_div_mul_left (7 : ℚ) 2 (pow_ne_zero 148 (two_ne_zero))]
  have x0 : float32.Exact 0 := by simpa using float32.exact_natCast 0 (by norm_num)
  have x2 : float32.Exact 2 := by simpa using float32.exact_natCast 2 (by norm_num)
  have x3 : float32.Exact 3 := by simpa using float32.exact_natCast 3 (by norm_num)
  have x5 : float32.Exact 5 := by simpa using float32.exact_natCast 5 (by norm_num)
  have x7 : float32.Exact 7 := by simpa using float32.exact_natCast 7 (by norm_num)
  have x72 : float32.Exact (7 / 2) := float32.exact_of_round _ _ hv v5
  refine ⟨hfiles, ha, hq2, hfunc, ?_, hfile, ?_⟩
  · have := e3 (by rw [hS, hN]; norm_num; exact x3)
    rw [this, hS, hN]
    norm_num
  · have := e4
      (by
        intro sf hsf
        have hmem : fileAverage sf ∈ (contributingFiles twoFileProject).map fileAverage :=
          List.mem_map_of_mem _ hsf
        rw [ha] at hmem
        simp only [List.mem_cons, List.mem_singleton, List.not_mem_nil, or_false] at hmem
        rcases hmem with h2 | h5
        · rw [h2]; exact x2
        · rw [h5]; exact x5)
      (by
        intro n hn
        rw [hF] at hn
        rw [ha]
        interval_cases n
        · simpa using x0
        · simpa using x2
        · have : (List.take 2 [(2 : ℚ), 5]).sum = 7 := by norm_num
          rw [this]; exact x7)
      (by rw [ha, hF]; norm_num; exact x72)
    rw [this, ha, hF]
    norm_num

/-- C5. Inserting, at any position of any package, a source file that
declares no function, no class method and no module method leaves the four
accumulators of `Analyze`, and so both averages, unchanged. -/
theorem C5_file_without_functions (name : String) (pre post : List AnalyzedPackage)
    (pkgName : String) (before after : List SourceFile) (sf : SourceFile)
    (hf : sf.Functions = [])
    (hc : ∀ cls ∈ sf.Classes, cls.Methods = [])
    (hm : ∀ mod ∈ sf.Modules, mod.Methods = []) :
    accumulate { Name := name
                 Packages := pre ++ { Name := pkgName, SourceFiles := before ++ sf :: after } :: post }
        = accumulate { Name := name
                       Packages := pre ++ { Name := pkgName, SourceFiles := before ++ after } :: post }
      ∧ Analyze { Name := name
                  Packages := pre ++ { Name := pkgName, SourceFiles := before ++ sf :: after } :: post }
        = Analyze { Name := name
                    Packages := pre ++ { Name := pkgName, SourceFiles := before ++ after } :: post } := by
  have hcls : (sf.Classes.map (fun cls => cls.Methods.map methodComplexity)).flatten = [] := by
    rw [List.flatten_eq_nil_iff]
    intro l hl
    obtain ⟨cls, hcls, rfl⟩ := List.mem_map.mp hl
    simp [hc cls hcls]
  have hmod : (sf.Modules.map (fun mod => mod.Methods.map methodComplexity)).flatten = [] := by
    rw [List.flatten_eq_nil_iff]
    intro l hl
    obtain ⟨mod, hmod, rfl⟩ := List.mem_map.mp hl
    simp [hm mod hmod]
  have hno : contributes sf = false := by
    simp [contributes, fileComplexities, hf, hcls, hmod]
  have hacc :
      accumulate
          { Name := name,
            Packages := pre ++ { Name := pkgName, SourceFiles := before ++ sf :: after } :: post }
        = accumulate
          { Name := name,
            Packages := pre ++ { Name := pkgName, SourceFiles := before ++ after } :: post } := by
    simp only [accumulate, accumulate_foldl, List.map_append, List.map_cons, List.flatten_append,
      List.flatten_cons, List.foldl_append, List.foldl_cons]
    rw [analyzeSourceFile_skip _ sf hno]
  refine ⟨hacc, ?_⟩
  simp only [Analyze, hacc]

/-- Witness of C5: a file that holds a class without methods, inserted
between the two files of a package. -/
theorem C5_file_without_functions_witness :
    accumulate { Name := "p"
                 Packages := [] ++ { Name := "pkg"
                                     SourceFiles :=
                                       [{ Path := "a.go", Functions := [{ Name := "f" }] }]
                                         ++ { Path := "c.go", Classes := [{ Name := "K" }] }
                                           :: [{ Path := "b.go" }] } :: [] }
        = accumulate { Name := "p"
                       Packages := [] ++ { Name := "pkg"
                                           SourceFiles :=
                                             [{ Path := "a.go", Functions := [{ Name := "f" }] }]
                                               ++ [{ Path := "b.go" }] } :: [] }
      ∧ Analyze { Name := "p"
                  Packages := [] ++ { Name := "pkg"
                                      SourceFiles :=
                                        [{ Path := "a.go", Functions := [{ Name := "f" }] }]
                                          ++ { Path := "c.go", Classes := [{ Name := "K" }] }
                                            :: [{ Path := "b.go" }] } :: [] }
        = Analyze { Name := "p"
                    Packages := [] ++ { Name := "pkg"
                                        SourceFiles :=
                                          [{ Path := "a.go", Functions := [{ Name := "f" }] }]
                                            ++ [{ Path := "b.go" }] } :: [] } :=
  C5_file_without_functions "p" [] [] "pkg" [{ Path := "a.go", Functions := [{ Name := "f" }] }]
    [{ Path := "b.go" }] { Path := "c.go", Classes := [{ Name := "K" }] } rfl
    (by simp) (by simp)

/-- C6 (code defect). On a project without packages the two final divisions
of `Analyze` divide by `totalFuncs = 0` and `totalFiles = 0`, and both
averages are `NaN`; the same happens when the only file declares no
function. Only the per-file division is guarded by `numFuncs > 0`. -/
theorem C6_final_division_by_zero (name : String) :
    (accumulate { Name := name, Packages := [] }).totalFuncs = 0
      ∧ (accumulate { Name := name, Packages := [] }).totalFiles = 0
      ∧ Analyze { Name := name, Packages := [] }
        = { AveragePerFunc := .NaN, AveragePerFile := .NaN }
      ∧ Analyze { Name := name
                  Packages := [{ Name := "pkg", SourceFiles := [{ Path := "doc.go" }] }] }
        = { AveragePerFunc := .NaN, AveragePerFile := .NaN } := by
  have h0 : float32.ofInt64 0 = .finite false 0 := float32.ofInt64_natCast 0 (by norm_num)
  have hdiv : (float32.finite false 0).div (.finite false 0) = .NaN := rfl
  refine ⟨rfl, rfl, ?_, ?_⟩
  · simp [Analyze, accumulate, h0, hdiv]
  · simp [Analyze, accumulate, analyzeSourceFile, analyzeFile, h0, hdiv]

/-! ## Decoder: every call returns -/

theorem scanner.Reaches.refl (s : scanner) : s.Reaches s := ⟨rfl, le_refl _⟩

theorem scanner.Reaches.trans {a b c : scanner} (h₁ : a.Reaches b) (h₂ : b.Reaches c) :
    a.Reaches c := ⟨h₂.1.trans h₁.1, le_trans h₁.2 h₂.2⟩

theorem scanner.nextValue_cases (s : scanner) :
    (∃ e, s.nextValue = (.error e, s))
      ∨ (∃ val tok, s.nextValue = (.ok (val, tok), { s with pos := s.pos + 1 })
          ∧ s.pos < s.input.length) := by
  unfold scanner.nextValue
  cases h : s.input.get? s.pos with
  | none => exact Or.inl ⟨_, rfl⟩
  | some i =>
    have hlt : s.pos < s.input.length := by
      by_contra hge
      rw [List.get?_eq_none.mpr (not_lt.mp hge)] at h
      cases h
    cases i with
    | key k => exact Or.inl ⟨_, rfl⟩
    | value tok val => exact Or.inr ⟨val, tok, rfl, hlt⟩

theorem scanner.nextKey_cases (s : scanner) :
    (∃ e, s.nextKey = (.error e, s))
      ∨ (∃ k, s.nextKey = (.ok k, { s with pos := s.pos + 1 }) ∧ s.pos < s.input.length) := by
  unfold scanner.nextKey
  cases h : s.input.get? s.pos with
  | none => exact Or.inl ⟨_, rfl⟩
  | some i =>
    have hlt : s.pos < s.input.length := by
      by_contra hge
      rw [List.get?_eq_none.mpr (not_lt.mp hge)] at h
      cases h
    cases i with
    | key k => exact Or.inr ⟨k, rfl, hlt⟩
    | value tok val => exact Or.inl ⟨_, rfl⟩

theorem decoder.isEndArray_reaches (dec : decoder) :
    dec.scan.Reaches dec.isEndArray.2.scan := by
  unfold decoder.isEndArray
  rcases dec.scan.nextValue_cases with ⟨e, h⟩ | ⟨val, tok, h, -⟩ <;> rw [h]
  · exact scanner.Reaches.refl _
  · dsimp only
    split_ifs <;> exact ⟨rfl, Nat.le_succ _⟩


theorem decoder.Returns.of_reaches {α : Type} {dec d : decoder} {res : Option (α × decoder)}
    (h : dec.scan.Reaches d.scan) (hr : d.Returns res) : dec.Returns res := by
  obtain ⟨r, d', hres, hd⟩ := hr
  exact ⟨r, d', hres, h.trans hd⟩

theorem decoder.returns_some {α : Type} {dec d : decoder} (r : α)
    (h : dec.scan.Reaches d.scan) : dec.Returns (some (r, d)) :=
  ⟨r, d, rfl, h⟩

theorem decoder.assertNewArray_reaches (dec : decoder) :
    dec.scan.Reaches dec.assertNewArray.2.scan := by
  unfold decoder.assertNewArray
  rcases dec.scan.nextValue_cases with ⟨e, h⟩ | ⟨val, tok, h, -⟩ <;> rw [h]
  · exact scanner.Reaches.refl _
  · dsimp only
    split_ifs <;> exact ⟨rfl, Nat.le_succ _⟩

theorem decoder.assertNewObject_reaches (dec : decoder) :
    dec.scan.Reaches dec.assertNewObject.2.scan := by
  unfold decoder.assertNewObject
  rcases dec.scan.nextValue_cases with ⟨e, h⟩ | ⟨val, tok, h, -⟩ <;> rw [h]
  · exact scanner.Reaches.refl _
  · dsimp only
    split_ifs <;> exact ⟨rfl, Nat.le_succ _⟩

theorem decoder.isEndObject_reaches (dec : decoder) :
    dec.scan.Reaches dec.isEndObject.2.scan := by
  unfold decoder.isEndObject
  rcases dec.scan.nextValue_cases with ⟨e, h⟩ | ⟨val, tok, h, -⟩ <;> rw [h]
  · exact scanner.Reaches.refl _
  · dsimp only
    split_ifs <;> exact ⟨rfl, Nat.le_succ _⟩

theorem decoder.isEmptyArray_scan (dec : decoder) : dec.isEmptyArray.2.scan = dec.scan := by
  unfold decoder.isEmptyArray
  cases dec.scan.peek <;> dsimp only <;> split_ifs <;> rfl

theorem decoder.isEmptyObject_scan (dec : decoder) : dec.isEmptyObject.2.scan = dec.scan := by
  unfold decoder.isEmptyObject
  cases dec.scan.peek <;> dsimp only <;> split_ifs <;> rfl

theorem decoder.enough_loopBound (dec : decoder) : decoder.Enough dec.loopBound dec := by
  unfold decoder.Enough decoder.loopBound
  omega

theorem decoder.decodeStringsListLoop_returns (fuel : Nat) (dec : decoder) (sl : List String)
    (h : decoder.Enough fuel dec) : dec.Returns (decoder.decodeStringsListLoop fuel dec sl) := by
  induction fuel generalizing dec sl with
  | zero => exact absurd h (Nat.not_lt_zero _)
  | succ fuel ih =>
    unfold decoder.decodeStringsListLoop
    rcases dec.scan.nextValue_cases with ⟨e, hv⟩ | ⟨val, tok, hv, hlt⟩ <;> rw [hv] <;> dsimp only
    · exact decoder.returns_some _ (scanner.Reaches.refl _)
    · have hstep : dec.scan.Reaches { dec.scan with pos := dec.scan.pos + 1 } :=
        ⟨rfl, Nat.le_succ _⟩
      split_ifs with htok
      · exact decoder.returns_some _ hstep
      · have hend := decoder.isEndArray_reaches
          { dec with scan := { dec.scan with pos := dec.scan.pos + 1 } }
        rcases hres : decoder.isEndArray
          { dec with scan := { dec.scan with pos := dec.scan.pos + 1 } } with ⟨b, d⟩
        rw [hres] at hend
        cases b <;> dsimp only
        · split_ifs
          · exact decoder.returns_some _ (hstep.trans hend)
          · refine decoder.Returns.of_reaches (hstep.trans hend) (ih d _ ?_)
            obtain ⟨hin, hpos⟩ := hend
            unfold decoder.Enough at h ⊢
            simp only at hin hpos
            rw [hin]
            omega
        · exact decoder.returns_some _ (hstep.trans hend)

theorem decoder.decodeStringsList_returns (dec : decoder) :
    dec.Returns dec.decodeStringsList := by
  unfold decoder.decodeStringsList
  have h1 := dec.assertNewArray_reaches
  rcases hres : dec.assertNewArray with ⟨b, d⟩
  rw [hres] at h1
  cases b <;> dsimp only
  · exact decoder.returns_some _ h1
  · have h2 := d.isEmptyArray_scan
    rcases hres2 : d.isEmptyArray with ⟨b2, d2⟩
    rw [hres2] at h2
    have h12 : dec.scan.Reaches d2.scan := by
      simp only at h2 h1
      rw [h2]; exact h1
    cases b2 <;> dsimp only
    · split_ifs
      · exact decoder.returns_some _ h12
      · exact decoder.Returns.of_reaches h12
          (decoder.decodeStringsListLoop_returns _ _ _ d2.enough_loopBound)
    · exact decoder.returns_some _ h12


theorem scanner.back_reaches (s : scanner) : s.back.Reaches s :=
  ⟨rfl, Nat.sub_le _ _⟩

theorem decoder.decodeLanguageField_returns (key : String) (val : Option String)
    (tok : scanToken) (dec : decoder) (lang : Language) :
    decoder.Returns { dec with scan := dec.scan.back }
      (decoder.decodeLanguageField key val tok dec lang) := by
  unfold decoder.decodeLanguageField
  split_ifs
  · obtain ⟨r, d, hres, hd⟩ :=
      decoder.decodeStringsList_returns { dec with scan := dec.scan.back }
    rw [hres]
    exact decoder.returns_some _ hd
  · exact decoder.returns_some _ dec.scan.back_reaches
  · exact decoder.returns_some _ dec.scan.back_reaches
  · exact decoder.returns_some _ dec.scan.back_reaches

theorem decoder.decodeLanguageLoop_returns (fuel : Nat) (dec : decoder) (lang : Language)
    (h : decoder.Enough fuel dec) : dec.Returns (decoder.decodeLanguageLoop fuel dec lang) := by
  induction fuel generalizing dec lang with
  | zero => exact absurd h (Nat.not_lt_zero _)
  | succ fuel ih =>
    unfold decoder.decodeLanguageLoop
    rcases dec.scan.nextKey_cases with ⟨e, hk⟩ | ⟨key, hk, hlt⟩ <;> rw [hk] <;> dsimp only
    · split_ifs <;> exact decoder.returns_some _ (scanner.Reaches.refl _)
    · have hstep : dec.scan.Reaches { dec.scan with pos := dec.scan.pos + 1 } :=
        ⟨rfl, Nat.le_succ _⟩
      split_ifs with hkey
      · exact decoder.returns_some _ hstep
      · rcases scanner.nextValue_cases { dec.scan with pos := dec.scan.pos + 1 }
          with ⟨e, hv⟩ | ⟨val, tok, hv, -⟩ <;> rw [hv] <;> dsimp only
        · exact decoder.returns_some _ hstep
        · obtain ⟨r, d, hres, hd⟩ := decoder.decodeLanguageField_returns key val tok
            { dec with scan := { dec.scan with pos := dec.scan.pos + 1 + 1 } } lang
          rw [hres]
          have hd' : scanner.Reaches { dec.scan with pos := dec.scan.pos + 1 } d.scan := by
            obtain ⟨hin, hpos⟩ := hd
            exact ⟨hin, by simpa [scanner.back] using hpos⟩
          cases r <;> dsimp only
          · exact decoder.returns_some _ (hstep.trans hd')
          · split_ifs
            · exact decoder.returns_some _ (hstep.trans hd')
            · have hend := d.isEndObject_reaches
              rcases hres2 : d.isEndObject with ⟨b, d2⟩
              rw [hres2] at hend
              cases b <;> dsimp only
              · refine decoder.Returns.of_reaches (hstep.trans (hd'.trans hend)) (ih d2 _ ?_)
                obtain ⟨hin, hpos⟩ := hd'.trans hend
                unfold decoder.Enough at h ⊢
                simp only at hin hpos
                rw [hin]
                omega
              · exact decoder.returns_some _ (hstep.trans (hd'.trans hend))

theorem decoder.isEndArray_false (dec d : decoder) (h : dec.isEndArray = (false, d))
    (he : d.err.isSome = false) :
    d.scan.input = dec.scan.input ∧ d.scan.pos = dec.scan.pos + 1
      ∧ dec.scan.pos < dec.scan.input.length := by
  unfold decoder.isEndArray at h
  rcases dec.scan.nextValue_cases with ⟨e, hv⟩ | ⟨val, tok, hv, hlt⟩ <;> rw [hv] at h
  · simp only [Prod.mk.injEq, true_and] at h
    subst h
    simp at he
  · dsimp only at h
    split_ifs at h
    · simp at h
    · simp only [Prod.mk.injEq, true_and] at h
      subst h
      simp at he
    · simp only [Prod.mk.injEq, true_and] at h
      subst h
      exact ⟨rfl, rfl, hlt⟩


theorem decoder.decodeLanguage_returns (dec : decoder) :
    dec.Returns dec.decodeLanguage := by
  unfold decoder.decodeLanguage
  have h1 := dec.assertNewObject_reaches
  rcases hres : dec.assertNewObject with ⟨b, d⟩
  rw [hres] at h1
  cases b <;> dsimp only
  · exact decoder.returns_some _ h1
  · have h2 := d.isEmptyObject_scan
    rcases hres2 : d.isEmptyObject with ⟨b2, d2⟩
    rw [hres2] at h2
    have h12 : dec.scan.Reaches d2.scan := by
      simp only at h2 h1
      rw [h2]; exact h1
    cases b2 <;> dsimp only
    · split_ifs
      · exact decoder.returns_some _ h12
      · exact decoder.Returns.of_reaches h12
          (decoder.decodeLanguageLoop_returns _ _ _ d2.enough_loopBound)
    · exact decoder.returns_some _ h12

theorem decoder.decodeLanguagesLoop_returns (fuel : Nat) (dec : decoder) (ls : List (Option Language))
    (h : decoder.Enough fuel dec) : dec.Returns (decoder.decodeLanguagesLoop fuel dec ls) := by
  induction fuel generalizing dec ls with
  | zero => exact absurd h (Nat.not_lt_zero _)
  | succ fuel ih =>
    unfold decoder.decodeLanguagesLoop
    obtain ⟨r, d, hres, hd⟩ := dec.decodeLanguage_returns
    rw [hres]
    dsimp only
    split_ifs
    · exact decoder.returns_some _ hd
    · have hend := d.isEndArray_reaches
      have hprog := d.isEndArray_false
      rcases hres2 : d.isEndArray with ⟨b, d2⟩
      rw [hres2] at hend
      cases b <;> dsimp only
      · split_ifs with herr
        · exact decoder.returns_some _ (hd.trans hend)
        · refine decoder.Returns.of_reaches (hd.trans hend) (ih d2 _ ?_)
          obtain ⟨hin, hpos, hlt⟩ := hprog d2 hres2 (by simpa using herr)
          obtain ⟨hin0, hpos0⟩ := hd
          unfold decoder.Enough at h ⊢
          rw [hin, hin0]
          rw [hin0] at hlt
          omega
      · exact decoder.returns_some _ (hd.trans hend)

theorem decoder.decodeLanguages_returns (dec : decoder) :
    dec.Returns dec.decodeLanguages := by
  unfold decoder.decodeLanguages
  have h1 := dec.assertNewArray_reaches
  rcases hres : dec.assertNewArray with ⟨b, d⟩
  rw [hres] at h1
  cases b <;> dsimp only
  · exact decoder.returns_some _ h1
  · have h2 := d.isEmptyArray_scan
    rcases hres2 : d.isEmptyArray with ⟨b2, d2⟩
    rw [hres2] at h2
    have h12 : dec.scan.Reaches d2.scan := by
      simp only at h2 h1
      rw [h2]; exact h1
    cases b2 <;> dsimp only
    · split_ifs
      · exact decoder.returns_some _ h12
      · exact decoder.Returns.of_reaches h12
          (decoder.decodeLanguagesLoop_returns _ _ _ d2.enough_loopBound)
    · exact decoder.returns_some _ h12

theorem decoder.decodeTypeSpecField_returns (key : String) (dec : decoder)
    (typeSpec : TypeSpec) :
    decoder.Returns { dec with scan := dec.scan.back }
      (decoder.decodeTypeSpecField key dec typeSpec) := by
  unfold decoder.decodeTypeSpecField
  split_ifs
  · obtain ⟨r, d, hres, hd⟩ :=
      decoder.decodeStringsList_returns { dec with scan := dec.scan.back }
    rw [hres]
    exact decoder.returns_some _ hd
  · exact decoder.returns_some _ (scanner.Reaches.refl _)
  · exact decoder.returns_some _ (scanner.Reaches.refl _)
  · exact decoder.returns_some _ dec.scan.back_reaches

theorem decoder.decodeTypeSpecLoop_returns (fuel : Nat) (dec : decoder) (typeSpec : TypeSpec)
    (h : decoder.Enough fuel dec) : dec.Returns (decoder.decodeTypeSpecLoop fuel dec typeSpec) := by
  induction fuel generalizing dec typeSpec with
  | zero => exact absurd h (Nat.not_lt_zero _)
  | succ fuel ih =>
    unfold decoder.decodeTypeSpecLoop
    rcases dec.scan.nextKey_cases with ⟨e, hk⟩ | ⟨key, hk, hlt⟩ <;> rw [hk] <;> dsimp only
    · split_ifs <;> exact decoder.returns_some _ (scanner.Reaches.refl _)
    · have hstep : dec.scan.Reaches { dec.scan with pos := dec.scan.pos + 1 } :=
        ⟨rfl, Nat.le_succ _⟩
      split_ifs with hkey
      · exact decoder.returns_some _ hstep
      · rcases scanner.nextValue_cases { dec.scan with pos := dec.scan.pos + 1 }
          with ⟨e, hv⟩ | ⟨val, tok, hv, -⟩ <;> rw [hv] <;> dsimp only
        · exact decoder.returns_some _ hstep
        · obtain ⟨r, d, hres, hd⟩ := decoder.decodeTypeSpecField_returns key
            { dec with scan := { dec.scan with pos := dec.scan.pos + 1 + 1 } } typeSpec
          rw [hres]
          have hd' : scanner.Reaches { dec.scan with pos := dec.scan.pos + 1 } d.scan := by
            obtain ⟨hin, hpos⟩ := hd
            exact ⟨hin, by simpa [scanner.back] using hpos⟩
          cases r <;> dsimp only
          · exact decoder.returns_some _ (hstep.trans hd')
          · split_ifs
            · exact decoder.returns_some _ (hstep.trans hd')
            · have hend := d.isEndObject_reaches
              rcases hres2 : d.isEndObject with ⟨b, d2⟩
              rw [hres2] at hend
              cases b <;> dsimp only
              · refine decoder.Returns.of_reaches (hstep.trans (hd'.trans hend)) (ih d2 _ ?_)
                obtain ⟨hin, hpos⟩ := hd'.trans hend
                unfold decoder.Enough at h ⊢
                simp only at hin hpos
                rw [hin]
                omega
              · exact decoder.returns_some _ (hstep.trans (hd'.trans hend))

theorem decoder.decodeTypeSpec_returns (dec : decoder) :
    dec.Returns dec.decodeTypeSpec := by
  unfold decoder.decodeTypeSpec
  have h1 := dec.assertNewObject_reaches
  rcases hres : dec.assertNewObject with ⟨b, d⟩
  rw [hres] at h1
  cases b <;> dsimp only
  · exact decoder.returns_some _ h1
  · have h2 := d.isEmptyObject_scan
    rcases hres2 : d.isEmptyObject with ⟨b2, d2⟩
    rw [hres2] at h2
    have h12 : dec.scan.Reaches d2.scan := by
      simp only at h2 h1
      rw [h2]; exact h1
    cases b2 <;> dsimp only
    · split_ifs
      · exact decoder.returns_some _ h12
      · exact decoder.Returns.of_reaches h12
          (decoder.decodeTypeSpecLoop_returns _ _ _ d2.enough_loopBound)
    · exact decoder.returns_some _ h12

theorem decoder.decodeTypeSpecsLoop_returns (fuel : Nat) (dec : decoder) (ts : List (Option TypeSpec))
    (h : decoder.Enough fuel dec) : dec.Returns (decoder.decodeTypeSpecsLoop fuel dec ts) := by
  induction fuel generalizing dec ts with
  | zero => exact absurd h (Nat.not_lt_zero _)
  | succ fuel ih =>
    unfold decoder.decodeTypeSpecsLoop
    obtain ⟨r, d, hres, hd⟩ := dec.decodeTypeSpec_returns
    rw [hres]
    dsimp only
    split_ifs
    · exact decoder.returns_some _ hd
    · have hend := d.isEndArray_reaches
      have hprog := d.isEndArray_false
      rcases hres2 : d.isEndArray with ⟨b, d2⟩
      rw [hres2] at hend
      cases b <;> dsimp only
      · split_ifs with herr
        · exact decoder.returns_some _ (hd.trans hend)
        · refine decoder.Returns.of_reaches (hd.trans hend) (ih d2 _ ?_)
          obtain ⟨hin, hpos, hlt⟩ := hprog d2 hres2 (by simpa using herr)
          obtain ⟨hin0, hpos0⟩ := hd
          unfold decoder.Enough at h ⊢
          rw [hin, hin0]
          rw [hin0] at hlt
          omega
      · exact decoder.returns_some _ (hd.trans hend)

theorem decoder.decodeTypeSpecs_returns (dec : decoder) :
    dec.Returns dec.decodeTypeSpecs := by
  unfold decoder.decodeTypeSpecs
  have h1 := dec.assertNewArray_reaches
  rcases hres : dec.assertNewArray with ⟨b, d⟩
  rw [hres] at h1
  cases b <;> dsimp only
  · exact decoder.returns_some _ h1
  · have h2 := d.isEmptyArray_scan
    rcases hres2 : d.isEmptyArray with ⟨b2, d2⟩
    rw [hres2] at h2
    have h12 : dec.scan.Reaches d2.scan := by
      simp only at h2 h1
      rw [h2]; exact h1
    cases b2 <;> dsimp only
    · split_ifs
      · exact decoder.returns_some _ h12
      · exact decoder.Returns.of_reaches h12
          (decoder.decodeTypeSpecsLoop_returns _ _ _ d2.enough_loopBound)
    · exact decoder.returns_some _ h12

theorem decoder.returns_ite {α : Type} {dec : decoder} {c : Prop} [Decidable c]
    {a b : Option (α × decoder)} (ha : c → dec.Returns a) (hb : ¬c → dec.Returns b) :
    dec.Returns (if c then a else b) := by
  split_ifs with h
  · exact ha h
  · exact hb h

theorem decoder.decodeSrcFileField_returns (key : String) (val : Option String)
    (tok : scanToken) (dec : decoder) (sf : SrcFile) :
    decoder.Returns { dec with scan := dec.scan.back }
      (decoder.decodeSrcFileField key val tok dec sf) := by
  obtain ⟨r1, d1, hres1, hd1⟩ :=
    decoder.decodeLanguage_returns { dec with scan := dec.scan.back }
  obtain ⟨r2, d2, hres2, hd2⟩ :=
    decoder.decodeStringsList_returns { dec with scan := dec.scan.back }
  obtain ⟨r3, d3, hres3, hd3⟩ :=
    decoder.decodeTypeSpecs_returns { dec with scan := dec.scan.back }
  unfold decoder.decodeSrcFileField
  rw [hres1, hres2, hres3]
  dsimp only
  repeat' refine decoder.returns_ite (fun _ => ?_) (fun _ => ?_)
  all_goals first
    | exact decoder.returns_some _ (scanner.Reaches.refl _)
    | exact decoder.returns_some _ dec.scan.back_reaches
    | exact decoder.returns_some _ hd1
    | exact decoder.returns_some _ hd2
    | exact decoder.returns_some _ hd3
    | (refine decoder.returns_some _ ?_
       split_ifs <;> exact dec.scan.back_reaches)

theorem decoder.decodeSrcFileLoop_returns (fuel : Nat) (dec : decoder) (sf : SrcFile)
    (h : decoder.Enough fuel dec) : dec.Returns (decoder.decodeSrcFileLoop fuel dec sf) := by
  induction fuel generalizing dec sf with
  | zero => exact absurd h (Nat.not_lt_zero _)
  | succ fuel ih =>
    unfold decoder.decodeSrcFileLoop
    rcases dec.scan.nextKey_cases with ⟨e, hk⟩ | ⟨key, hk, hlt⟩ <;> rw [hk] <;> dsimp only
    · split_ifs <;> exact decoder.returns_some _ (scanner.Reaches.refl _)
    · have hstep : dec.scan.Reaches { dec.scan with pos := dec.scan.pos + 1 } :=
        ⟨rfl, Nat.le_succ _⟩
      split_ifs with hkey
      · exact decoder.returns_some _ hstep
      · rcases scanner.nextValue_cases { dec.scan with pos := dec.scan.pos + 1 }
          with ⟨e, hv⟩ | ⟨val, tok, hv, -⟩ <;> rw [hv] <;> dsimp only
        · exact decoder.returns_some _ hstep
        · obtain ⟨r, d, hres, hd⟩ := decoder.decodeSrcFileField_returns key val tok
            { dec with scan := { dec.scan with pos := dec.scan.pos + 1 + 1 } } sf
          rw [hres]
          have hd' : scanner.Reaches { dec.scan with pos := dec.scan.pos + 1 } d.scan := by
            obtain ⟨hin, hpos⟩ := hd
            exact ⟨hin, by simpa [scanner.back] using hpos⟩
          cases r <;> dsimp only
          · exact decoder.returns_some _ (hstep.trans hd')
          · split_ifs
            · exact decoder.returns_some _ (hstep.trans hd')
            · have hend := d.isEndObject_reaches
              rcases hres2 : d.isEndObject with ⟨b, d2⟩
              rw [hres2] at hend
              cases b <;> dsimp only
              · refine decoder.Returns.of_reaches (hstep.trans (hd'.trans hend)) (ih d2 _ ?_)
                obtain ⟨hin, hpos⟩ := hd'.trans hend
                unfold decoder.Enough at h ⊢
                simp only at hin hpos
                rw [hin]
                omega
              · exact decoder.returns_some _ (hstep.trans (hd'.trans hend))

theorem decoder.decodeSrcFile_returns (dec : decoder) :
    dec.Returns dec.decodeSrcFile := by
  unfold decoder.decodeSrcFile
  have h1 := dec.assertNewObject_reaches
  rcases hres : dec.assertNewObject with ⟨b, d⟩
  rw [hres] at h1
  cases b <;> dsimp only
  · exact decoder.returns_some _ h1
  · have h2 := d.isEmptyObject_scan
    rcases hres2 : d.isEmptyObject with ⟨b2, d2⟩
    rw [hres2] at h2
    have h12 : dec.scan.Reaches d2.scan := by
      simp only at h2 h1
      rw [h2]; exact h1
    cases b2 <;> dsimp only
    · split_ifs
      · exact decoder.returns_some _ h12
      · exact decoder.Returns.of_reaches h12
          (decoder.decodeSrcFileLoop_returns _ _ _ d2.enough_loopBound)
    · exact decoder.returns_some _ h12

theorem decoder.decodeSrcFilesLoop_returns (fuel : Nat) (dec : decoder) (sf : List (Option SrcFile))
    (h : decoder.Enough fuel dec) : dec.Returns (decoder.decodeSrcFilesLoop fuel dec sf) := by
  induction fuel generalizing dec sf with
  | zero => exact absurd h (Nat.not_lt_zero _)
  | succ fuel ih =>
    unfold decoder.decodeSrcFilesLoop
    obtain ⟨r, d, hres, hd⟩ := dec.decodeSrcFile_returns
    rw [hres]
    dsimp only
    split_ifs
    · exact decoder.returns_some _ hd
    · have hend := d.isEndArray_reaches
      have hprog := d.isEndArray_false
      rcases hres2 : d.isEndArray with ⟨b, d2⟩
      rw [hres2] at hend
      cases b <;> dsimp only
      · split_ifs with herr
        · exact decoder.returns_some _ (hd.trans hend)
        · refine decoder.Returns.of_reaches (hd.trans hend) (ih d2 _ ?_)
          obtain ⟨hin, hpos, hlt⟩ := hprog d2 hres2 (by simpa using herr)
          obtain ⟨hin0, hpos0⟩ := hd
          unfold decoder.Enough at h ⊢
          rw [hin, hin0]
          rw [hin0] at hlt
          omega
      · exact decoder.returns_some _ (hd.trans hend)

theorem decoder.decodeSrcFiles_returns (dec : decoder) :
    dec.Returns dec.decodeSrcFiles := by
  unfold decoder.decodeSrcFiles
  have h1 := dec.assertNewArray_reaches
  rcases hres : dec.assertNewArray with ⟨b, d⟩
  rw [hres] at h1
  cases b <;> dsimp only
  · exact decoder.returns_some _ h1
  · have h2 := d.isEmptyArray_scan
    rcases hres2 : d.isEmptyArray with ⟨b2, d2⟩
    rw [hres2] at h2
    have h12 : dec.scan.Reaches d2.scan := by
      simp only at h2 h1
      rw [h2]; exact h1
    cases b2 <;> dsimp only
    · split_ifs
      · exact decoder.returns_some _ h12
      · exact decoder.Returns.of_reaches h12
          (decoder.decodeSrcFilesLoop_returns _ _ _ d2.enough_loopBound)
    · exact decoder.returns_some _ h12

theorem decoder.decodePackageField_returns (key : String) (val : Option String)
    (tok : scanToken) (dec : decoder) (pkg : Package) :
    decoder.Returns { dec with scan := dec.scan.back }
      (decoder.decodePackageField key val tok dec pkg) := by
  unfold decoder.decodePackageField
  split_ifs
  · obtain ⟨r, d, hres, hd⟩ := dec.decodeSrcFiles_returns
    rw [hres]
    exact decoder.returns_some _ (dec.scan.back_reaches.trans hd)
  · obtain ⟨r, d, hres, hd⟩ := dec.decodeStringsList_returns
    rw [hres]
    exact decoder.returns_some _ (dec.scan.back_reaches.trans hd)
  all_goals exact decoder.returns_some _ dec.scan.back_reaches

theorem decoder.decodePackageLoop_returns (fuel : Nat) (dec : decoder) (pkg : Package)
    (h : decoder.Enough fuel dec) : dec.Returns (decoder.decodePackageLoop fuel dec pkg) := by
  induction fuel generalizing dec pkg with
  | zero => exact absurd h (Nat.not_lt_zero _)
  | succ fuel ih =>
    unfold decoder.decodePackageLoop
    rcases dec.scan.nextKey_cases with ⟨e, hk⟩ | ⟨key, hk, hlt⟩ <;> rw [hk] <;> dsimp only
    · exact decoder.returns_some _ (scanner.Reaches.refl _)
    · have hstep : dec.scan.Reaches { dec.scan with pos := dec.scan.pos + 1 } :=
        ⟨rfl, Nat.le_succ _⟩
      rcases scanner.nextValue_cases { dec.scan with pos := dec.scan.pos + 1 }
        with ⟨e, hv⟩ | ⟨val, tok, hv, -⟩ <;> rw [hv] <;> dsimp only
      · exact decoder.returns_some _ hstep
      · obtain ⟨r, d, hres, hd⟩ := decoder.decodePackageField_returns key val tok
          { scan := { dec.scan with pos := dec.scan.pos + 1 + 1 }, err := none } pkg
        rw [hres]
        have hd' : scanner.Reaches { dec.scan with pos := dec.scan.pos + 1 } d.scan := by
          obtain ⟨hin, hpos⟩ := hd
          exact ⟨hin, by simpa [scanner.back] using hpos⟩
        cases r <;> dsimp only
        · exact decoder.returns_some _ (hstep.trans hd')
        · split_ifs
          · exact decoder.returns_some _ (hstep.trans hd')
          · have hend := d.isEndObject_reaches
            rcases hres2 : d.isEndObject with ⟨b, d2⟩
            rw [hres2] at hend
            cases b <;> dsimp only
            · refine decoder.Returns.of_reaches (hstep.trans (hd'.trans hend)) (ih d2 _ ?_)
              obtain ⟨hin, hpos⟩ := hd'.trans hend
              unfold decoder.Enough at h ⊢
              simp only at hin hpos
              rw [hin]
              omega
            · exact decoder.returns_some _ (hstep.trans (hd'.trans hend))

theorem decoder.decodePackage_returns (dec : decoder) :
    dec.Returns dec.decodePackage := by
  unfold decoder.decodePackage
  have h1 := dec.assertNewObject_reaches
  rcases hres : dec.assertNewObject with ⟨b, d⟩
  rw [hres] at h1
  cases b <;> dsimp only
  · exact decoder.returns_some _ h1
  · have h2 := d.isEmptyObject_scan
    rcases hres2 : d.isEmptyObject with ⟨b2, d2⟩
    rw [hres2] at h2
    have h12 : dec.scan.Reaches d2.scan := by
      simp only at h2 h1
      rw [h2]; exact h1
    cases b2 <;> dsimp only
    · split_ifs
      · exact decoder.returns_some _ h12
      · exact decoder.Returns.of_reaches h12
          (decoder.decodePackageLoop_returns _ _ _ d2.enough_loopBound)
    · exact decoder.returns_some _ h12

theorem decoder.decodePackagesLoop_returns (fuel : Nat) (dec : decoder) (pkgs : List (Option Package))
    (h : decoder.Enough fuel dec) : dec.Returns (decoder.decodePackagesLoop fuel dec pkgs) := by
  induction fuel generalizing dec pkgs with
  | zero => exact absurd h (Nat.not_lt_zero _)
  | succ fuel ih =>
    unfold decoder.decodePackagesLoop
    obtain ⟨r, d, hres, hd⟩ := dec.decodePackage_returns
    rw [hres]
    dsimp only
    split_ifs
    · exact decoder.returns_some _ hd
    · have hend := d.isEndArray_reaches
      have hprog := d.isEndArray_false
      rcases hres2 : d.isEndArray with ⟨b, d2⟩
      rw [hres2] at hend
      cases b <;> dsimp only
      · split_ifs with herr
        · exact decoder.returns_some _ (hd.trans hend)
        · refine decoder.Returns.of_reaches (hd.trans hend) (ih d2 _ ?_)
          obtain ⟨hin, hpos, hlt⟩ := hprog d2 hres2 (by simpa using herr)
          obtain ⟨hin0, hpos0⟩ := hd
          unfold decoder.Enough at h ⊢
          rw [hin, hin0]
          rw [hin0] at hlt
          omega
      · exact decoder.returns_some _ (hd.trans hend)

theorem decoder.decodePackages_returns (dec : decoder) :
    dec.Returns dec.decodePackages := by
  unfold decoder.decodePackages
  have h1 := dec.assertNewArray_reaches
  rcases hres : dec.assertNewArray with ⟨b, d⟩
  rw [hres] at h1
  cases b <;> dsimp only
  · exact decoder.returns_some _ h1
  · have h2 := d.isEmptyArray_scan
    rcases hres2 : d.isEmptyArray with ⟨b2, d2⟩
    rw [hres2] at h2
    have h12 : dec.scan.Reaches d2.scan := by
      simp only at h2 h1
      rw [h2]; exact h1
    cases b2 <;> dsimp only
    · split_ifs
      · exact decoder.returns_some _ h12
      · exact decoder.Returns.of_reaches h12
          (decoder.decodePackagesLoop_returns _ _ _ d2.enough_loopBound)
    · exact decoder.returns_some _ h12

theorem decoder.decodeProjectField_returns (key : String) (val : Option String)
    (tok : scanToken) (dec : decoder) (prj : Project) :
    decoder.Returns { dec with scan := dec.scan.back }
      (decoder.decodeProjectField key val tok dec prj) := by
  unfold decoder.decodeProjectField
  split_ifs
  · obtain ⟨r, d, hres, hd⟩ := dec.decodePackages_returns
    rw [hres]
    exact decoder.returns_some _ (dec.scan.back_reaches.trans hd)
  · obtain ⟨r, d, hres, hd⟩ := dec.decodeLanguages_returns
    rw [hres]
    exact decoder.returns_some _ (dec.scan.back_reaches.trans hd)
  all_goals exact decoder.returns_some _ dec.scan.back_reaches

theorem decoder.decodeProjectLoop_returns (fuel : Nat) (dec : decoder) (prj : Project)
    (h : decoder.Enough fuel dec) : dec.Returns (decoder.decodeProjectLoop fuel dec prj) := by
  induction fuel generalizing dec prj with
  | zero => exact absurd h (Nat.not_lt_zero _)
  | succ fuel ih =>
    unfold decoder.decodeProjectLoop
    rcases dec.scan.nextKey_cases with ⟨e, hk⟩ | ⟨key, hk, hlt⟩ <;> rw [hk] <;> dsimp only
    · split_ifs <;> exact decoder.returns_some _ (scanner.Reaches.refl _)
    · have hstep : dec.scan.Reaches { dec.scan with pos := dec.scan.pos + 1 } :=
        ⟨rfl, Nat.le_succ _⟩
      split_ifs with hkey
      · exact decoder.returns_some _ hstep
      · rcases scanner.nextValue_cases { dec.scan with pos := dec.scan.pos + 1 }
          with ⟨e, hv⟩ | ⟨val, tok, hv, -⟩ <;> rw [hv] <;> dsimp only
        · exact decoder.returns_some _ hstep
        · obtain ⟨r, d, hres, hd⟩ := decoder.decodeProjectField_returns key val tok
            { dec with scan := { dec.scan with pos := dec.scan.pos + 1 + 1 } } prj
          rw [hres]
          have hd' : scanner.Reaches { dec.scan with pos := dec.scan.pos + 1 } d.scan := by
            obtain ⟨hin, hpos⟩ := hd
            exact ⟨hin, by simpa [scanner.back] using hpos⟩
          cases r <;> dsimp only
          · exact decoder.returns_some _ (hstep.trans hd')
          · split_ifs
            · exact decoder.returns_some _ (hstep.trans hd')
            · have hend := d.isEndObject_reaches
              rcases hres2 : d.isEndObject with ⟨b, d2⟩
              rw [hres2] at hend
              cases b <;> dsimp only
              · refine decoder.Returns.of_reaches (hstep.trans (hd'.trans hend)) (ih d2 _ ?_)
                obtain ⟨hin, hpos⟩ := hd'.trans hend
                unfold decoder.Enough at h ⊢
                simp only at hin hpos
                rw [hin]
                omega
              · exact decoder.returns_some _ (hstep.trans (hd'.trans hend))

theorem decoder.decodeProject_returns (dec : decoder) :
    dec.Returns dec.decodeProject := by
  unfold decoder.decodeProject
  have h1 := dec.assertNewObject_reaches
  rcases hres : dec.assertNewObject with ⟨b, d⟩
  rw [hres] at h1
  cases b <;> dsimp only
  · exact decoder.returns_some _ h1
  · have h2 := d.isEmptyObject_scan
    rcases hres2 : d.isEmptyObject with ⟨b2, d2⟩
    rw [hres2] at h2
    have h12 : dec.scan.Reaches d2.scan := by
      simp only at h2 h1
      rw [h2]; exact h1
    cases b2 <;> dsimp only
    · split_ifs
      · exact decoder.returns_some _ h12
      · exact decoder.Returns.of_reaches h12
          (decoder.decodeProjectLoop_returns _ _ _ d2.enough_loopBound)
    · exact decoder.returns_some _ h12

/-! ## Decoder: a nil project comes with an error -/

theorem decoder.decodeProjectField_nil (key : String) (val : Option String) (tok : scanToken)
    (dec d : decoder) (prj : Project)
    (h : decoder.decodeProjectField key val tok dec prj = some (none, d)) :
    d.err.isSome = true := by
  unfold decoder.decodeProjectField at h
  split_ifs at h
  · cases hp : dec.decodePackages with
    | none => rw [hp] at h; cases h
    | some r => rw [hp] at h; cases h
  · cases hl : dec.decodeLanguages with
    | none => rw [hl] at h; cases h
    | some r => rw [hl] at h; cases h
  all_goals first
    | (cases h; rfl)
    | cases h

theorem decoder.decodeProjectLoop_nil (fuel : Nat) (dec d : decoder) (prj : Project)
    (h : decoder.decodeProjectLoop fuel dec prj = some (none, d)) :
    d.err.isSome = true := by
  induction fuel generalizing dec prj with
  | zero => cases h
  | succ fuel ih =>
    unfold decoder.decodeProjectLoop at h
    rcases dec.scan.nextKey_cases with ⟨e, hk⟩ | ⟨key, hk, -⟩ <;> rw [hk] at h <;> dsimp only at h
    · split_ifs at h
      · cases h
      · cases h; rfl
    · split_ifs at h with hkey
      · cases h; rfl
      · rcases scanner.nextValue_cases { dec.scan with pos := dec.scan.pos + 1 }
          with ⟨e, hv⟩ | ⟨val, tok, hv, -⟩ <;> rw [hv] at h <;> dsimp only at h
        · cases h; rfl
        · cases hf : decoder.decodeProjectField key val tok
            { dec with scan := { dec.scan with pos := dec.scan.pos + 1 + 1 } } prj with
          | none => rw [hf] at h; cases h
          | some r =>
            obtain ⟨r, d1⟩ := r
            rw [hf] at h
            cases r with
            | none =>
              dsimp only at h
              cases h
              exact decoder.decodeProjectField_nil _ _ _ _ _ _ hf
            | some prj1 =>
              dsimp only at h
              split_ifs at h with herr
              · cases h; exact herr
              · rcases hres2 : d1.isEndObject with ⟨b, d2⟩
                rw [hres2] at h
                cases b <;> dsimp only at h
                · exact ih d2 prj1 h
                · cases h

theorem decoder.decodeProject_nil (dec d : decoder)
    (h : dec.decodeProject = some (none, d)) : d.err.isSome = true := by
  unfold decoder.decodeProject at h
  rcases hres : dec.assertNewObject with ⟨b, d1⟩
  rw [hres] at h
  cases b <;> dsimp only at h
  · cases h
    unfold decoder.assertNewObject at hres
    rcases dec.scan.nextValue_cases with ⟨e, hv⟩ | ⟨val, tok, hv, -⟩ <;> rw [hv] at hres
    · cases hres; rfl
    · dsimp only at hres
      split_ifs at hres
      · cases hres; rfl
      · cases hres
  · rcases hres2 : d1.isEmptyObject with ⟨b2, d2⟩
    rw [hres2] at h
    cases b2 <;> dsimp only at h
    · split_ifs at h with herr
      · cases h; exact herr
      · exact decoder.decodeProjectLoop_nil _ _ _ _ h
    · cases h

/-! ## Decoder: how `decodeProject` leaves its loop -/

theorem scanner.nextKey_eof (s s' : scanner) (h : s.nextKey = (.error .EOF, s')) :
    s' = s ∧ s.input.length ≤ s.pos := by
  unfold scanner.nextKey at h
  cases hg : s.input.get? s.pos with
  | none =>
    rw [hg] at h
    exact ⟨(Prod.mk.inj h).2.symm, List.get?_eq_none.mp hg⟩
  | some i =>
    rw [hg] at h
    cases i <;> simp at h

theorem scanner.nextKey_at_end (s : scanner) (h : s.input.length ≤ s.pos) :
    s.nextKey = (.error .EOF, s) := by
  unfold scanner.nextKey
  rw [List.get?_eq_none.mpr h]

theorem scanner.nextValue_at_end (s : scanner) (h : s.input.length ≤ s.pos) :
    s.nextValue = (.error .EOF, s) := by
  unfold scanner.nextValue
  rw [List.get?_eq_none.mpr h]

theorem scanner.peek_at_end (s : scanner) (h : s.input.length ≤ s.pos) :
    s.peek = .error .EOF := by
  unfold scanner.peek
  rw [List.get?_eq_none.mpr h]

theorem decoder.isEndObject_true (d1 d : decoder) (h : d1.isEndObject = (true, d)) :
    d.err = d1.err ∧ d.scan.input = d1.scan.input ∧ d.scan.pos = d1.scan.pos + 1
      ∧ ∃ val, d.scan.last = some (.value .scanEndObject val) := by
  unfold decoder.isEndObject scanner.nextValue at h
  cases hg : d1.scan.input.get? d1.scan.pos with
  | none => rw [hg] at h; cases h
  | some i =>
    rw [hg] at h
    cases i with
    | key k => cases h
    | value tok val =>
      dsimp only at h
      split_ifs at h with h1 h2
      · cases h
        subst h1
        exact ⟨rfl, rfl, rfl, val, by simpa [scanner.last] using hg⟩
      · cases h
      · cases h

theorem decoder.isEndObject_false (d1 d : decoder) (h : d1.isEndObject = (false, d))
    (he : d.err = none) :
    d1.err = none ∧ d.scan.input = d1.scan.input ∧ d.scan.pos = d1.scan.pos + 1
      ∧ ∃ val, d.scan.last = some (.value .scanComma val) := by
  unfold decoder.isEndObject scanner.nextValue at h
  cases hg : d1.scan.input.get? d1.scan.pos with
  | none => rw [hg] at h; cases h; cases he
  | some i =>
    rw [hg] at h
    cases i with
    | key k => cases h; cases he
    | value tok val =>
      dsimp only at h
      split_ifs at h with h1 h2
      · cases h
      · cases h; cases he
      · cases h
        have htok : tok = .scanComma := by
          by_contra hne
          exact h2 hne
        subst htok
        exact ⟨he, rfl, rfl, val, by simpa [scanner.last] using hg⟩

theorem decoder.decodeProjectLoop_exit (fuel : Nat) (dec d : decoder) (prj p : Project)
    (h : decoder.decodeProjectLoop fuel dec prj = some (some p, d)) (herr : d.err = none)
    (hpre : dec.err = none → dec.scan.pos < dec.scan.input.length
      ∨ ∃ val, dec.scan.last = some (.value .scanComma val)) :
    (∃ val, d.scan.last = some (.value .scanEndObject val))
      ∨ ((∃ val, d.scan.last = some (.value .scanComma val))
          ∧ d.scan.nextKey = (.error .EOF, d.scan)) := by
  induction fuel generalizing dec prj with
  | zero => cases h
  | succ fuel ih =>
    unfold decoder.decodeProjectLoop at h
    rcases hk : dec.scan.nextKey with ⟨res, s1⟩
    rw [hk] at h
    cases res with
    | error e =>
      dsimp only at h
      split_ifs at h with he
      · subst he
        obtain ⟨hs, hlen⟩ := scanner.nextKey_eof _ _ hk
        subst hs
        cases h
        rcases hpre herr with hlt | hcomma
        · exact absurd hlt (not_lt.mpr hlen)
        · exact Or.inr ⟨hcomma, hk⟩
      · cases h
    | ok key =>
      dsimp only at h
      split_ifs at h with hkey
      · cases h
      · rcases hv : s1.nextValue with ⟨resv, s2⟩
        rw [hv] at h
        cases resv with
        | error e => cases h
        | ok vt =>
          obtain ⟨val, tok⟩ := vt
          dsimp only at h
          cases hf : decoder.decodeProjectField key val tok { dec with scan := s2 } prj with
          | none => rw [hf] at h; cases h
          | some r =>
            obtain ⟨r, d1⟩ := r
            rw [hf] at h
            cases r with
            | none => cases h
            | some prj1 =>
              dsimp only at h
              split_ifs at h with herr1
              · cases h
              · rcases hres2 : d1.isEndObject with ⟨b, d2⟩
                rw [hres2] at h
                cases b <;> dsimp only at h
                · refine ih d2 prj1 h ?_
                  intro he2
                  obtain ⟨-, -, -, hc⟩ := decoder.isEndObject_false d1 d2 hres2 he2
                  exact Or.inr hc
                · cases h
                  exact Or.inl (decoder.isEndObject_true d1 _ hres2).2.2.2

theorem decoder.isEmptyObject_false (d0 d : decoder) (h : d0.isEmptyObject = (false, d))
    (he : d.err = none) : d.scan = d0.scan ∧ d.scan.pos < d.scan.input.length := by
  unfold decoder.isEmptyObject scanner.peek at h
  cases hg : d0.scan.input.get? d0.scan.pos with
  | none =>
    rw [hg] at h
    simp at h
    rw [← h] at he
    cases he
  | some i =>
    rw [hg] at h
    dsimp only at h
    have hlt : d0.scan.pos < d0.scan.input.length := by
      by_contra hge
      rw [List.get?_eq_none.mpr (not_lt.mp hge)] at hg
      cases hg
    split_ifs at h
    · cases h
    · cases h
      exact ⟨rfl, hlt⟩

theorem decoder.isEmptyObject_true (d0 d : decoder) (h : d0.isEmptyObject = (true, d)) :
    d = d0 ∧ ∃ i, d0.scan.input.get? d0.scan.pos = some i ∧ i.firstByte = '}' := by
  unfold decoder.isEmptyObject scanner.peek at h
  cases hg : d0.scan.input.get? d0.scan.pos with
  | none =>
    rw [hg] at h
    simp at h
  | some i =>
    rw [hg] at h
    dsimp only at h
    split_ifs at h with hb
    · cases h
      exact ⟨rfl, i, rfl, hb⟩
    · cases h

theorem decoder.decodeProject_exit (input : List Input) (p : Project) (d : decoder)
    (h : (newDecoder input).decodeProject = some (some p, d)) (herr : d.err = none) :
    (d.scan.pos = 1 ∧ ∃ i, input.get? 1 = some i ∧ i.firstByte = '}')
      ∨ (∃ val, d.scan.last = some (.value .scanEndObject val))
      ∨ ((∃ val, d.scan.last = some (.value .scanComma val))
          ∧ d.scan.nextKey = (.error .EOF, d.scan)) := by
  unfold decoder.decodeProject at h
  rcases hres : (newDecoder input).assertNewObject with ⟨b, d0⟩
  rw [hres] at h
  cases b <;> dsimp only at h
  · cases h
  · have hd0 : d0.scan = { input := input, pos := 1 } := by
      unfold decoder.assertNewObject at hres
      rcases (newDecoder input).scan.nextValue_cases with ⟨e, hv⟩ | ⟨val, tok, hv, -⟩
        <;> rw [hv] at hres
      · cases hres
      · dsimp only at hres
        split_ifs at hres
        · cases hres
        · cases hres
          rfl
    rcases hres2 : d0.isEmptyObject with ⟨b2, d2⟩
    rw [hres2] at h
    cases b2 <;> dsimp only at h
    · split_ifs at h with he
      · cases h
      · have he2 : d2.err = none := by
          cases hd : d2.err with
          | none => rfl
          | some e => rw [hd] at he; exact absurd rfl he
        obtain ⟨hs, hlt⟩ := decoder.isEmptyObject_false d0 d2 hres2 he2
        exact Or.inr (decoder.decodeProjectLoop_exit _ d2 d _ p h herr (fun _ => Or.inl hlt))
    · cases h
      obtain ⟨hd, i, hi, hb⟩ := decoder.isEmptyObject_true d0 _ hres2
      subst hd
      rw [hd0] at hi
      refine Or.inl ⟨by rw [hd0], i, hi, hb⟩

theorem scanner.last_at_end (s : scanner) (i : Input) (h : s.last = some i)
    (hlen : s.input.length ≤ s.pos) : s.pos = s.input.length ∧ s.input.getLast? = some i := by
  unfold scanner.last at h
  split_ifs at h with h0
  have hlt : s.pos - 1 < s.input.length := by
    by_contra hge
    rw [List.get?_eq_none.mpr (not_lt.mp hge)] at h
    cases h
  have hpos : s.pos = s.input.length := by omega
  refine ⟨hpos, ?_⟩
  rw [List.getLast?_eq_getElem?, ← hpos, ← List.get?_eq_getElem?]
  exact h

/-! ## Decoder: claims -/

/-- C7. Decoding the minimal project, a begin-object token after which the
next raw byte is `}`, returns a non-nil Project whose every field has its
zero value, together with a nil error. -/
theorem C7_minimal_project (val : Option String) (next : Input) (rest : List Input)
    (h : next.firstByte = '}') :
    Decode (.value .scanBeginObject val :: next :: rest)
      = some (some { Name := "", LoC := 0, Packages := none, Langs := none, Repo := none },
          none) := by
  simp [Decode, newDecoder, decoder.decode, decoder.decodeProject, decoder.assertNewObject,
    scanner.nextValue, decoder.isEmptyObject, scanner.peek, h]

/-- Witness of C7: the token stream of `{}`. -/
theorem C7_minimal_project_witness :
    Decode [.value .scanBeginObject none, .value .scanEndObject none]
      = some (some { Name := "", LoC := 0, Packages := none, Langs := none, Repo := none },
          none) :=
  C7_minimal_project none (.value .scanEndObject none) [] rfl

/-- Counterexample to C8: on `{"name":"x",`, where the scanner reports the
end of the input at the next key, `Decode` returns the project built from
the field read so far and no error. -/
theorem C8_truncated_after_comma_accepted :
    Decode (truncatedAfterComma "x") = some (some { Name := "x" }, none)
      ∧ ¬ ∃ err, Decode (truncatedAfterComma "x") = some (none, some err) := by
  have h : Decode (truncatedAfterComma "x") = some (some { Name := "x" }, none) := by decide
  refine ⟨h, ?_⟩
  rintro ⟨err, herr⟩
  rw [h] at herr
  cases herr

/-- C8, amended. `Decode` returns a Project only when `decodeProject` has
seen the `}` of an empty object, or has last read a `}`, or has read the
whole input and the last token is the `,` after a field of the project
object, where `nextKey` reports `io.EOF` and the loop is left by `break`; in
every other case it returns a nil Project and the stored error. So an input
that is read to its end and whose last token is neither `}` nor `,` is
rejected: `{"name":x` with `malformed json: EOF`, `{` with
`malformed json: unexpected EOF`, `{"name"` with `malformed json: EOF`;
`{"name":x,` gives the Project with that name and a nil error. At the end
of the input the loops of `decodeProject`, `decodeSrcFile`, `decodeLanguage`
and `decodeTypeSpec` return what they have built, the loop of `decodePackage` stores `io.EOF` and returns
nil, and `isEndObject` and `isEndArray` store `io.EOF`: the source file
`{"path":"a.go",` is returned by `decodeSrcFile` and rejected by
`decodeSrcFiles`, and `decodePackage` rejects `{"name":x,`. -/
theorem C8_unclosed_project (input : List Input) (x : String) (fuel extra : Nat)
    (err : Option GoError) (prj : Project) (sf : SrcFile) (lang : Language)
    (typeSpec : TypeSpec) (pkg : Package) :
    (∃ r d, (newDecoder input).decodeProject = some (r, d)
      ∧ ((∃ e, d.err = some e
            ∧ Decode input = some (none, some (.text ("malformed json: " ++ e.Error))))
        ∨ (∃ p, r = some p ∧ d.err = none ∧ Decode input = some (some p, none)
            ∧ ((d.scan.pos = 1 ∧ ∃ i, input.get? 1 = some i ∧ i.firstByte = '}')
              ∨ (∃ val, d.scan.last = some (.value .scanEndObject val))
              ∨ (d.scan.pos = input.length
                  ∧ (∃ val, input.getLast? = some (.value .scanComma val))
                  ∧ d.scan.nextKey = (.error .EOF, d.scan)))))
      ∧ (input.length ≤ d.scan.pos →
          (∀ val, input.getLast? ≠ some (.value .scanEndObject val)) →
          (∀ val, input.getLast? ≠ some (.value .scanComma val)) →
          ∃ e, d.err = some e
            ∧ Decode input = some (none, some (.text ("malformed json: " ++ e.Error)))))
      ∧ Decode (truncatedAfterValue x) = some (none, some (.text "malformed json: EOF"))
      ∧ Decode [.value .scanBeginObject none]
        = some (none, some (.text "malformed json: unexpected EOF"))
      ∧ Decode [.value .scanBeginObject none, .key "name"]
        = some (none, some (.text "malformed json: EOF"))
      ∧ Decode (truncatedAfterComma x) = some (some { Name := x }, none)
      ∧ decoder.decodeProjectLoop (fuel + 1)
          { scan := { input := input, pos := input.length + extra }, err := err } prj
        = some (some prj,
            { scan := { input := input, pos := input.length + extra }, err := err })
      ∧ decoder.decodeSrcFileLoop (fuel + 1)
          { scan := { input := input, pos := input.length + extra }, err := err } sf
        = some (some sf,
            { scan := { input := input, pos := input.length + extra }, err := err })
      ∧ decoder.decodeLanguageLoop (fuel + 1)
          { scan := { input := input, pos := input.length + extra }, err := err } lang
        = some (some lang,
            { scan := { input := input, pos := input.length + extra }, err := err })
      ∧ decoder.decodeTypeSpecLoop (fuel + 1)
          { scan := { input := input, pos := input.length + extra }, err := err } typeSpec
        = some (some typeSpec,
            { scan := { input := input, pos := input.length + extra }, err := err })
      ∧ decoder.decodePackageLoop (fuel + 1)
          { scan := { input := input, pos := input.length + extra }, err := err } pkg
        = some (none,
            { scan := { input := input, pos := input.length + extra }, err := some .EOF })
      ∧ decoder.isEndObject
          { scan := { input := input, pos := input.length + extra }, err := err }
        = (false, { scan := { input := input, pos := input.length + extra }, err := some .EOF })
      ∧ decoder.isEndArray
          { scan := { input := input, pos := input.length + extra }, err := err }
        = (false, { scan := { input := input, pos := input.length + extra }, err := some .EOF })
      ∧ (newDecoder srcFileCutAfterComma).decodeSrcFile
        = some (some { Path := "a.go" },
            { scan := { input := srcFileCutAfterComma, pos := 4 }, err := none })
      ∧ (newDecoder srcFilesCutAfterComma).decodeSrcFiles
        = some (none, { scan := { input := srcFilesCutAfterComma, pos := 5 }, err := some .EOF })
      ∧ (newDecoder (truncatedAfterComma x)).decodePackage
        = some (none, { scan := { input := truncatedAfterComma x, pos := 4 }, err := some .EOF }) := by
  have hnone : input[input.length + extra]? = none :=
    List.getElem?_eq_none (Nat.le_add_right _ _)
  refine ⟨?_, ?_, ?_, ?_, ?_, ?_, ?_, ?_, ?_, ?_, ?_, ?_, ?_, ?_, ?_⟩
  · obtain ⟨r, d, hres, hreach⟩ := (newDecoder input).decodeProject_returns
    have hin : d.scan.input = input := hreach.1
    refine ⟨r, d, hres, ?_, ?_⟩
    · cases herr : d.err with
      | some e =>
        refine Or.inl ⟨e, rfl, ?_⟩
        simp [Decode, decoder.decode, hres, herr, decoder.errorf]
      | none =>
        cases r with
        | none =>
          have := decoder.decodeProject_nil _ _ hres
          rw [herr] at this
          cases this
        | some p =>
          refine Or.inr ⟨p, rfl, rfl, ?_, ?_⟩
          · simp [Decode, decoder.decode, hres, herr]
          · rcases decoder.decodeProject_exit input p d hres herr with hA | hB | ⟨⟨val, hC⟩, hk⟩
            · exact Or.inl hA
            · exact Or.inr (Or.inl hB)
            · have hlen := (scanner.nextKey_eof _ _ hk).2
              obtain ⟨hpos, hlast⟩ := scanner.last_at_end _ _ hC hlen
              rw [hin] at hpos hlast
              exact Or.inr (Or.inr ⟨hpos, ⟨val, hlast⟩, hk⟩)
    · intro hlen hno1 hno2
      cases herr : d.err with
      | some e =>
        refine ⟨e, rfl, ?_⟩
        simp [Decode, decoder.decode, hres, herr, decoder.errorf]
      | none =>
        exfalso
        cases r with
        | none =>
          have := decoder.decodeProject_nil _ _ hres
          rw [herr] at this
          cases this
        | some p =>
          rcases decoder.decodeProject_exit input p d hres herr with
            ⟨hp, i, hi, -⟩ | ⟨val, hB⟩ | ⟨⟨val, hC⟩, -⟩
          · have hlt : 1 < input.length := by
              by_contra hge
              rw [List.get?_eq_none.mpr (not_lt.mp hge)] at hi
              cases hi
            omega
          · obtain ⟨-, hlast⟩ := scanner.last_at_end _ _ hB (by rw [hin]; exact hlen)
            rw [hin] at hlast
            exact hno1 val hlast
          · obtain ⟨-, hlast⟩ := scanner.last_at_end _ _ hC (by rw [hin]; exact hlen)
            rw [hin] at hlast
            exact hno2 val hlast
  · simp [Decode, newDecoder, decoder.decode, decoder.decodeProject, decoder.assertNewObject,
      scanner.nextValue, decoder.isEmptyObject, scanner.peek, truncatedAfterValue,
      decoder.loopBound, decoder.decodeProjectLoop, scanner.nextKey, decoder.decodeProjectField,
      decoder.unmarshalString, decoder.isEndObject, Input.firstByte, decoder.errorf,
      GoError.Error]
  · decide
  · decide
  · simp [Decode, newDecoder, decoder.decode, decoder.decodeProject, decoder.assertNewObject,
      scanner.nextValue, decoder.isEmptyObject, scanner.peek, truncatedAfterComma,
      decoder.loopBound, decoder.decodeProjectLoop, scanner.nextKey, decoder.decodeProjectField,
      decoder.unmarshalString, decoder.isEndObject, Input.firstByte]
  · simp [decoder.decodeProjectLoop, scanner.nextKey, hnone]
  · simp [decoder.decodeSrcFileLoop, scanner.nextKey, hnone]
  · simp [decoder.decodeLanguageLoop, scanner.nextKey, hnone]
  · simp [decoder.decodeTypeSpecLoop, scanner.nextKey, hnone]
  · simp [decoder.decodePackageLoop, scanner.nextKey, hnone]
  · simp [decoder.isEndObject, scanner.nextValue, hnone]
  · simp [decoder.isEndArray, scanner.nextValue, hnone]
  · decide
  · decide
  · simp [newDecoder, decoder.decodePackage, decoder.assertNewObject,
      scanner.nextValue, decoder.isEmptyObject, scanner.peek, truncatedAfterComma,
      decoder.loopBound, decoder.decodePackageLoop, scanner.nextKey, decoder.decodePackageField,
      decoder.unmarshalString, decoder.isEndObject, Input.firstByte]

/-- C9. `Decode` always returns, and it returns either a non-nil Project
with a nil error or a nil Project with the decoder's stored error prefixed
by `malformed json: `; `decodeProject` returns nil only with the error slot
set. -/
theorem C9_decode_outcome (input : List Input) :
    ∃ prj dec,
      (newDecoder input).decodeProject = some (prj, dec)
        ∧ (prj.isSome = true ∨ dec.err.isSome = true)
        ∧ ((∃ p, prj = some p ∧ dec.err = none ∧ Decode input = some (some p, none))
          ∨ (∃ err, dec.err = some err
              ∧ Decode input = some (none, some (.text ("malformed json: " ++ err.Error))))) := by
  obtain ⟨prj, dec, hres, -⟩ := (newDecoder input).decodeProject_returns
  refine ⟨prj, dec, hres, ?_, ?_⟩
  · cases prj with
    | none => exact Or.inr (decoder.decodeProject_nil _ _ hres)
    | some p => exact Or.inl rfl
  · cases herr : dec.err with
    | some err =>
      refine Or.inr ⟨err, rfl, ?_⟩
      simp [Decode, decoder.decode, hres, herr, decoder.errorf]
    | none =>
      cases prj with
      | none =>
        have := decoder.decodeProject_nil _ _ hres
        rw [herr] at this
        cases this
      | some p =>
        refine Or.inl ⟨p, rfl, rfl, ?_⟩
        simp [Decode, decoder.decode, hres, herr]

/-- C10 (code defect). On `{"name":"x" 7 "loc":5}` the call of `isEndObject`
after the first field sets the error slot (`7` is neither `}` nor `,`); the
loop goes on, the assignment `prj.LoC, dec.err = dec.unmarshalInt(val)` of
the next field stores nil in the slot, and `Decode` returns a Project and a
nil error. -/
theorem C10_error_slot_cleared :
    decoder.isEndObject { scan := { input := strayTokenProject, pos := 3 }, err := none }
        = (false, { scan := { input := strayTokenProject, pos := 4 }
                    err := some (.text "expected 'comma', found 'integer literal'") })
      ∧ decoder.decodeProjectLoop 4
          { scan := { input := strayTokenProject, pos := 4 }
            err := some (.text "expected 'comma', found 'integer literal'") }
          { Name := "x" }
        = some (some { Name := "x" },
            { scan := { input := strayTokenProject, pos := 7 }, err := none })
      ∧ Decode strayTokenProject = some (some { Name := "x" }, none) := by
  refine ⟨?_, ?_, ?_⟩ <;> decide

/-! ## Decoder: unknown keys of a source file -/

theorem get?_append_here (pre : List Input) (a : Input) (post : List Input) :
    (pre ++ a :: post)[pre.length]? = some a := by
  rw [List.getElem?_append_right (le_refl _)]
  simp

theorem get?_append_next (pre : List Input) (a b : Input) (post : List Input) :
    (pre ++ a :: b :: post)[pre.length + 1]? = some b := by
  rw [List.getElem?_append_right (by omega)]
  simp

theorem decoder.decodeSrcFileField_unknown (k : String) (hk : k ∉ srcFileKeys)
    (val : Option String) (tok : scanToken) (dec : decoder) (sf : SrcFile) :
    decoder.decodeSrcFileField k val tok dec sf
      = some (some sf, { dec with err := some (srcFileKeyError k) }) := by
  simp only [srcFileKeys, List.mem_cons, List.mem_singleton, not_or, List.not_mem_nil,
    not_false_eq_true, and_true] at hk
  obtain ⟨h1, h2, h3, h4, h5, h6, h7, h8, h9, h10, h11, h12, h13⟩ := hk
  unfold decoder.decodeSrcFileField
  rw [if_neg h1, if_neg h2, if_neg h3, if_neg h4, if_neg h5, if_neg h6, if_neg h7, if_neg h8,
    if_neg h9, if_neg h10, if_neg h11, if_neg h12, if_neg h13]
  rfl

theorem decoder.decodeSrcFileLoop_unknown (k : String) (hk : k ∉ srcFileKeys) (hne : k ≠ "")
    (fuel : Nat) (pre post : List Input) (tok : scanToken) (val : Option String)
    (err : Option GoError) (sf : SrcFile) :
    decoder.decodeSrcFileLoop (fuel + 1)
        { scan := { input := pre ++ .key k :: .value tok val :: post, pos := pre.length }
          err := err } sf
      = some (none,
          { scan := { input := pre ++ .key k :: .value tok val :: post, pos := pre.length + 2 }
            err := some (srcFileKeyError k) }) := by
  have h1 : scanner.nextKey
      { input := pre ++ .key k :: .value tok val :: post, pos := pre.length }
      = (.ok k, { input := pre ++ .key k :: .value tok val :: post, pos := pre.length + 1 }) := by
    simp only [scanner.nextKey, List.get?_eq_getElem?, get?_append_here]
  have h2 : scanner.nextValue
      { input := pre ++ .key k :: .value tok val :: post, pos := pre.length + 1 }
      = (.ok (val, tok),
          { input := pre ++ .key k :: .value tok val :: post, pos := pre.length + 1 + 1 }) := by
    simp only [scanner.nextValue, List.get?_eq_getElem?, get?_append_next]
  unfold decoder.decodeSrcFileLoop
  simp only [h1, h2, if_neg hne, decoder.decodeSrcFileField_unknown k hk]
  rfl

/-! ## Decoder: claims C11 to C18 -/

/-- C11 (code defect). On `{"name":"x" 7 "bogus":1}` the call of
`isEndObject` after the first field sets the error slot with the scanner at
position 4; the object loop goes on, `nextKey` and `nextValue` are called
again and consume the next field, and the decoder stops at position 6 with
the error of the default case, which replaces the first one. -/
theorem C11_scans_past_the_error :
    decoder.isEndObject { scan := { input := strayTokenThenUnknownKey, pos := 3 }, err := none }
        = (false, { scan := { input := strayTokenThenUnknownKey, pos := 4 }
                    err := some (.text "expected 'comma', found 'integer literal'") })
      ∧ scanner.nextKey { input := strayTokenThenUnknownKey, pos := 4 }
        = (.ok "bogus", { input := strayTokenThenUnknownKey, pos := 5 })
      ∧ scanner.nextValue { input := strayTokenThenUnknownKey, pos := 5 }
        = (.ok (some "1", .scanIntLit), { input := strayTokenThenUnknownKey, pos := 6 })
      ∧ (newDecoder strayTokenThenUnknownKey).decodeProject
        = some (none, { scan := { input := strayTokenThenUnknownKey, pos := 6 }
                        err := some (.text "unexpected value for project object") }) := by
  refine ⟨by decide, rfl, rfl, by decide⟩

/-- C12 (code defect). On the source-file object
`{"language":{},"bogus_field":5}` the key `bogus_field`, which has no case
in the switch, is never read: `decodeLanguage` recognises the empty object
with `peek` and leaves its `}` in the input, the `isEndObject` of
`decodeSrcFile` takes that `}` for the end of the source file, and
`decodeSrcFile` returns a source file with the scanner before the `,` and no
error. `Decode`, when it reaches this object, fails later with another
error, whose text does not contain the key. When the language object is not
empty its `}` is consumed, the key is read, and `decodeSrcFile` returns nil
with the error that names the key and the source-file object, as it does
whenever its loop reads such a key. -/
theorem C12_unknown_key_not_read :
    "bogus_field" ∉ srcFileKeys
      ∧ srcFileEmptyLanguage.get? 5 = some (.key "bogus_field")
      ∧ (newDecoder srcFileEmptyLanguage).decodeSrcFile
        = some (some { Lang := some {} },
            { scan := { input := srcFileEmptyLanguage, pos := 4 }, err := none })
      ∧ decoder.decodeLanguage { scan := { input := srcFileEmptyLanguage, pos := 2 } }
        = some (some {}, { scan := { input := srcFileEmptyLanguage, pos := 3 }, err := none })
      ∧ decoder.isEndObject { scan := { input := srcFileEmptyLanguage, pos := 3 } }
        = (true, { scan := { input := srcFileEmptyLanguage, pos := 4 }, err := none })
      ∧ (∃ err, Decode (projectReaching srcFileEmptyLanguage) = some (none, some err)
          ∧ ¬ occursIn "bogus_field" err.Error)
      ∧ (newDecoder srcFileFilledLanguage).decodeSrcFile
        = some (none, { scan := { input := srcFileFilledLanguage, pos := 9 }
                        err := some (srcFileKeyError "bogus_field") })
      ∧ Decode (projectReaching srcFileFilledLanguage)
        = some (none, some (.text
            "malformed json: unexpected value for the key 'bogus_field' of a source file object"))
      ∧ (∀ (k : String) (fuel : Nat) (pre post : List Input) (tok : scanToken)
          (val : Option String) (err : Option GoError) (sf : SrcFile),
          k ∉ srcFileKeys → k ≠ "" →
          decoder.decodeSrcFileLoop (fuel + 1)
              { scan := { input := pre ++ .key k :: .value tok val :: post, pos := pre.length }
                err := err } sf
            = some (none,
                { scan := { input := pre ++ .key k :: .value tok val :: post
                            pos := pre.length + 2 }
                  err := some (srcFileKeyError k) })
            ∧ occursIn k (srcFileKeyError k).Error
            ∧ occursIn "source file object" (srcFileKeyError k).Error) := by
  refine ⟨by decide, rfl, by decide, by decide, by decide, ?_, by decide, by decide, ?_⟩
  · exact ⟨.text "malformed json: scan: expected a value", by decide, by decide⟩
  · intro k fuel pre post tok val err sf hk hne
    refine ⟨decoder.decodeSrcFileLoop_unknown k hk hne fuel pre post tok val err sf, ?_, ?_⟩
    · unfold occursIn
      simp only [srcFileKeyError, GoError.Error, String.toList, String.data_append]
      exact ⟨_, _, rfl⟩
    · unfold occursIn
      simp only [srcFileKeyError, GoError.Error, String.toList, String.data_append]
      refine ⟨"unexpected value for the key '".data ++ k.data ++ "' of a ".data, [], ?_⟩
      simp only [List.append_nil, List.append_assoc]
      rfl

/-- C13 (code defect). An unknown key in a project object and in a package
object gives the error `unexpected value for project object`: the text does
not contain the key, and for a package it names the project. The language,
type specifier and source-file decoders name the key and their own kind. -/
theorem C13_unknown_key_messages :
    Decode unknownKeyObject
        = some (none, some (.text "malformed json: unexpected value for project object"))
      ∧ (newDecoder unknownKeyObject).decodePackage
        = some (none, { scan := { input := unknownKeyObject, pos := 3 }
                        err := some (.text "unexpected value for project object") })
      ∧ ¬ occursIn "bogus" "unexpected value for project object"
      ∧ ¬ occursIn "package" "unexpected value for project object"
      ∧ (newDecoder unknownKeyObject).decodeLanguage
        = some (none, { scan := { input := unknownKeyObject, pos := 3 }
                        err := some (.text
                          "unexpected value for the key 'bogus' of a language object") })
      ∧ (newDecoder unknownKeyObject).decodeTypeSpec
        = some (none, { scan := { input := unknownKeyObject, pos := 3 }
                        err := some (.text
                          "unexpected value for the key 'bogus' of a type specifier object") })
      ∧ (newDecoder unknownKeyObject).decodeSrcFile
        = some (none, { scan := { input := unknownKeyObject, pos := 3 }
                        err := some (.text
                          "unexpected value for the key 'bogus' of a source file object") }) := by
  refine ⟨?_, ?_, ?_, ?_, ?_, ?_, ?_⟩ <;> decide

/-- C16 (code defect). `Decode` fails on `{"packages":[]}` and on
`{"packages":[{}]}`: the case `packages` calls `decodePackages` after
`nextValue` has consumed the `[`, without `back`, so `assertNewArray` reads
the token after it. Called at the `[` of `[{"name":"a"}]`, `decodePackages`
decodes the package, leaves the error slot clear and returns nil, not the
slice. -/
theorem C16_packages_not_decoded :
    Decode emptyPackagesProject
        = some (none, some (.text "malformed json: expected array, found 'end array'"))
      ∧ Decode onePackageProject
        = some (none, some (.text "malformed json: expected array, found 'begin object'"))
      ∧ decoder.decodePackage { scan := { input := onePackageArray, pos := 1 } }
        = some (some { Name := "a" }, { scan := { input := onePackageArray, pos := 5 } })
      ∧ (newDecoder onePackageArray).decodePackages
        = some (none, { scan := { input := onePackageArray, pos := 6 }, err := none }) := by
  refine ⟨?_, ?_, ?_, ?_⟩ <;> decide

/-- C17 (code defect). In `{"paradigms":[]}` and in
`{"paradigms":[],"language":"go"}` the empty array is recognised by `peek`
and its `]` is not consumed: `decodeStringsList` returns the empty slice with
the scanner still before `]`, the `isEndObject` of the enclosing object reads
`]` and sets the error slot, and `decodeLanguage` returns nil with an
error. -/
theorem C17_empty_array_not_consumed :
    decoder.decodeStringsList { scan := { input := emptyParadigms, pos := 2 } }
        = some (some [], { scan := { input := emptyParadigms, pos := 3 } })
      ∧ decoder.isEndObject { scan := { input := emptyParadigms, pos := 3 } }
        = (false, { scan := { input := emptyParadigms, pos := 4 }
                    err := some (.text "expected 'comma', found 'end array'") })
      ∧ (∃ dec, (newDecoder emptyParadigms).decodeLanguage = some (none, dec)
          ∧ dec.err.isSome = true)
      ∧ (∃ dec, (newDecoder emptyParadigmsThenLanguage).decodeLanguage = some (none, dec)
          ∧ dec.err.isSome = true) := by
  refine ⟨by decide, by decide, ?_, ?_⟩
  · exact ⟨{ scan := { input := emptyParadigms, pos := 4 }
             err := some (.text "scan: expected a key") }, by decide, rfl⟩
  · exact ⟨{ scan := { input := emptyParadigmsThenLanguage, pos := 4 }
             err := some (.text "scan: expected a key") }, by decide, rfl⟩

/-- C18 (code defect). On `{"path": 5}` the case `path` sets the error slot
and, without returning, assigns the result of `unmarshalString` to
`sf.Path` and to `dec.err`: `decodeSrcFile` returns a source file whose path
is the payload `5`, with the error slot clear. The case `loc` returns nil on
a token of the wrong kind. -/
theorem C18_numeric_path_accepted :
    (newDecoder numericPath).decodeSrcFile
        = some (some { Path := "5" }, { scan := { input := numericPath, pos := 4 }, err := none })
      ∧ decoder.decodeSrcFileField "path" (some "5") .scanIntLit
          { scan := { input := numericPath, pos := 3 } } {}
        = some (some { Path := "5" }, { scan := { input := numericPath, pos := 3 }, err := none })
      ∧ decoder.decodeSrcFileField "loc" (some "x") .scanStringLit
          { scan := { input := numericPath, pos := 3 } } {}
        = some (none, { scan := { input := numericPath, pos := 3 }
                        err := some (.text "expected integer literal, found string literal") }) := by
  refine ⟨?_, ?_, ?_⟩ <;> decide

/-! ## Constructors: lemmas on the slice loops -/

theorem newAttrsSliceLoop_error (h : Helpers) (key errPrefix : String) (s : List Value)
    (attrs : List (Option Attr)) (hs : ∃ v ∈ s, v.isMap = false) :
    ∃ err, newAttrsSliceLoop h key errPrefix s attrs = .error err := by
  induction s generalizing attrs with
  | nil => obtain ⟨v, hv, -⟩ := hs; cases hv
  | cons x rest ih =>
    cases x with
    | map fields =>
      simp only [newAttrsSliceLoop]
      cases newAttr h fields with
      | error err => exact ⟨_, rfl⟩
      | ok a =>
        refine ih _ ?_
        obtain ⟨v, hv, hvm⟩ := hs
        rcases List.mem_cons.mp hv with rfl | hv
        · cases hvm
        · exact ⟨v, hv, hvm⟩
    | _ => exact ⟨_, rfl⟩

theorem newAttrsSliceLoop_mismatch (h : Helpers) (key errPrefix : String)
    (pre post : List Value) (v : Value) (attrs : List (Option Attr)) (hv : v.isMap = false)
    (hpre : ∀ x ∈ pre, ∃ f a, x = .map f ∧ newAttr h f = .ok a) :
    newAttrsSliceLoop h key errPrefix (pre ++ v :: post) attrs
      = .error (h.addDebugInfo (mustBeMap errPrefix key)) := by
  induction pre generalizing attrs with
  | nil => cases v <;> simp [Value.isMap] at hv <;> rfl
  | cons x rest ih =>
    obtain ⟨f, a, rfl, ha⟩ := hpre x (List.mem_cons_self _ _)
    simp only [List.cons_append, newAttrsSliceLoop, ha]
    exact ih _ (fun y hy => hpre y (List.mem_cons_of_mem _ hy))

theorem newTraitsSlice_lookup (h : Helpers) (key errPrefix : String) (m : FieldMap) :
    newTraitsSlice h key errPrefix m =
      match m.lookup key with
      | none => .error h.errNotExist
      | some (.slice s) => newTraitsSliceLoop h key errPrefix s []
      | some _ => .error (mustBeSlice errPrefix key) := by
  induction m with
  | nil => simp [newTraitsSlice]
  | cons kv rest ih =>
    obtain ⟨k, v⟩ := kv
    by_cases hk : k = key
    · subst hk
      cases v <;> simp [newTraitsSlice, List.lookup]
    · have hk' : (key == k) = false := by simpa [beq_eq_false_iff_ne] using Ne.symm hk
      have hl : List.lookup key ((k, v) :: rest) = List.lookup key rest := by
        simp [List.lookup, hk']
      rw [hl, ← ih]
      conv_lhs => unfold newTraitsSlice
      exact if_neg hk

theorem newTraitsSliceLoop_error (h : Helpers) (key errPrefix : String) (s : List Value)
    (traits : List (Option Trait)) (hs : ∃ v ∈ s, v.isMap = false) :
    ∃ err, newTraitsSliceLoop h key errPrefix s traits = .error err := by
  induction s generalizing traits with
  | nil => obtain ⟨v, hv, -⟩ := hs; cases hv
  | cons x rest ih =>
    cases x with
    | map fields =>
      simp only [newTraitsSliceLoop]
      cases newTraitOfValue h (.map fields) with
      | error err => exact ⟨_, rfl⟩
      | ok a =>
        refine ih _ ?_
        obtain ⟨v, hv, hvm⟩ := hs
        rcases List.mem_cons.mp hv with rfl | hv
        · cases hvm
        · exact ⟨v, hv, hvm⟩
    | _ => simp only [newTraitsSliceLoop]; exact ⟨_, rfl⟩

theorem newTraitsSliceLoop_mismatch (h : Helpers) (key errPrefix : String)
    (pre post : List Value) (v : Value) (traits : List (Option Trait)) (hv : v.isMap = false)
    (hpre : ∀ x ∈ pre, ∃ f t, x = .map f ∧ newTrait h f = .ok t) :
    newTraitsSliceLoop h key errPrefix (pre ++ v :: post) traits
      = .error (mustBeMap errPrefix key) := by
  induction pre generalizing traits with
  | nil =>
    cases v <;> simp [Value.isMap] at hv <;> simp only [List.nil_append, newTraitsSliceLoop]
  | cons x rest ih =>
    obtain ⟨f, t, rfl, ht⟩ := hpre x (List.mem_cons_self _ _)
    unfold newTrait at ht
    simp only [List.cons_append, newTraitsSliceLoop, ht]
    exact ih _ (fun y hy => hpre y (List.mem_cons_of_mem _ hy))

theorem newInterfacesSliceLoop_error (h : Helpers) (key errPrefix : String) (s : List Value)
    (interfs : List (Option Interface)) (hs : ∃ v ∈ s, v.isMap = false) :
    ∃ err, newInterfacesSliceLoop h key errPrefix s interfs = .error err := by
  induction s generalizing interfs with
  | nil => obtain ⟨v, hv, -⟩ := hs; cases hv
  | cons x rest ih =>
    cases x with
    | map fields =>
      simp only [newInterfacesSliceLoop]
      cases newInterface h fields with
      | error err => exact ⟨_, rfl⟩
      | ok a =>
        refine ih _ ?_
        obtain ⟨v, hv, hvm⟩ := hs
        rcases List.mem_cons.mp hv with rfl | hv
        · cases hvm
        · exact ⟨v, hv, hvm⟩
    | _ => exact ⟨_, rfl⟩

theorem newInterfacesSliceLoop_mismatch (h : Helpers) (key errPrefix : String)
    (pre post : List Value) (v : Value) (interfs : List (Option Interface))
    (hv : v.isMap = false)
    (hpre : ∀ x ∈ pre, ∃ f i, x = .map f ∧ newInterface h f = .ok i) :
    newInterfacesSliceLoop h key errPrefix (pre ++ v :: post) interfs
      = .error (h.addDebugInfo (mustBeMap errPrefix key)) := by
  induction pre generalizing interfs with
  | nil => cases v <;> simp [Value.isMap] at hv <;> rfl
  | cons x rest ih =>
    obtain ⟨f, a, rfl, ha⟩ := hpre x (List.mem_cons_self _ _)
    simp only [List.cons_append, newInterfacesSliceLoop, ha]
    exact ih _ (fun y hy => hpre y (List.mem_cons_of_mem _ hy))

theorem newStatementsSliceLoop_error (h : Helpers) (key errPrefix : String) (s : List Value)
    (stmts : List Statement) (hs : ∃ v ∈ s, v.isMap = false) :
    ∃ err, newStatementsSliceLoop h key errPrefix s stmts = .error err := by
  induction s generalizing stmts with
  | nil => obtain ⟨v, hv, -⟩ := hs; cases hv
  | cons x rest ih =>
    cases x with
    | map fields =>
      simp only [newStatementsSliceLoop]
      cases newStatement h fields with
      | error err => exact ⟨_, rfl⟩
      | ok a =>
        refine ih _ ?_
        obtain ⟨v, hv, hvm⟩ := hs
        rcases List.mem_cons.mp hv with rfl | hv
        · cases hvm
        · exact ⟨v, hv, hvm⟩
    | _ => exact ⟨_, rfl⟩

theorem newStatementsSliceLoop_mismatch (h : Helpers) (key errPrefix : String)
    (pre post : List Value) (v : Value) (stmts : List Statement) (hv : v.isMap = false)
    (hpre : ∀ x ∈ pre, ∃ f s, x = .map f ∧ newStatement h f = .ok s) :
    newStatementsSliceLoop h key errPrefix (pre ++ v :: post) stmts
      = .error (mustBeMap errPrefix key) := by
  induction pre generalizing stmts with
  | nil => cases v <;> simp [Value.isMap] at hv <;> rfl
  | cons x rest ih =>
    obtain ⟨f, a, rfl, ha⟩ := hpre x (List.mem_cons_self _ _)
    simp only [List.cons_append, newStatementsSliceLoop, ha]
    exact ih _ (fun y hy => hpre y (List.mem_cons_of_mem _ hy))

theorem newGlobalDeclsSliceLoop_error (h : Helpers) (key errPrefix : String) (s : List Value)
    (globaldecls : List (Option GlobalDecl))
    (hs : ∃ v ∈ s, v.isMap = false ∧ v.isNull = false) :
    ∃ err, newGlobalDeclsSliceLoop h key errPrefix s globaldecls = .error err := by
  induction s generalizing globaldecls with
  | nil => obtain ⟨v, hv, -⟩ := hs; cases hv
  | cons x rest ih =>
    have hrest : (x.isMap = true ∨ x.isNull = true) →
        ∃ v ∈ rest, v.isMap = false ∧ v.isNull = false := by
      intro hx
      obtain ⟨v, hv, hvm, hvn⟩ := hs
      rcases List.mem_cons.mp hv with rfl | hv
      · rcases hx with hx | hx
        · rw [hx] at hvm; cases hvm
        · rw [hx] at hvn; cases hvn
      · exact ⟨v, hv, hvm, hvn⟩
    cases x with
    | map fields =>
      simp only [newGlobalDeclsSliceLoop]
      cases newGlobalDecl h fields with
      | error err => exact ⟨_, rfl⟩
      | ok a => exact ih _ (hrest (Or.inl rfl))
    | null =>
      simp only [newGlobalDeclsSliceLoop]
      exact ih _ (hrest (Or.inr rfl))
    | _ => exact ⟨_, rfl⟩

theorem newGlobalDeclsSliceLoop_mismatch (h : Helpers) (key errPrefix : String)
    (pre post : List Value) (v : Value) (globaldecls : List (Option GlobalDecl))
    (hv : v.isMap = false) (hn : v.isNull = false)
    (hpre : ∀ x ∈ pre, x = .null ∨ ∃ f g, x = .map f ∧ newGlobalDecl h f = .ok g) :
    newGlobalDeclsSliceLoop h key errPrefix (pre ++ v :: post) globaldecls
      = .error (h.addDebugInfo (.text (errPrefix ++ ": '" ++ key
          ++ "' must be a map[string]interface\x7b\x7d, found " ++ v.typeName))) := by
  induction pre generalizing globaldecls with
  | nil => cases v <;> simp [Value.isMap, Value.isNull] at hv hn <;> rfl
  | cons x rest ih =>
    rcases hpre x (List.mem_cons_self _ _) with rfl | ⟨f, a, rfl, ha⟩
    · simp only [List.cons_append, newGlobalDeclsSliceLoop]
      exact ih _ (fun y hy => hpre y (List.mem_cons_of_mem _ hy))
    · simp only [List.cons_append, newGlobalDeclsSliceLoop, ha]
      exact ih _ (fun y hy => hpre y (List.mem_cons_of_mem _ hy))

theorem newGlobalDeclsSliceLoop_nulls (h : Helpers) (key errPrefix : String)
    (s : List Value) (globaldecls : List (Option GlobalDecl)) (hs : ∀ x ∈ s, x = .null) :
    newGlobalDeclsSliceLoop h key errPrefix s globaldecls
      = .ok (globaldecls ++ s.map (fun _ => none)) := by
  induction s generalizing globaldecls with
  | nil => simp [newGlobalDeclsSliceLoop]
  | cons x rest ih =>
    obtain rfl := hs x (List.mem_cons_self _ _)
    simp only [newGlobalDeclsSliceLoop]
    rw [ih _ (fun y hy => hs y (List.mem_cons_of_mem _ hy))]
    simp
/-! ## Constructors: lemmas on `newGlobalDecl` -/

theorem Helpers.Contract.absent_not_exist {h : Helpers} (hc : h.Contract) :
    h.isExist h.errNotExist = false := by
  cases hx : h.isExist h.errNotExist with
  | false => rfl
  | true => exact absurd rfl ((hc.isExistIff _).mp hx)

theorem newGlobalDeclTail_absent (h : Helpers) (hc : h.Contract) (m : FieldMap)
    (doc : Option (List String)) (name : Undecoded) (value : Option Undecoded)
    (habs : m.lookup "type" = none ∨ m.lookup "visibility" = none) :
    ∃ err, newGlobalDecl.newGlobalDeclTail h m doc name value = .error err := by
  unfold newGlobalDecl.newGlobalDeclTail
  dsimp only
  cases ht : h.extractMapValue "type" "src/global_decl" m with
  | error err => exact ⟨_, rfl⟩
  | ok typeMap =>
    dsimp only
    cases hi : h.newIdent typeMap with
    | error err => exact ⟨_, rfl⟩
    | ok typ =>
      dsimp only
      cases hv : h.extractStringValue "visibility" "src/global_decl" m with
      | error err => exact ⟨_, rfl⟩
      | ok visibility =>
        rcases habs with habs | habs
        · have := (hc.mapNotExist "type" "src/global_decl" m).mpr habs
          rw [ht] at this
          cases this
        · obtain ⟨err, herr⟩ := hc.stringAbsent "visibility" "src/global_decl" m habs
          rw [hv] at herr
          cases herr

theorem newGlobalDeclFrom_fails (h : Helpers) (hc : h.Contract) (m : FieldMap)
    (doc : Option (List String))
    (hbad : m.lookup "name" = none ∨ m.lookup "type" = none ∨ m.lookup "visibility" = none
      ∨ ∃ v, m.lookup "value" = some v ∧ v.isMap = false) :
    ∃ err, newGlobalDecl.newGlobalDeclFrom h m doc = .error err := by
  unfold newGlobalDecl.newGlobalDeclFrom
  dsimp only
  cases hn : h.extractMapValue "name" "src/global_decl" m with
  | error err => exact ⟨_, rfl⟩
  | ok nameMap =>
    dsimp only
    cases hi : h.newIdent nameMap with
    | error err => exact ⟨_, rfl⟩
    | ok name =>
      dsimp only
      rcases hbad with habs | habs | habs | ⟨v, hv, hvm⟩
      · have := (hc.mapNotExist "name" "src/global_decl" m).mpr habs
        rw [hn] at this
        cases this
      · cases h.extractMapValue "value" "src/global_decl" m with
        | error err =>
          dsimp only
          split_ifs
          · exact ⟨_, rfl⟩
          · exact newGlobalDeclTail_absent h hc m _ _ _ (Or.inl habs)
        | ok exprMap =>
          dsimp only
          cases h.newExpr exprMap with
          | error err => exact ⟨_, rfl⟩
          | ok value => exact newGlobalDeclTail_absent h hc m _ _ _ (Or.inl habs)
      · cases h.extractMapValue "value" "src/global_decl" m with
        | error err =>
          dsimp only
          split_ifs
          · exact ⟨_, rfl⟩
          · exact newGlobalDeclTail_absent h hc m _ _ _ (Or.inr habs)
        | ok exprMap =>
          dsimp only
          cases h.newExpr exprMap with
          | error err => exact ⟨_, rfl⟩
          | ok value => exact newGlobalDeclTail_absent h hc m _ _ _ (Or.inr habs)
      · obtain ⟨err, herr⟩ := hc.mapWrongType "value" "src/global_decl" m v hv hvm
        have hne : err ≠ h.errNotExist := by
          intro heq
          rw [heq] at herr
          have := (hc.mapNotExist "value" "src/global_decl" m).mp herr
          rw [hv] at this
          cases this
        rw [herr]
        dsimp only
        rw [if_pos ((hc.isExistIff err).mpr hne)]
        exact ⟨_, rfl⟩

theorem newGlobalDecl_fails (h : Helpers) (hc : h.Contract) (m : FieldMap)
    (hbad : m.lookup "name" = none ∨ m.lookup "type" = none ∨ m.lookup "visibility" = none
      ∨ ∃ v, m.lookup "value" = some v ∧ v.isMap = false) :
    ∃ err, newGlobalDecl h m = .error err := by
  unfold newGlobalDecl
  dsimp only
  cases h.extractStringSliceValue "doc" "src/global_decl" m with
  | error err =>
    dsimp only
    split_ifs
    · exact ⟨_, rfl⟩
    · exact newGlobalDeclFrom_fails h hc m _ hbad
  | ok doc => exact newGlobalDeclFrom_fails h hc m _ hbad

theorem text_ne_of_last (a b : String) (c d : Char) (hb : b.data.getLast? = some c)
    (hd : "field does not exist".data.getLast? = some d) (hcd : c ≠ d) :
    a ++ b ≠ "field does not exist" := by
  intro heq
  have h1 : (a ++ b).data.getLast? = some c := by
    rw [String.data_append, List.getLast?_append, hb]
    rfl
  rw [heq, hd] at h1
  exact hcd (Option.some.inj h1).symm

theorem specHelpers_contract : specHelpers.Contract where
  mapNotExist := by
    intro key errPrefix m
    simp only [specHelpers, specExtractMapValue]
    have hne := text_ne_of_last (errPrefix ++ ": field '" ++ key) "' is supposed to be a map"
      'p' 't' (by decide) (by decide) (by decide)
    cases hl : m.lookup key with
    | none => simp
    | some v => cases v <;> simp [String.append_assoc] at hne ⊢ <;> exact hne
  sliceNotExist := by
    intro key errPrefix m
    simp only [specHelpers, specExtractStringSliceValue]
    have hne := text_ne_of_last (errPrefix ++ ": field '" ++ key) "' is supposed to be a slice"
      'e' 't' (by decide) (by decide) (by decide)
    have hne2 := text_ne_of_last (errPrefix ++ ": field '" ++ key)
      "' is supposed to be a slice of strings" 's' 't' (by decide) (by decide) (by decide)
    cases hl : m.lookup key with
    | none => simp
    | some v =>
      cases v with
      | slice elems =>
        dsimp only
        cases hs : specStrings elems with
        | some l => simp
        | none =>
          simp [String.append_assoc] at hne2 ⊢
          exact hne2
      | _ => simp [String.append_assoc] at hne ⊢; exact hne
  isExistIff := by
    intro err
    simp [specHelpers]
  mapWrongType := by
    intro key errPrefix m v hl hv
    simp only [specHelpers, specExtractMapValue, hl]
    cases v <;> simp [Value.isMap] at hv <;> exact ⟨_, rfl⟩
  stringAbsent := by
    intro key errPrefix m hl
    simp only [specHelpers, specExtractStringValue, hl]
    exact ⟨_, rfl⟩

/-! ## Texts that occur in an error -/

theorem occursIn_mem (part whole : String) (c : Char) (hc : c ∈ part.toList)
    (h : occursIn part whole) : c ∈ whole.toList :=
  h.subset hc

theorem occursIn_length (part whole : String) (h : occursIn part whole) :
    part.length ≤ whole.length :=
  h.length_le

/-! ## Constructors: claims -/

/-- C14. `newStatement` returns an error and no statement when the map has
no `type` field and when the value of `type` is anything but one of the five
strings `IF`, `LOOP`, `ASSIGN`, `CALL`, `OTHER`, a value that is no string
included; it never falls back to the constructor of `Other`, and for each of
the five tags it returns what the matching constructor returns. -/
theorem C14_statement_dispatch (h : Helpers) (m : FieldMap) :
    (m.lookup "type" = none →
        newStatement h m = .error (.text "src/statement: field 'type' does not exist"))
      ∧ (∀ v, m.lookup "type" = some v →
          (∀ s, v = .string s → s ∉ ["IF", "LOOP", "ASSIGN", "CALL", "OTHER"]) →
          newStatement h m = .error (.text "unknown statement type"))
      ∧ (m.lookup "type" = some (.string "IF") → newStatement h m = h.newIfStatement m)
      ∧ (m.lookup "type" = some (.string "LOOP") → newStatement h m = h.newLoopStatement m)
      ∧ (m.lookup "type" = some (.string "ASSIGN") → newStatement h m = h.newAssignStatement m)
      ∧ (m.lookup "type" = some (.string "CALL") → newStatement h m = h.newCallStatement m)
      ∧ (m.lookup "type" = some (.string "OTHER") → newStatement h m = h.newOtherStatement m) := by
  refine ⟨?_, ?_, ?_, ?_, ?_, ?_, ?_⟩
  · intro hl
    simp [newStatement, hl]
  · intro v hl hv
    cases v with
    | string s =>
      have hs := hv s rfl
      simp only [List.mem_cons, List.mem_singleton, not_or, List.not_mem_nil, or_false] at hs
      obtain ⟨h1, h2, h3, h4, h5⟩ := hs
      simp [newStatement, hl, IfStmtName, LoopStmtName, AssignStmtName, CallStmtName,
        OtherStmtName, h1, h2, h3, h4, h5]
    | _ => simp [newStatement, hl]
  all_goals
    intro hl
    simp [newStatement, hl, IfStmtName, LoopStmtName, AssignStmtName, CallStmtName,
      OtherStmtName]

/-- Witness of C14: a differently-cased tag, a tag that is a number, a map
without `type`, and the tag `CALL`. -/
theorem C14_statement_dispatch_witness :
    newStatement specHelpers [("type", .string "if")] = .error (.text "unknown statement type")
      ∧ newStatement specHelpers [("type", .number 1)] = .error (.text "unknown statement type")
      ∧ newStatement specHelpers [("line", .number 1)]
        = .error (.text "src/statement: field 'type' does not exist")
      ∧ newStatement specHelpers [("type", .string "CALL")] = .ok .CallStatement :=
  ⟨(C14_statement_dispatch specHelpers [("type", .string "if")]).2.1 _ rfl
      (by intro s hs; cases hs; decide),
    (C14_statement_dispatch specHelpers [("type", .number 1)]).2.1 _ rfl
      (by intro s hs; cases hs),
    (C14_statement_dispatch specHelpers [("line", .number 1)]).1 rfl,
    (C14_statement_dispatch specHelpers [("type", .string "CALL")]).2.2.2.2.2.1 rfl⟩

/-- Counterexample to C15: for the tag `WHILE` the error of `newStatement`
is `unknown statement type`, a text in which `WHILE` does not occur. -/
theorem C15_error_does_not_name_the_value :
    newStatement specHelpers [("type", .string "WHILE")]
        = .error (.text "unknown statement type")
      ∧ ¬ occursIn "WHILE" (GoError.text "unknown statement type").Error := by
  refine ⟨rfl, ?_⟩
  decide

/-- C15, amended. For every field map whose `type` value `v` is a string
outside the closed set, `newStatement` returns the error with the fixed text
`unknown statement type`, the same for every such value and every such map:
the text does not identify `v`. It contains `v` exactly when `v` is a piece
of that fixed text, so it does not when `v` has a character that does not
occur in the fixed text or is longer than it. -/
theorem C15_unknown_tag_error (h : Helpers) (m : FieldMap) (v : String)
    (hl : m.lookup "type" = some (.string v))
    (hv : v ∉ ["IF", "LOOP", "ASSIGN", "CALL", "OTHER"]) :
    newStatement h m = .error (.text "unknown statement type")
      ∧ (∀ (m' : FieldMap) (w : String), m'.lookup "type" = some (.string w) →
          w ∉ ["IF", "LOOP", "ASSIGN", "CALL", "OTHER"] →
          newStatement h m' = newStatement h m)
      ∧ (∀ e, newStatement h m = .error e →
          (occursIn v e.Error ↔ occursIn v "unknown statement type"))
      ∧ ((∃ c ∈ v.toList, c ∉ "unknown statement type".toList) →
          ∀ e, newStatement h m = .error e → ¬ occursIn v e.Error)
      ∧ ("unknown statement type".length < v.length →
          ∀ e, newStatement h m = .error e → ¬ occursIn v e.Error) := by
  have key : ∀ (m' : FieldMap) (w : String), m'.lookup "type" = some (.string w) →
      w ∉ ["IF", "LOOP", "ASSIGN", "CALL", "OTHER"] →
      newStatement h m' = .error (.text "unknown statement type") := by
    intro m' w hl' hw
    simp only [List.mem_cons, List.mem_singleton, not_or, List.not_mem_nil, or_false] at hw
    obtain ⟨h1, h2, h3, h4, h5⟩ := hw
    simp [newStatement, hl', IfStmtName, LoopStmtName, AssignStmtName, CallStmtName,
      OtherStmtName, h1, h2, h3, h4, h5]
  have hm := key m v hl hv
  have htext : ∀ e, newStatement h m = .error e → e.Error = "unknown statement type" := by
    intro e he
    rw [hm] at he
    cases he
    rfl
  refine ⟨hm, ?_, ?_, ?_, ?_⟩
  · intro m' w hl' hw
    rw [key m' w hl' hw, hm]
  · intro e he
    rw [htext e he]
  · rintro ⟨c, hc, hnot⟩ e he hocc
    rw [htext e he] at hocc
    exact hnot (occursIn_mem _ _ c hc hocc)
  · intro hlen e he hocc
    rw [htext e he] at hocc
    exact absurd (occursIn_length _ _ hocc) (not_le.mpr hlen)

/-- Witness of C15, amended: the tag `WHILE`, whose `W` does not occur in
the error text, and the tag `type`, which is a piece of it. -/
theorem C15_unknown_tag_error_witness :
    newStatement specHelpers [("type", .string "WHILE"), ("line", .number 3)]
        = .error (.text "unknown statement type")
      ∧ (∀ e, newStatement specHelpers [("type", .string "WHILE"), ("line", .number 3)]
            = .error e → ¬ occursIn "WHILE" e.Error)
      ∧ newStatement specHelpers [("type", .string "type")]
        = newStatement specHelpers [("type", .string "WHILE"), ("line", .number 3)]
      ∧ (∀ e, newStatement specHelpers [("type", .string "type")] = .error e →
          occursIn "type" e.Error) :=
  ⟨(C15_unknown_tag_error specHelpers [("type", .string "WHILE"), ("line", .number 3)]
      "WHILE" rfl (by decide)).1,
    (C15_unknown_tag_error specHelpers [("type", .string "WHILE"), ("line", .number 3)]
      "WHILE" rfl (by decide)).2.2.2.1 ⟨'W', by decide, by decide⟩,
    (C15_unknown_tag_error specHelpers [("type", .string "WHILE"), ("line", .number 3)]
      "WHILE" rfl (by decide)).2.1 [("type", .string "type")] "type" rfl (by decide),
    fun e he =>
      ((C15_unknown_tag_error specHelpers [("type", .string "type")] "type" rfl
        (by decide)).2.2.1 e he).mpr (by decide)⟩

/-- Counterexample to C19: `newGlobalDeclsSlice` skips a null element and
returns a slice whose slot is nil; and the error of `newAttrsSlice` on a
sequence whose first element is a map that `newAttr` rejects is the error of
that element, not the type mismatch of the string that follows. -/
theorem C19_null_element_is_skipped :
    newGlobalDeclsSlice specHelpers "constants" "src/file" [("constants", .slice [.null])]
        = .ok [none]
      ∧ newAttrsSlice specHelpers "attributes" "src/class"
          [("attributes", .slice [.map [], .string "x"])]
        = .error (.text "debug: debug: field does not exist") := by
  exact ⟨rfl, rfl⟩

/-- C19, amended. When the value at the key is a sequence that contains an
element that is no field map, `newAttrsSlice`, `newInterfacesSlice`,
`newTraitsSlice` and `newStatementsSlice` return an error and no slice, and
the error is the type mismatch when every element before it is a field map
that the element constructor accepts. `newGlobalDeclsSlice` does the same
for an element that is neither a field map nor null, and skips null
elements, leaving their slots nil. -/
theorem C19_non_map_element (h : Helpers) (key errPrefix : String) (m : FieldMap)
    (pre post : List Value) (v : Value)
    (hm : m.lookup key = some (.slice (pre ++ v :: post))) (hv : v.isMap = false) :
    (∃ err, newAttrsSlice h key errPrefix m = .error err)
      ∧ (∃ err, newInterfacesSlice h key errPrefix m = .error err)
      ∧ (∃ err, newTraitsSlice h key errPrefix m = .error err)
      ∧ (∃ err, newStatementsSlice h key errPrefix m = .error err)
      ∧ ((∀ x ∈ pre, ∃ f a, x = .map f ∧ newAttr h f = .ok a) →
          newAttrsSlice h key errPrefix m = .error (h.addDebugInfo (mustBeMap errPrefix key)))
      ∧ ((∀ x ∈ pre, ∃ f i, x = .map f ∧ newInterface h f = .ok i) →
          newInterfacesSlice h key errPrefix m
            = .error (h.addDebugInfo (mustBeMap errPrefix key)))
      ∧ ((∀ x ∈ pre, ∃ f t, x = .map f ∧ newTrait h f = .ok t) →
          newTraitsSlice h key errPrefix m = .error (mustBeMap errPrefix key))
      ∧ ((∀ x ∈ pre, ∃ f s, x = .map f ∧ newStatement h f = .ok s) →
          newStatementsSlice h key errPrefix m = .error (mustBeMap errPrefix key))
      ∧ (h.reflectSliceValue key errPrefix m = .ok (pre ++ v :: post) → v.isNull = false →
          (∃ err, newGlobalDeclsSlice h key errPrefix m = .error err)
            ∧ ((∀ x ∈ pre, x = .null ∨ ∃ f g, x = .map f ∧ newGlobalDecl h f = .ok g) →
              newGlobalDeclsSlice h key errPrefix m
                = .error (h.addDebugInfo (.text (errPrefix ++ ": '" ++ key
                    ++ "' must be a map[string]interface\x7b\x7d, found " ++ v.typeName)))))
      ∧ (∀ s, h.reflectSliceValue key errPrefix m = .ok s → (∀ x ∈ s, x = .null) →
          newGlobalDeclsSlice h key errPrefix m = .ok (s.map (fun _ => none))) := by
  have hin : ∃ x ∈ pre ++ v :: post, x.isMap = false :=
    ⟨v, List.mem_append_right _ (List.mem_cons_self _ _), hv⟩
  refine ⟨?_, ?_, ?_, ?_, ?_, ?_, ?_, ?_, ?_, ?_⟩
  · simp only [newAttrsSlice, hm]
    exact newAttrsSliceLoop_error h key errPrefix _ _ hin
  · simp only [newInterfacesSlice, hm]
    exact newInterfacesSliceLoop_error h key errPrefix _ _ hin
  · rw [newTraitsSlice_lookup, hm]
    exact newTraitsSliceLoop_error h key errPrefix _ _ hin
  · simp only [newStatementsSlice, hm]
    exact newStatementsSliceLoop_error h key errPrefix _ _ hin
  · intro hpre
    simp only [newAttrsSlice, hm]
    exact newAttrsSliceLoop_mismatch h key errPrefix pre post v _ hv hpre
  · intro hpre
    simp only [newInterfacesSlice, hm]
    exact newInterfacesSliceLoop_mismatch h key errPrefix pre post v _ hv hpre
  · intro hpre
    rw [newTraitsSlice_lookup, hm]
    exact newTraitsSliceLoop_mismatch h key errPrefix pre post v _ hv hpre
  · intro hpre
    simp only [newStatementsSlice, hm]
    exact newStatementsSliceLoop_mismatch h key errPrefix pre post v _ hv hpre
  · intro hr hn
    refine ⟨?_, ?_⟩
    · simp only [newGlobalDeclsSlice, hr]
      exact newGlobalDeclsSliceLoop_error h key errPrefix _ _
        ⟨v, List.mem_append_right _ (List.mem_cons_self _ _), hv, hn⟩
    · intro hpre
      simp only [newGlobalDeclsSlice, hr]
      exact newGlobalDeclsSliceLoop_mismatch h key errPrefix pre post v _ hv hn hpre
  · intro s hr hs
    simp only [newGlobalDeclsSlice, hr]
    rw [newGlobalDeclsSliceLoop_nulls h key errPrefix s [] hs]
    simp

/-- Witness of C19, amended: a sequence of one well-formed attribute followed
by a string. -/
theorem C19_non_map_element_witness :
    newAttrsSlice specHelpers "attributes" "src/class" attributesWithString
      = .error (.text "debug: src/class: 'attributes' must be a map[string]interface\x7b\x7d") :=
  (C19_non_map_element specHelpers "attributes" "src/class" attributesWithString
      [Value.map wellFormedAttr] [] (Value.string "x") rfl rfl).2.2.2.2.1
    (by
      intro x hx
      rw [List.mem_singleton] at hx
      subst hx
      exact ⟨_, _, rfl, rfl⟩)

/-- C20. Under the contract of the extraction helpers, with valid `name`,
`type` and `visibility` fields `newGlobalDecl` succeeds when `value` is
absent, leaving `Value` unset, and when `doc` is absent; it fails when
`value` is present and is no field map, and when `name`, `type` or
`visibility` is absent. -/
theorem C20_optional_fields (h : Helpers) (hc : h.Contract) (m : FieldMap) :
    (∀ nameMap name typeMap typ visibility,
        h.extractMapValue "name" "src/global_decl" m = .ok nameMap →
        h.newIdent nameMap = .ok name →
        h.extractMapValue "type" "src/global_decl" m = .ok typeMap →
        h.newIdent typeMap = .ok typ →
        h.extractStringValue "visibility" "src/global_decl" m = .ok visibility →
        (∀ doc, h.extractStringSliceValue "doc" "src/global_decl" m = .ok doc →
            m.lookup "value" = none →
            newGlobalDecl h m = .ok { Doc := some doc, Name := some name, Value := none
                                      Type_ := some typ, Visibility := visibility })
          ∧ (∀ exprMap value, m.lookup "doc" = none →
              h.extractMapValue "value" "src/global_decl" m = .ok exprMap →
              h.newExpr exprMap = .ok value →
              newGlobalDecl h m = .ok { Doc := none, Name := some name, Value := some value
                                        Type_ := some typ, Visibility := visibility })
          ∧ (m.lookup "doc" = none → m.lookup "value" = none →
              newGlobalDecl h m = .ok { Doc := none, Name := some name, Value := none
                                        Type_ := some typ, Visibility := visibility }))
      ∧ (∀ v, m.lookup "value" = some v → v.isMap = false →
          ∃ err, newGlobalDecl h m = .error err)
      ∧ (m.lookup "name" = none → ∃ err, newGlobalDecl h m = .error err)
      ∧ (m.lookup "type" = none → ∃ err, newGlobalDecl h m = .error err)
      ∧ (m.lookup "visibility" = none → ∃ err, newGlobalDecl h m = .error err) := by
  refine ⟨?_, ?_, ?_, ?_, ?_⟩
  · intro nameMap name typeMap typ visibility h1 h2 h3 h4 h5
    have hno := hc.absent_not_exist
    refine ⟨?_, ?_, ?_⟩
    · intro doc hd hv
      have hv' := (hc.mapNotExist "value" "src/global_decl" m).mpr hv
      simp [newGlobalDecl, newGlobalDecl.newGlobalDeclFrom, newGlobalDecl.newGlobalDeclTail,
        h1, h2, h3, h4, h5, hd, hv', hno]
    · intro exprMap value hd hv hx
      have hd' := (hc.sliceNotExist "doc" "src/global_decl" m).mpr hd
      simp [newGlobalDecl, newGlobalDecl.newGlobalDeclFrom, newGlobalDecl.newGlobalDeclTail,
        h1, h2, h3, h4, h5, hd', hv, hx, hno]
    · intro hd hv
      have hd' := (hc.sliceNotExist "doc" "src/global_decl" m).mpr hd
      have hv' := (hc.mapNotExist "value" "src/global_decl" m).mpr hv
      simp [newGlobalDecl, newGlobalDecl.newGlobalDeclFrom, newGlobalDecl.newGlobalDeclTail,
        h1, h2, h3, h4, h5, hd', hv', hno]
  · intro v hv hvm
    exact newGlobalDecl_fails h hc m (Or.inr (Or.inr (Or.inr ⟨v, hv, hvm⟩)))
  · intro habs
    exact newGlobalDecl_fails h hc m (Or.inl habs)
  · intro habs
    exact newGlobalDecl_fails h hc m (Or.inr (Or.inl habs))
  · intro habs
    exact newGlobalDecl_fails h hc m (Or.inr (Or.inr (Or.inl habs)))

/-- Witness of C20: a declaration without `doc` and without `value`, and the
same declaration with a `value` that is a string. -/
theorem C20_optional_fields_witness :
    newGlobalDecl specHelpers plainGlobalDecl
      = .ok { Doc := none, Name := some { payload := "x" }, Value := none
              Type_ := some { payload := "int" }, Visibility := "public" }
      ∧ ∃ err, newGlobalDecl specHelpers (("value", Value.string "1") :: plainGlobalDecl)
          = .error err :=
  ⟨((C20_optional_fields specHelpers specHelpers_contract plainGlobalDecl).1
      _ _ _ _ _ rfl rfl rfl rfl rfl).2.2 rfl rfl,
    (C20_optional_fields specHelpers specHelpers_contract
      (("value", Value.string "1") :: plainGlobalDecl)).2.1 _ rfl rfl⟩

/-! ## Claims C21 and C22 -/

/-- C21 (code defect). With `Type` equal to `ASSIGN`, a `Line` that is a
string, a `VarName` that is a number and a `VarValue` that is null each make
`CastToAssignStatement` abort with the panic of a failed type assertion; no
error value is returned. A well-typed map is converted. -/
theorem C21_wrong_type_panics :
    CastToAssignStatement assignWithTextLine
        = .panics "interface conversion: interface \x7b\x7d is string, not float64"
      ∧ CastToAssignStatement assignWithNumericName
        = .panics "interface conversion: interface \x7b\x7d is float64, not string"
      ∧ CastToAssignStatement assignWithNullValue
        = .panics "interface conversion: interface \x7b\x7d is nil, not string"
      ∧ CastToAssignStatement assignWellTyped
        = .returns (.ok { Type_ := "ASSIGN", VarName := "x", VarValue := "1", Line := 0 }) :=
  ⟨rfl, rfl, rfl, rfl⟩

theorem statementComplexityLoop_eq (l : List Statement) (c : Int) :
    statementComplexityLoop l c = c + (l.map statementComplexity).sum := by
  induction l generalizing c with
  | nil => simp [statementComplexityLoop]
  | cons s rest ih =>
    simp only [statementComplexityLoop, ih, List.map_cons, List.sum_cons]
    ring

mutual
theorem statementComplexity_eq_decisionNodes :
    ∀ s : Statement, statementComplexity s = (decisionNodes s : Int)
  | .IfStatement body => by
    simp only [statementComplexity, decisionNodes, statementComplexityLoop_eq]
    rw [sum_statementComplexity_eq body]
    push_cast
    ring
  | .ForStatement body => by
    simp only [statementComplexity, decisionNodes, statementComplexityLoop_eq]
    rw [sum_statementComplexity_eq body]
    push_cast
    ring
  | .CallStatement => by simp [statementComplexity, decisionNodes]
  | .AssignStatement => by simp [statementComplexity, decisionNodes]
  | .OtherStatement => by simp [statementComplexity, decisionNodes]
  | .Pointer _ => by simp [statementComplexity, decisionNodes]
theorem sum_statementComplexity_eq :
    ∀ l : List Statement, (l.map statementComplexity).sum = (nestedDecisions l : Int)
  | [] => by simp [nestedDecisions]
  | s :: rest => by
    simp only [List.map_cons, List.sum_cons, nestedDecisions]
    rw [statementComplexity_eq_decisionNodes s, sum_statementComplexity_eq rest]
    push_cast
    ring
end

/-- C22. For a statement passed by value, `statementComplexity` is the number
of `If`, `Loop` and `Call` nodes of the tree rooted at it: 0 for an `Assign`
or `Other` statement, 1 for a `Call`, and 1 plus the sum over the nested body
for an `If` or a `Loop`. -/
theorem C22_statementComplexity_counts (s : Statement) (body : List Statement) :
    statementComplexity s = (decisionNodes s : Int)
      ∧ statementComplexity .AssignStatement = 0
      ∧ statementComplexity .OtherStatement = 0
      ∧ statementComplexity .CallStatement = 1
      ∧ statementComplexity (.IfStatement body) = 1 + (body.map statementComplexity).sum
      ∧ statementComplexity (.ForStatement body) = 1 + (body.map statementComplexity).sum := by
  refine ⟨statementComplexity_eq_decisionNodes s, ?_, ?_, ?_, ?_, ?_⟩
  · simp [statementComplexity]
  · simp [statementComplexity]
  · simp [statementComplexity]
  · simp [statementComplexity, statementComplexityLoop_eq]
  · simp [statementComplexity, statementComplexityLoop_eq]

/-! ## `decodeStringsList` on arrays of strings -/

theorem scanner.nextValue_here (pre post : List Input) (tok : scanToken) (val : Option String) :
    scanner.nextValue { input := pre ++ .value tok val :: post, pos := pre.length }
      = (.ok (val, tok), { input := pre ++ .value tok val :: post, pos := pre.length + 1 }) := by
  simp only [scanner.nextValue, List.get?_eq_getElem?, get?_append_here]

theorem scanner.nextValue_next (pre post : List Input) (a : Input) (tok : scanToken)
    (val : Option String) :
    scanner.nextValue { input := pre ++ a :: .value tok val :: post, pos := pre.length + 1 }
      = (.ok (val, tok),
          { input := pre ++ a :: .value tok val :: post, pos := pre.length + 1 + 1 }) := by
  simp only [scanner.nextValue, List.get?_eq_getElem?, get?_append_next]

theorem decoder.decodeStringsListLoop_strings (s : String) (rest : List String) (fuel : Nat)
    (pre post : List Input) (sl : List String) (hfuel : rest.length < fuel) :
    decoder.decodeStringsListLoop fuel
        { scan := { input := pre ++ (stringsThenEnd s rest ++ post), pos := pre.length }
          err := none } sl
      = some (some (sl ++ s :: rest),
          { scan := { input := pre ++ (stringsThenEnd s rest ++ post)
                      pos := pre.length + (stringsThenEnd s rest).length }
            err := none }) := by
  induction rest generalizing s fuel pre sl with
  | nil =>
    obtain ⟨fuel, rfl⟩ : ∃ f, fuel = f + 1 := ⟨fuel - 1, by omega⟩
    simp only [stringsThenEnd, List.cons_append, List.nil_append, List.length_cons,
      List.length_nil]
    unfold decoder.decodeStringsListLoop
    simp only [scanner.nextValue_here, decoder.isEndArray, scanner.nextValue_next]
    simp
  | cons s' rest ih =>
    obtain ⟨fuel, rfl⟩ : ∃ f, fuel = f + 1 := ⟨fuel - 1, by omega⟩
    have hfuel' : rest.length < fuel := by simpa using hfuel
    have hih := ih s' fuel
      (pre ++ [.value .scanStringLit (some s), .value .scanComma none]) (sl ++ [s]) hfuel'
    simp only [List.append_assoc, List.cons_append, List.nil_append, List.length_append,
      List.length_cons, List.length_nil] at hih
    simp only [stringsThenEnd, List.cons_append, List.length_cons]
    unfold decoder.decodeStringsListLoop
    simp only [scanner.nextValue_here, decoder.isEndArray, scanner.nextValue_next]
    simp only [ne_eq, not_true_eq_false, if_false, reduceCtorEq, Option.getD_some,
      Option.isSome_none, Bool.false_eq_true]
    rw [hih]
    simp [Nat.add_assoc, Nat.add_comm, Nat.add_left_comm]
    omega

theorem decoder.decodeStringsListLoop_not_string (ss : List String) (fuel : Nat)
    (pre post : List Input) (tok : scanToken) (val : Option String) (sl : List String)
    (hfuel : ss.length < fuel) (htok : tok ≠ .scanStringLit) :
    decoder.decodeStringsListLoop fuel
        { scan := { input := pre ++ (stringsWithCommas ss ++ .value tok val :: post)
                    pos := pre.length }
          err := none } sl
      = some (none,
          { scan := { input := pre ++ (stringsWithCommas ss ++ .value tok val :: post)
                      pos := pre.length + (stringsWithCommas ss).length + 1 }
            err := some (.text ("expected string, found " ++ tok.String)) }) := by
  induction ss generalizing fuel pre sl with
  | nil =>
    obtain ⟨fuel, rfl⟩ : ∃ f, fuel = f + 1 := ⟨fuel - 1, by omega⟩
    simp only [stringsWithCommas, List.nil_append, List.length_nil, Nat.add_zero]
    unfold decoder.decodeStringsListLoop
    simp only [scanner.nextValue_here]
    simp [htok]
  | cons s rest ih =>
    obtain ⟨fuel, rfl⟩ : ∃ f, fuel = f + 1 := ⟨fuel - 1, by omega⟩
    have hfuel' : rest.length < fuel := by simpa using hfuel
    have hih := ih fuel
      (pre ++ [.value .scanStringLit (some s), .value .scanComma none]) (sl ++ [s]) hfuel'
    simp only [List.append_assoc, List.cons_append, List.nil_append, List.length_append,
      List.length_cons, List.length_nil] at hih
    simp only [stringsWithCommas, List.cons_append, List.length_cons]
    unfold decoder.decodeStringsListLoop
    simp only [scanner.nextValue_here, decoder.isEndArray, scanner.nextValue_next]
    simp only [ne_eq, not_true_eq_false, if_false, reduceCtorEq, Option.getD_some,
      Option.isSome_none, Bool.false_eq_true]
    rw [hih]
    simp [Nat.add_assoc, Nat.add_comm, Nat.add_left_comm]
    omega

theorem decoder.decodeStringsListLoop_no_comma (ss : List String) (s : String) (fuel : Nat)
    (pre post : List Input) (tok : scanToken) (val : Option String) (sl : List String)
    (hfuel : ss.length < fuel) (hend : tok ≠ .scanEndArray) (hcomma : tok ≠ .scanComma) :
    decoder.decodeStringsListLoop fuel
        { scan := { input := pre ++ (stringsWithCommas ss
                      ++ .value .scanStringLit (some s) :: .value tok val :: post)
                    pos := pre.length }
          err := none } sl
      = some (none,
          { scan := { input := pre ++ (stringsWithCommas ss
                        ++ .value .scanStringLit (some s) :: .value tok val :: post)
                      pos := pre.length + (stringsWithCommas ss).length + 2 }
            err := some (.text ("expected 'comma', found '" ++ tok.String ++ "'")) }) := by
  induction ss generalizing fuel pre sl with
  | nil =>
    obtain ⟨fuel, rfl⟩ : ∃ f, fuel = f + 1 := ⟨fuel - 1, by omega⟩
    simp only [stringsWithCommas, List.nil_append, List.length_nil, Nat.add_zero]
    unfold decoder.decodeStringsListLoop
    simp only [scanner.nextValue_here, decoder.isEndArray, scanner.nextValue_next]
    simp [hend, hcomma]
  | cons s' rest ih =>
    obtain ⟨fuel, rfl⟩ : ∃ f, fuel = f + 1 := ⟨fuel - 1, by omega⟩
    have hfuel' : rest.length < fuel := by simpa using hfuel
    have hih := ih fuel
      (pre ++ [.value .scanStringLit (some s'), .value .scanComma none]) (sl ++ [s']) hfuel'
    simp only [List.append_assoc, List.cons_append, List.nil_append, List.length_append,
      List.length_cons, List.length_nil] at hih
    simp only [stringsWithCommas, List.cons_append, List.length_cons]
    unfold decoder.decodeStringsListLoop
    simp only [scanner.nextValue_here, decoder.isEndArray, scanner.nextValue_next]
    simp only [ne_eq, not_true_eq_false, if_false, reduceCtorEq, Option.getD_some,
      Option.isSome_none, Bool.false_eq_true]
    rw [hih]
    simp [Nat.add_assoc, Nat.add_comm, Nat.add_left_comm]
    omega

theorem scanner.peek_next (pre post : List Input) (a b : Input) :
    scanner.peek { input := pre ++ a :: b :: post, pos := pre.length + 1 } = .ok b.firstByte := by
  simp only [scanner.peek, List.get?_eq_getElem?, get?_append_next]

theorem stringsThenEnd_cons (s : String) (rest : List String) :
    ∃ tail, stringsThenEnd s rest = .value .scanStringLit (some s) :: tail := by
  cases rest <;> exact ⟨_, rfl⟩

theorem firstByte_string (val : Option String) :
    (Input.value .scanStringLit val).firstByte ≠ ']' := by
  simp [Input.firstByte]

theorem stringsThenEnd_length (s : String) (rest : List String) :
    (stringsThenEnd s rest).length = 2 * rest.length + 2 := by
  induction rest generalizing s with
  | nil => rfl
  | cons s' r ih =>
    simp only [stringsThenEnd, List.length_cons, ih s']
    omega

theorem stringsWithCommas_length (ss : List String) :
    (stringsWithCommas ss).length = 2 * ss.length := by
  induction ss with
  | nil => rfl
  | cons s' r ih =>
    simp only [stringsWithCommas, List.length_cons, ih]
    omega

theorem decoder.decodeStringsList_entry (pre tail : List Input) (open_ : Option String)
    (first : Input) (hfirst : first.firstByte ≠ ']') :
    decoder.decodeStringsList
        { scan := { input := pre ++ .value .scanBeginArray open_ :: first :: tail
                    pos := pre.length }
          err := none }
      = decoder.decodeStringsListLoop
          ((pre ++ .value .scanBeginArray open_ :: first :: tail).length + 1)
          { scan := { input := pre ++ .value .scanBeginArray open_ :: first :: tail
                      pos := pre.length + 1 }
            err := none } [] := by
  unfold decoder.decodeStringsList decoder.assertNewArray
  rw [scanner.nextValue_here]
  simp only [ne_eq, not_true_eq_false, if_false]
  unfold decoder.isEmptyArray
  rw [scanner.peek_next]
  simp only [if_neg hfirst]
  rfl

/-- C23. On the tokens `[ s1 , s2 , ... , sn ]` of `n ≥ 1` string literals
`decodeStringsList` returns the `n` payloads in input order and leaves the
error slot clear. When a token that is no string literal stands where an
element is expected, a `]` after a comma included, or when the token after
an element is neither `]` nor `,`, it returns nil and sets the error
slot. -/
theorem C23_strings_list (pre post : List Input) (open_ : Option String) (s : String)
    (rest ss : List String) (tok : scanToken) (val : Option String) :
    decoder.decodeStringsList
        { scan := { input := pre ++ .value .scanBeginArray open_ :: (stringsThenEnd s rest ++ post)
                    pos := pre.length }
          err := none }
      = some (some (s :: rest),
          { scan := { input := pre ++ .value .scanBeginArray open_
                        :: (stringsThenEnd s rest ++ post)
                      pos := pre.length + 1 + (stringsThenEnd s rest).length }
            err := none })
      ∧ (tok ≠ .scanStringLit → (ss ≠ [] ∨ (Input.value tok val).firstByte ≠ ']') →
          decoder.decodeStringsList
              { scan := { input := pre ++ .value .scanBeginArray open_
                            :: (stringsWithCommas ss ++ .value tok val :: post)
                          pos := pre.length }
                err := none }
            = some (none,
                { scan := { input := pre ++ .value .scanBeginArray open_
                              :: (stringsWithCommas ss ++ .value tok val :: post)
                            pos := pre.length + 1 + (stringsWithCommas ss).length + 1 }
                  err := some (.text ("expected string, found " ++ tok.String)) }))
      ∧ (tok ≠ .scanEndArray → tok ≠ .scanComma →
          decoder.decodeStringsList
              { scan := { input := pre ++ .value .scanBeginArray open_
                            :: (stringsWithCommas ss
                              ++ .value .scanStringLit (some s) :: .value tok val :: post)
                          pos := pre.length }
                err := none }
            = some (none,
                { scan := { input := pre ++ .value .scanBeginArray open_
                              :: (stringsWithCommas ss
                                ++ .value .scanStringLit (some s) :: .value tok val :: post)
                            pos := pre.length + 1 + (stringsWithCommas ss).length + 2 }
                  err := some (.text ("expected 'comma', found '" ++ tok.String ++ "'")) })) := by
  refine ⟨?_, ?_, ?_⟩
  · obtain ⟨tail, htail⟩ := stringsThenEnd_cons s rest
    have hentry := decoder.decodeStringsList_entry pre (tail ++ post) open_
      (.value .scanStringLit (some s)) (firstByte_string _)
    rw [← List.cons_append, ← htail] at hentry
    rw [hentry]
    generalize hfuel :
      (pre ++ .value .scanBeginArray open_ :: (stringsThenEnd s rest ++ post)).length + 1 = fuel
    have hlt : rest.length < fuel := by
      rw [← hfuel]
      simp only [List.length_append, List.length_cons, stringsThenEnd_length]
      omega
    have hloop := decoder.decodeStringsListLoop_strings s rest fuel
      (pre ++ [.value .scanBeginArray open_]) post [] hlt
    simp only [List.append_assoc, List.cons_append, List.nil_append, List.length_append,
      List.length_cons, List.length_nil, List.nil_append] at hloop
    simp only [Nat.zero_add] at hloop
    rw [hloop]
  · intro htok hne
    have hfirst : ∃ first tail, stringsWithCommas ss ++ .value tok val :: post = first :: tail
        ∧ first.firstByte ≠ ']' := by
      cases ss with
      | nil =>
        rcases hne with h | h
        · exact absurd rfl h
        · exact ⟨_, _, rfl, h⟩
      | cons s' r => exact ⟨_, _, rfl, firstByte_string _⟩
    obtain ⟨first, tail, hft, hb⟩ := hfirst
    have hentry := decoder.decodeStringsList_entry pre tail open_ first hb
    rw [← hft] at hentry
    rw [hentry]
    generalize hfuel :
      (pre ++ .value .scanBeginArray open_
        :: (stringsWithCommas ss ++ .value tok val :: post)).length + 1 = fuel
    have hlt : ss.length < fuel := by
      rw [← hfuel]
      simp only [List.length_append, List.length_cons, stringsWithCommas_length]
      omega
    have hloop := decoder.decodeStringsListLoop_not_string ss fuel
      (pre ++ [.value .scanBeginArray open_]) post tok val [] hlt htok
    simp only [List.append_assoc, List.cons_append, List.nil_append, List.length_append,
      List.length_cons, List.length_nil, List.nil_append] at hloop
    simp only [Nat.zero_add] at hloop
    rw [hloop]
  · intro hend hcomma
    have hfirst : ∃ first tail, stringsWithCommas ss
          ++ .value .scanStringLit (some s) :: .value tok val :: post = first :: tail
        ∧ first.firstByte ≠ ']' := by
      cases ss with
      | nil => exact ⟨_, _, rfl, firstByte_string _⟩
      | cons s' r => exact ⟨_, _, rfl, firstByte_string _⟩
    obtain ⟨first, tail, hft, hb⟩ := hfirst
    have hentry := decoder.decodeStringsList_entry pre tail open_ first hb
    rw [← hft] at hentry
    rw [hentry]
    generalize hfuel :
      (pre ++ .value .scanBeginArray open_ :: (stringsWithCommas ss
        ++ .value .scanStringLit (some s) :: .value tok val :: post)).length + 1 = fuel
    have hlt : ss.length < fuel := by
      rw [← hfuel]
      simp only [List.length_append, List.length_cons, stringsWithCommas_length]
      omega
    have hloop := decoder.decodeStringsListLoop_no_comma ss s fuel
      (pre ++ [.value .scanBeginArray open_]) post tok val [] hlt hend hcomma
    simp only [List.append_assoc, List.cons_append, List.nil_append, List.length_append,
      List.length_cons, List.length_nil, List.nil_append] at hloop
    simp only [Nat.zero_add] at hloop
    rw [hloop]

/-- Witness of C23: `["a","b","c"]`, `["a",]` and `["a" "b"]`. -/
theorem C23_strings_list_witness :
    decoder.decodeStringsList
        { scan := { input := [] ++ .value .scanBeginArray none
                      :: (stringsThenEnd "a" ["b", "c"] ++ [])
                    pos := 0 }
          err := none }
      = some (some ["a", "b", "c"],
          { scan := { input := [] ++ .value .scanBeginArray none
                        :: (stringsThenEnd "a" ["b", "c"] ++ [])
                      pos := 0 + 1 + (stringsThenEnd "a" ["b", "c"]).length }
            err := none })
      ∧ decoder.decodeStringsList
          { scan := { input := [] ++ .value .scanBeginArray none
                        :: (stringsWithCommas ["a"] ++ .value .scanEndArray none :: [])
                      pos := 0 }
            err := none }
        = some (none,
            { scan := { input := [] ++ .value .scanBeginArray none
                          :: (stringsWithCommas ["a"] ++ .value .scanEndArray none :: [])
                        pos := 0 + 1 + (stringsWithCommas ["a"]).length + 1 }
              err := some (.text ("expected string, found " ++ scanToken.scanEndArray.String)) })
      ∧ decoder.decodeStringsList
          { scan := { input := [] ++ .value .scanBeginArray none
                        :: (stringsWithCommas [] ++ .value .scanStringLit (some "a")
                          :: .value .scanStringLit (some "b") :: [.value .scanEndArray none])
                      pos := 0 }
            err := none }
        = some (none,
            { scan := { input := [] ++ .value .scanBeginArray none
                          :: (stringsWithCommas [] ++ .value .scanStringLit (some "a")
                            :: .value .scanStringLit (some "b") :: [.value .scanEndArray none])
                        pos := 0 + 1 + (stringsWithCommas []).length + 2 }
              err := some (.text
                ("expected 'comma', found '" ++ scanToken.scanStringLit.String ++ "'")) }) :=
  ⟨(C23_strings_list [] [] none "a" ["b", "c"] [] .scanEndArray none).1,
    (C23_strings_list [] [] none "a" [] ["a"] .scanEndArray none).2.1 (by decide)
      (Or.inl (by decide)),
    (C23_strings_list [] [.value .scanEndArray none] none "a" [] [] .scanStringLit
      (some "b")).2.2 (by decide) (by decide)⟩

/-! ## Slice constructors on sequences of field maps -/

theorem newAttrsSliceLoop_ok (h : Helpers) (key errPrefix : String) (fs : List FieldMap)
    (as : List Attr) (attrs : List (Option Attr))
    (hfs : List.Forall₂ (fun f a => newAttr h f = .ok a) fs as) :
    newAttrsSliceLoop h key errPrefix (fs.map Value.map) attrs = .ok (attrs ++ as.map some) := by
  induction hfs generalizing attrs with
  | nil => simp [newAttrsSliceLoop]
  | cons hfa _ ih =>
    simp only [List.map_cons, newAttrsSliceLoop, hfa, ih]
    simp

theorem newAttrsSliceLoop_first_error (h : Helpers) (key errPrefix : String)
    (pre post : List FieldMap) (f : FieldMap) (as : List Attr) (err : GoError)
    (attrs : List (Option Attr))
    (hpre : List.Forall₂ (fun f a => newAttr h f = .ok a) pre as)
    (hf : newAttr h f = .error err) :
    newAttrsSliceLoop h key errPrefix ((pre ++ f :: post).map Value.map) attrs
      = .error (h.addDebugInfo err) := by
  induction hpre generalizing attrs with
  | nil => simp [newAttrsSliceLoop, hf]
  | cons hfa _ ih =>
    simp only [List.cons_append, List.map_cons, newAttrsSliceLoop, hfa]
    exact ih _

theorem newInterfacesSliceLoop_ok (h : Helpers) (key errPrefix : String) (fs : List FieldMap)
    (is : List Interface) (interfs : List (Option Interface))
    (hfs : List.Forall₂ (fun f i => newInterface h f = .ok i) fs is) :
    newInterfacesSliceLoop h key errPrefix (fs.map Value.map) interfs
      = .ok (interfs ++ is.map some) := by
  induction hfs generalizing interfs with
  | nil => simp [newInterfacesSliceLoop]
  | cons hfa _ ih =>
    simp only [List.map_cons, newInterfacesSliceLoop, hfa, ih]
    simp

theorem newInterfacesSliceLoop_first_error (h : Helpers) (key errPrefix : String)
    (pre post : List FieldMap) (f : FieldMap) (is : List Interface) (err : GoError)
    (interfs : List (Option Interface))
    (hpre : List.Forall₂ (fun f i => newInterface h f = .ok i) pre is)
    (hf : newInterface h f = .error err) :
    newInterfacesSliceLoop h key errPrefix ((pre ++ f :: post).map Value.map) interfs
      = .error (h.addDebugInfo err) := by
  induction hpre generalizing interfs with
  | nil => simp [newInterfacesSliceLoop, hf]
  | cons hfa _ ih =>
    simp only [List.cons_append, List.map_cons, newInterfacesSliceLoop, hfa]
    exact ih _

theorem newTraitsSliceLoop_ok (h : Helpers) (key errPrefix : String) (fs : List FieldMap)
    (ts : List Trait) (traits : List (Option Trait))
    (hfs : List.Forall₂ (fun f t => newTrait h f = .ok t) fs ts) :
    newTraitsSliceLoop h key errPrefix (fs.map Value.map) traits
      = .ok (traits ++ ts.map some) := by
  induction hfs generalizing traits with
  | nil => simp [newTraitsSliceLoop]
  | cons hfa _ ih =>
    unfold newTrait at hfa
    simp only [List.map_cons, newTraitsSliceLoop, hfa, ih]
    simp

theorem newTraitsSliceLoop_first_error (h : Helpers) (key errPrefix : String)
    (pre post : List FieldMap) (f : FieldMap) (ts : List Trait) (err : GoError)
    (traits : List (Option Trait))
    (hpre : List.Forall₂ (fun f t => newTrait h f = .ok t) pre ts)
    (hf : newTrait h f = .error err) :
    newTraitsSliceLoop h key errPrefix ((pre ++ f :: post).map Value.map) traits
      = .error err := by
  induction hpre generalizing traits with
  | nil =>
    unfold newTrait at hf
    simp [newTraitsSliceLoop, hf]
  | cons hfa _ ih =>
    unfold newTrait at hfa
    simp only [List.cons_append, List.map_cons, newTraitsSliceLoop, hfa]
    exact ih _

/-- C24. For `newAttrsSlice`, `newInterfacesSlice` and `newTraitsSlice`: when
the key is absent the result is the sentinel `errNotExist` itself, without
debug information; when the value is no sequence the result is an error; when
the value is a sequence of field maps that the element constructor accepts,
the result is the slice of the constructed elements, in order and of the same
length; and when the constructor rejects an element after accepting the ones
before it, the result is the error of that element (with debug information
for attributes and interfaces). -/
theorem C24_slice_constructors (h : Helpers) (key errPrefix : String) (m : FieldMap) :
    (m.lookup key = none →
        newAttrsSlice h key errPrefix m = .error h.errNotExist
          ∧ newInterfacesSlice h key errPrefix m = .error h.errNotExist
          ∧ newTraitsSlice h key errPrefix m = .error h.errNotExist)
      ∧ (∀ v, m.lookup key = some v → (∀ s, v ≠ .slice s) →
          (∃ err, newAttrsSlice h key errPrefix m = .error err)
            ∧ (∃ err, newInterfacesSlice h key errPrefix m = .error err)
            ∧ (∃ err, newTraitsSlice h key errPrefix m = .error err))
      ∧ (∀ fs, m.lookup key = some (.slice (fs.map Value.map)) →
          (∀ as, List.Forall₂ (fun f a => newAttr h f = .ok a) fs as →
              newAttrsSlice h key errPrefix m = .ok (as.map some)
                ∧ (as.map some).length = fs.length)
            ∧ (∀ is, List.Forall₂ (fun f i => newInterface h f = .ok i) fs is →
              newInterfacesSlice h key errPrefix m = .ok (is.map some)
                ∧ (is.map some).length = fs.length)
            ∧ (∀ ts, List.Forall₂ (fun f t => newTrait h f = .ok t) fs ts →
              newTraitsSlice h key errPrefix m = .ok (ts.map some)
                ∧ (ts.map some).length = fs.length))
      ∧ (∀ pre f post, m.lookup key = some (.slice ((pre ++ f :: post).map Value.map)) →
          (∀ as err, List.Forall₂ (fun f a => newAttr h f = .ok a) pre as →
              newAttr h f = .error err →
              newAttrsSlice h key errPrefix m = .error (h.addDebugInfo err))
            ∧ (∀ is err, List.Forall₂ (fun f i => newInterface h f = .ok i) pre is →
              newInterface h f = .error err →
              newInterfacesSlice h key errPrefix m = .error (h.addDebugInfo err))
            ∧ (∀ ts err, List.Forall₂ (fun f t => newTrait h f = .ok t) pre ts →
              newTrait h f = .error err →
              newTraitsSlice h key errPrefix m = .error err)) := by
  refine ⟨?_, ?_, ?_, ?_⟩
  · intro hl
    refine ⟨?_, ?_, ?_⟩
    · simp [newAttrsSlice, hl]
    · simp [newInterfacesSlice, hl]
    · rw [newTraitsSlice_lookup, hl]
  · intro v hl hv
    refine ⟨?_, ?_, ?_⟩
    · simp only [newAttrsSlice, hl]
      cases v with
      | slice s => exact absurd rfl (hv s)
      | _ => exact ⟨_, rfl⟩
    · simp only [newInterfacesSlice, hl]
      cases v with
      | slice s => exact absurd rfl (hv s)
      | _ => exact ⟨_, rfl⟩
    · rw [newTraitsSlice_lookup, hl]
      cases v with
      | slice s => exact absurd rfl (hv s)
      | _ => exact ⟨_, rfl⟩
  · intro fs hl
    refine ⟨?_, ?_, ?_⟩
    · intro as has
      refine ⟨?_, by simp [has.length_eq]⟩
      simp only [newAttrsSlice, hl]
      rw [newAttrsSliceLoop_ok h key errPrefix fs as [] has]
      simp
    · intro is his
      refine ⟨?_, by simp [his.length_eq]⟩
      simp only [newInterfacesSlice, hl]
      rw [newInterfacesSliceLoop_ok h key errPrefix fs is [] his]
      simp
    · intro ts hts
      refine ⟨?_, by simp [hts.length_eq]⟩
      rw [newTraitsSlice_lookup, hl]
      simp only
      rw [newTraitsSliceLoop_ok h key errPrefix fs ts [] hts]
      simp
  · intro pre f post hl
    refine ⟨?_, ?_, ?_⟩
    · intro as err has hf
      simp only [newAttrsSlice, hl]
      exact newAttrsSliceLoop_first_error h key errPrefix pre post f as err [] has hf
    · intro is err his hf
      simp only [newInterfacesSlice, hl]
      exact newInterfacesSliceLoop_first_error h key errPrefix pre post f is err [] his hf
    · intro ts err hts hf
      rw [newTraitsSlice_lookup, hl]
      exact newTraitsSliceLoop_first_error h key errPrefix pre post f ts err [] hts hf

/-- Witness of C24: a map without the key, and a map whose `attributes` are
one well-formed attribute. -/
theorem C24_slice_constructors_witness :
    newTraitsSlice specHelpers "traits" "src/trait" traitWithoutTraits
        = .error specHelpers.errNotExist
      ∧ newAttrsSlice specHelpers "attributes" "src/class" oneAttribute
        = .ok [some { Var := { payload := "a" }, Visibility := "public", Constant := false
                      Static := true }] :=
  ⟨((C24_slice_constructors specHelpers "traits" "src/trait" traitWithoutTraits).1 rfl).2.2,
    (((C24_slice_constructors specHelpers "attributes" "src/class" oneAttribute).2.2.1
      [wellFormedAttr] rfl).1
      [{ Var := { payload := "a" }, Visibility := "public", Constant := false, Static := true }]
      (List.Forall₂.cons rfl List.Forall₂.nil)).1⟩
/-! ## `newTrait`: the field `traits` is required -/

theorem newTrait_eq (h : Helpers) (m : FieldMap) :
    newTrait h m =
      match h.extractStringValue "name" "src/trait" m with
      | .error err => .error err
      | .ok name =>
        match h.newAttributesSlice "attributes" "src/trait" m with
        | .error err => .error err
        | .ok attributes =>
          match h.newMethodsSlice "methods" "src/trait" m with
          | .error err => .error err
          | .ok methods =>
            match h.newClassesSlice "classes" "src/trait" m with
            | .error err => .error err
            | .ok classes =>
              match newTraitsSlice h "traits" "src/trait" m with
              | .error err => .error err
              | .ok traits => .ok (.mk name attributes methods classes traits) := by
  unfold newTrait
  conv_lhs => unfold newTraitOfValue

theorem newTrait_ok_inv (h : Helpers) (m : FieldMap) (t : Trait) (ht : newTrait h m = .ok t) :
    ∃ name attributes methods classes traits,
      h.extractStringValue "name" "src/trait" m = .ok name
        ∧ h.newAttributesSlice "attributes" "src/trait" m = .ok attributes
        ∧ h.newMethodsSlice "methods" "src/trait" m = .ok methods
        ∧ h.newClassesSlice "classes" "src/trait" m = .ok classes
        ∧ newTraitsSlice h "traits" "src/trait" m = .ok traits
        ∧ t = .mk name attributes methods classes traits := by
  rw [newTrait_eq] at ht
  cases h1 : h.extractStringValue "name" "src/trait" m with
  | error err => rw [h1] at ht; cases ht
  | ok name =>
    cases h2 : h.newAttributesSlice "attributes" "src/trait" m with
    | error err => rw [h1, h2] at ht; cases ht
    | ok attributes =>
      cases h3 : h.newMethodsSlice "methods" "src/trait" m with
      | error err => rw [h1, h2, h3] at ht; cases ht
      | ok methods =>
        cases h4 : h.newClassesSlice "classes" "src/trait" m with
        | error err => rw [h1, h2, h3, h4] at ht; cases ht
        | ok classes =>
          cases h5 : newTraitsSlice h "traits" "src/trait" m with
          | error err => rw [h1, h2, h3, h4, h5] at ht; cases ht
          | ok traits =>
            rw [h1, h2, h3, h4, h5] at ht
            cases ht
            exact ⟨name, attributes, methods, classes, traits, rfl, rfl, rfl, rfl, rfl, rfl⟩

theorem newTrait_without_traits (h : Helpers) (m : FieldMap) (hl : m.lookup "traits" = none) :
    ∃ err, newTrait h m = .error err := by
  cases ht : newTrait h m with
  | error err => exact ⟨err, rfl⟩
  | ok t =>
    obtain ⟨_, _, _, _, traits, -, -, -, -, h5, -⟩ := newTrait_ok_inv h m t ht
    rw [newTraitsSlice_lookup, hl] at h5
    cases h5

theorem newTraitsSliceLoop_ok_inv (h : Helpers) (key errPrefix : String) (s : List Value)
    (traits result : List (Option Trait))
    (hr : newTraitsSliceLoop h key errPrefix s traits = .ok result) :
    ∃ built, result = traits ++ built
      ∧ List.Forall₂ (fun v ot => ∃ f t, v = .map f ∧ ot = some t ∧ newTrait h f = .ok t)
          s built := by
  induction s generalizing traits with
  | nil =>
    simp only [newTraitsSliceLoop] at hr
    cases hr
    exact ⟨[], by simp, List.Forall₂.nil⟩
  | cons v rest ih =>
    cases v with
    | map f =>
      simp only [newTraitsSliceLoop] at hr
      cases hv : newTraitOfValue h (.map f) with
      | error err => rw [hv] at hr; cases hr
      | ok t =>
        rw [hv] at hr
        obtain ⟨built, hb, hall⟩ := ih _ hr
        exact ⟨some t :: built, by simp [hb], List.Forall₂.cons ⟨f, t, rfl, rfl, hv⟩ hall⟩
    | _ => simp only [newTraitsSliceLoop] at hr; cases hr

theorem newTraitsSlice_ok_inv (h : Helpers) (key errPrefix : String) (m : FieldMap)
    (result : List (Option Trait)) (hr : newTraitsSlice h key errPrefix m = .ok result) :
    ∃ s, m.lookup key = some (.slice s)
      ∧ List.Forall₂ (fun v ot => ∃ f t, v = .map f ∧ ot = some t ∧ newTrait h f = .ok t)
          s result := by
  rw [newTraitsSlice_lookup] at hr
  cases hl : m.lookup key with
  | none => rw [hl] at hr; cases hr
  | some v =>
    rw [hl] at hr
    cases v with
    | slice s =>
      obtain ⟨built, hb, hall⟩ := newTraitsSliceLoop_ok_inv h key errPrefix s [] result hr
      simp only [List.nil_append] at hb
      subst hb
      exact ⟨s, rfl, hall⟩
    | _ => cases hr

theorem Value.depth_lookup (m : FieldMap) (key : String) (v : Value)
    (hl : m.lookup key = some v) : v.depth ≤ Value.depthFields m := by
  induction m with
  | nil => cases hl
  | cons kv rest ih =>
    obtain ⟨k, x⟩ := kv
    simp only [Value.depthFields]
    by_cases hk : key == k
    · simp only [List.lookup, hk] at hl
      cases hl
      exact Nat.le_max_left _ _
    · simp only [List.lookup, hk] at hl
      exact le_trans (ih hl) (Nat.le_max_right _ _)

theorem Trait.depthList_le (h : Helpers) (s : List Value) (ts : List (Option Trait))
    (hall : List.Forall₂
      (fun v ot => ∃ f t, v = .map f ∧ ot = some t ∧ newTrait h f = .ok t) s ts)
    (hdepth : ∀ f t, Value.map f ∈ s → newTrait h f = .ok t → t.depth ≤ (Value.map f).depth) :
    Trait.depthList ts ≤ Value.depthList s := by
  induction hall with
  | nil => simp [Trait.depthList, Value.depthList]
  | cons hv _ ih =>
    obtain ⟨f, t, rfl, rfl, ht⟩ := hv
    simp only [Trait.depthList, Value.depthList]
    have h1 := hdepth f t (List.mem_cons_self _ _) ht
    have h2 := ih (fun f' t' hm => hdepth f' t' (List.mem_cons_of_mem _ hm))
    exact max_le_max h1 h2

theorem Value.depth_mem (s : List Value) (v : Value) (hv : v ∈ s) :
    v.depth ≤ Value.depthList s := by
  induction s with
  | nil => cases hv
  | cons x rest ih =>
    simp only [Value.depthList]
    rcases List.mem_cons.mp hv with rfl | hv
    · exact Nat.le_max_left _ _
    · exact le_trans (ih hv) (Nat.le_max_right _ _)

theorem newTrait_depth_le (h : Helpers) (n : Nat) (m : FieldMap) (t : Trait)
    (hn : (Value.map m).depth ≤ n) (ht : newTrait h m = .ok t) :
    t.depth ≤ (Value.map m).depth := by
  induction n generalizing m t with
  | zero => simp [Value.depth] at hn
  | succ n ih =>
    obtain ⟨name, attributes, methods, classes, traits, -, -, -, -, h5, rfl⟩ :=
      newTrait_ok_inv h m t ht
    obtain ⟨s, hl, hall⟩ := newTraitsSlice_ok_inv h "traits" "src/trait" m traits h5
    have hs : (Value.slice s).depth ≤ Value.depthFields m := Value.depth_lookup m "traits" _ hl
    simp only [Value.depth] at hs hn ⊢
    simp only [Trait.depth]
    have hle : Trait.depthList traits ≤ Value.depthList s := by
      refine Trait.depthList_le h s traits hall ?_
      intro f t' hmem ht'
      refine ih f t' ?_ ht'
      have := Value.depth_mem s _ hmem
      omega
    omega

/-- C25. `newTrait` returns an error and no trait for a field map without the
`traits` key (the sentinel itself when the other fields are accepted). A
trait that `newTrait` returns was built from a map whose `traits` value is a
sequence of field maps, each nested trait being what `newTrait` returns for
the element at its place, and its nesting depth is at most the nesting depth
of the map. -/
theorem C25_traits_required (h : Helpers) (m : FieldMap) :
    (m.lookup "traits" = none →
        (∃ err, newTrait h m = .error err)
          ∧ (∀ name attributes methods classes,
              h.extractStringValue "name" "src/trait" m = .ok name →
              h.newAttributesSlice "attributes" "src/trait" m = .ok attributes →
              h.newMethodsSlice "methods" "src/trait" m = .ok methods →
              h.newClassesSlice "classes" "src/trait" m = .ok classes →
              newTrait h m = .error h.errNotExist))
      ∧ (∀ t, newTrait h m = .ok t →
          (∃ s, m.lookup "traits" = some (.slice s)
              ∧ List.Forall₂
                  (fun v ot => ∃ f t', v = .map f ∧ ot = some t' ∧ newTrait h f = .ok t')
                  s t.Traits)
            ∧ t.depth ≤ (Value.map m).depth) := by
  refine ⟨?_, ?_⟩
  · intro hl
    refine ⟨newTrait_without_traits h m hl, ?_⟩
    intro name attributes methods classes h1 h2 h3 h4
    rw [newTrait_eq, h1, h2, h3, h4, newTraitsSlice_lookup, hl]
  · intro t ht
    refine ⟨?_, newTrait_depth_le h _ m t (le_refl _) ht⟩
    obtain ⟨name, attributes, methods, classes, traits, -, -, -, -, h5, rfl⟩ :=
      newTrait_ok_inv h m t ht
    exact newTraitsSlice_ok_inv h "traits" "src/trait" m traits h5

/-- Witness of C25: a leaf without the `traits` key is rejected with the
sentinel, and a trait with one nested leaf is built, with depth 2 from a map
of depth 4. -/
theorem C25_traits_required_witness :
    newTrait specHelpers traitWithoutTraits = .error specHelpers.errNotExist
      ∧ (Trait.mk "Outer" [] [] [] [some (.mk "Leaf" [] [] [] [])]).depth
        ≤ (Value.map nestedTrait).depth
      ∧ (Trait.mk "Outer" [] [] [] [some (.mk "Leaf" [] [] [] [])]).depth = 2
      ∧ (Value.map nestedTrait).depth = 4 :=
  ⟨((C25_traits_required specHelpers traitWithoutTraits).1 rfl).2 "Leaf" [] [] [] rfl rfl rfl rfl,
    ((C25_traits_required specHelpers nestedTrait).2
      (.mk "Outer" [] [] [] [some (.mk "Leaf" [] [] [] [])]) rfl).2,
    by decide, by decide⟩

end Srcanlzr
